import Mathlib

/-! Airport Rhapsody: the shared-memory model, its two containers and the operations of the
porter, the passengers and the bus driver.

A shallow embedding of the C sources (`probConst.h`, `probDataStruct.h`, `sharedDataSync.h`,
`cam.c`, `queue.c`, `semSharedMemPassengerO.c`, `semSharedMemPorter.c`, `semSharedMemDriver.c`,
`probSemSharedMemAirportRhapsody.c`).

Conventions of the embedding.
* A C array is a total map `Nat → α`; `store` is the assignment `a[i] = v`.  The cells beyond the
  declared bound are never addressed by the code in the states considered.
* `unsigned int` values are natural numbers below `2^32`; `++`, `--`, `+` and `-=` wrap around
  as in C.
* A `for` loop is a structurally recursive function over the number of remaining iterations.
-/

namespace AirportRhapsody

/-! ## probConst.h -/

/-- Number of plane landings. -/
def K : Nat := 5
/-- Number of passengers per flight. -/
def N : Nat := 6
/-- Maximum number of pieces of luggage per passenger. -/
def M : Nat := 2
/-- Number of seats in the bus. -/
def T : Nat := 3

/-! ## Machine arithmetic and arrays -/

/-- The assignment `a[i] = v` on an array seen as a map from indices to values. -/
def store {α : Type} (a : Nat → α) (i : Nat) (v : α) : Nat → α :=
  fun j => if j = i then v else a j

/-- The `unsigned int` sum `x + y` of two values below `2^32`. -/
def uadd (x y : Nat) : Nat := if x + y < 4294967296 then x + y else x + y - 4294967296

/-- The `unsigned int` increment `x++` of a value below `2^32` (wraps at `2^32 - 1`). -/
def uinc (x : Nat) : Nat := if x = 4294967295 then 0 else x + 1

/-- The `unsigned int` decrement `x--` of a value below `2^32` (wraps at zero). -/
def udec (x : Nat) : Nat := if x = 0 then 4294967295 else x - 1

/-- The `unsigned int` difference `x - y` of two values below `2^32` (wraps below zero). -/
def usub (x y : Nat) : Nat := if y ≤ x then x - y else x + 4294967296 - y

/-- The conversion `(int) u` of an `unsigned int` below `2^32`. -/
def toInt (u : Nat) : Int := if u < 2147483648 then (u : Int) else (u : Int) - 4294967296

/-- The conversion of an `int` to `unsigned int` (the usual arithmetic conversion). -/
def toUnsigned (i : Int) : Nat := if 0 ≤ i then i.toNat else (i + 4294967296).toNat

/-! ## probDataStruct.h: the containers -/

/-- Piece of luggage: the identification of its owner. -/
structure BAG where
  id : Nat

/-- Cam of bags. -/
structure CAM where
  mem : Nat → BAG
  n : Nat

/-- Queue of identifications. -/
structure QUEUE where
  mem : Nat → Nat
  ii : Nat
  ri : Nat
  full : Bool

/-- Queue position is empty. -/
def EMPTYPOS : Int := -1

/-! ## cam.c -/

/-- CAM initialization: the CAM is empty after it. -/
def camInit (c : CAM) : CAM := { c with n := 0 }

/-- The scan of `camSearch`, `for (i = 0; i < n; i++)`, with `r` iterations left. -/
def camSearchLoop (c : CAM) (val : Nat) : Nat → Nat → Bool
  | 0, _ => false
  | r + 1, i =>
    if i < c.n then
      if (c.mem i).id = val then true
      else if (c.mem i).id > val then false
      else camSearchLoop c val r (i + 1)
    else false

/-- Search for a value in the CAM. -/
def camSearch (c : CAM) (val : Nat) : Bool := camSearchLoop c val c.n 0

/-- The shifting loop of `camIn`, `for (j = ...; j > i; j--) mem[j] = mem[j-1]`. -/
def camInShift (i : Nat) : Nat → (Nat → BAG) → (Nat → BAG)
  | 0, mem => mem
  | j + 1, mem => if i < j + 1 then camInShift i j (store mem (j + 1) (mem j)) else mem

/-- The scan of `camIn`, `for (i = 1; i < n; i++) if (mem[i].id > val) break;`: the final `i`. -/
def camInFind (c : CAM) (val : Nat) : Nat → Nat → Nat
  | 0, i => i
  | r + 1, i =>
    if i < c.n then
      if (c.mem i).id > val then i else camInFind c val r (i + 1)
    else i

/-- Insertion of a value into the CAM. -/
def camIn (c : CAM) (val : Nat) : CAM :=
  if c.n = M * N then c
  else if c.n = 0 then
    { mem := store c.mem 0 { c.mem 0 with id := val }, n := uinc c.n }
  else if (c.mem 0).id > val then
    let mem1 := camInShift 0 c.n c.mem
    { mem := store mem1 0 { mem1 0 with id := val }, n := uinc c.n }
  else
    let i := camInFind c val c.n 1
    let mem1 := camInShift i c.n c.mem
    { mem := store mem1 i { mem1 i with id := val }, n := uinc c.n }

/-- The index at which `camIn` stores `val` in a CAM that is not full. -/
def camInPos (c : CAM) (val : Nat) : Nat :=
  if c.n = 0 then 0
  else if (c.mem 0).id > val then 0
  else camInFind c val c.n 1

/-- The shifting loop of `camOut`, `for (j = i + 1; j < n; j++) mem[j-1] = mem[j]`. -/
def camOutShift (n : Nat) : Nat → Nat → (Nat → BAG) → (Nat → BAG)
  | 0, _, mem => mem
  | r + 1, j, mem => if j < n then camOutShift n r (j + 1) (store mem (j - 1) (mem j)) else mem

/-- The scan of `camOut`, `for (i = 0; i < n; i++)`, leaving at the first match. -/
def camOutLoop (val : Nat) : Nat → Nat → CAM → CAM
  | 0, _, c => c
  | r + 1, i, c =>
    if i < c.n then
      if (c.mem i).id = val then
        { mem := camOutShift c.n c.n (i + 1) c.mem, n := udec c.n }
      else camOutLoop val r (i + 1) c
    else c

/-- Retrieval of a value from the CAM. -/
def camOut (c : CAM) (val : Nat) : CAM :=
  if c.n = 0 then c else camOutLoop val c.n 0 c

/-- Test for CAM full. -/
def camFull (c : CAM) : Bool := c.n == M * N

/-- Test for CAM empty. -/
def camEmpty (c : CAM) : Bool := c.n == 0

/-- The ids stored in the CAM, `mem[0..n-1]`. -/
def camContents (c : CAM) : List Nat := (List.range c.n).map (fun i => (c.mem i).id)

/-- The stored ids are in non-decreasing order. -/
def camSorted (c : CAM) : Prop := ∀ i j, i < j → j < c.n → (c.mem i).id ≤ (c.mem j).id

/-- A call on the CAM. -/
inductive CamOp where
  | camIn (val : Nat)
  | camOut (val : Nat)

/-- One call applied to the CAM. -/
def camStep (c : CAM) : CamOp → CAM
  | CamOp.camIn val => camIn c val
  | CamOp.camOut val => camOut c val

/-- A sequence of calls applied to the CAM, the first call first. -/
def camRun (c : CAM) (ops : List CamOp) : CAM := ops.foldl camStep c

/-! ## queue.c -/

/-- Queue initialization: the queue is empty after it. -/
def queueInit (q : QUEUE) : QUEUE := { q with ii := 0, ri := 0, full := false }

/-- Insertion of a value into the queue. -/
def queueIn (q : QUEUE) (val : Nat) : QUEUE :=
  if q.full then q
  else
    let ii1 := uinc q.ii % N
    { mem := store q.mem q.ii val, ii := ii1, ri := q.ri, full := decide (ii1 = q.ri) }

/-- Retrieval of a value from the queue; `val` is the content of `*p_val` before the call, the
second component its content after the call. -/
def queueOut (q : QUEUE) (val : Nat) : QUEUE × Nat :=
  if !q.full && decide (q.ii = q.ri) then (q, val)
  else ({ q with ri := uinc q.ri % N, full := false }, q.mem q.ri)

/-- Peek at a value from the queue. -/
def queuePeek (q : QUEUE) (pos : Nat) : Int :=
  if decide (pos ≥ N) || (!q.full && decide (q.ii = q.ri)) then EMPTYPOS
  else if decide (q.ii > q.ri) && decide (q.ii > uadd q.ri pos) then toInt (q.mem (uadd q.ri pos))
  else if q.ii ≤ q.ri then
    if decide (uadd q.ri pos % N ≥ q.ri) || decide (uadd q.ri pos % N < q.ii) then
      toInt (q.mem (uadd q.ri pos % N))
    else EMPTYPOS
  else EMPTYPOS

/-- Test for queue full. -/
def queueFull (q : QUEUE) : Bool := q.full

/-- Test for queue empty. -/
def queueEmpty (q : QUEUE) : Bool := !q.full && decide (q.ii = q.ri)

/-- The number of ids stored in the queue, read off the two indices and the flag. -/
def queueCount (q : QUEUE) : Nat := if q.full then N else (q.ii + N - q.ri) % N

/-- The ids stored in the queue, the head (next to be retrieved) first. -/
def queueContents (q : QUEUE) : List Nat :=
  (List.range (queueCount q)).map (fun j => q.mem ((q.ri + j) % N))

/-- The indices address the storage region, and a full queue has `ii == ri`. -/
def queueWF (q : QUEUE) : Prop := q.ii < N ∧ q.ri < N ∧ (q.full = true → q.ii = q.ri)

/-- The calls `queueIn` for the ids of a list, the first id first. -/
def queueInAll (q : QUEUE) (ids : List Nat) : QUEUE := ids.foldl queueIn q

/-- The call `queueOut (q, &val)` made `k` times on the same variable `val`: the final queue and
the content of `val` after each call. -/
def queueOutN : Nat → QUEUE → Nat → QUEUE × List Nat
  | 0, q, _ => (q, [])
  | k + 1, q, val =>
    let r := queueOut q val
    ((queueOutN k r.1 r.2).1, r.2 :: (queueOutN k r.1 r.2).2)

/-- A call on the queue. -/
inductive QueueOp where
  | queueIn (val : Nat)
  | queueOut

/-- One call applied to the queue. -/
def queueStep (q : QUEUE) : QueueOp → QUEUE
  | QueueOp.queueIn val => queueIn q val
  | QueueOp.queueOut => (queueOut q 0).1

/-- A sequence of calls applied to the queue, the first call first. -/
def queueRun (q : QUEUE) (ops : List QueueOp) : QUEUE := ops.foldl queueStep q

/-- The boarding line as the specification words it: a first-in first-out line of at most `N`
ids, where an insertion into a full line and a retrieval from an empty line do nothing. -/
def specQueueStep (l : List Nat) : QueueOp → List Nat
  | QueueOp.queueIn val => if l.length < N then l ++ [val] else l
  | QueueOp.queueOut => l.tail

/-- A sequence of calls applied to the specification's line. -/
def specQueueRun (l : List Nat) (ops : List QueueOp) : List Nat := ops.foldl specQueueStep l

/-! ## probConst.h: the state constants -/

/-- The porter is reading a newspaper while waiting for next assignment. -/
def WAITING_FOR_A_PLANE_TO_LAND : Nat := 0
/-- The porter is at the plane's hold looking for bags. -/
def AT_THE_PLANES_HOLD : Nat := 1
/-- The porter is depositing the bag on the belt conveyor. -/
def AT_THE_LUGGAGE_BELT_CONVEYOR : Nat := 2
/-- The porter is placing the bag in temporary storage. -/
def AT_THE_STOREROOM : Nat := 3

/-- The passenger is coming out of the plane after landing. -/
def AT_THE_DISEMBARKING_ZONE : Nat := 0
/-- The passenger is waiting at the luggage collection point. -/
def AT_THE_LUGGAGE_COLLECTION_POINT : Nat := 1
/-- The passenger is at the baggage reclaim office. -/
def AT_THE_BAGGAGE_RECLAIM_OFFICE : Nat := 2
/-- The passenger is exiting the airport. -/
def EXITING_THE_ARRIVAL_TERMINAL : Nat := 3
/-- The passenger is queueing at the arrival transfer terminal. -/
def AT_THE_ARRIVAL_TRANSFER_TERMINAL : Nat := 4
/-- The passenger is traveling in the bus. -/
def TERMINAL_TRANSFER : Nat := 5
/-- The passenger is leaving the bus at the departure transfer terminal. -/
def AT_THE_DEPARTURE_TRANSFER_TERMINAL : Nat := 6
/-- The passenger is entering the departure terminal lobby. -/
def ENTERING_THE_DEPARTURE_TERMINAL : Nat := 7

/-- The driver has parked at the arrival transfer terminal. -/
def PARKING_AT_THE_ARRIVAL_TERMINAL : Nat := 0
/-- The driver is taking the bus to the departure transfer terminal. -/
def DRIVING_FORWARD : Nat := 1
/-- The driver has parked at the departure transfer terminal. -/
def PARKING_AT_THE_DEPARTURE_TERMINAL : Nat := 2
/-- The driver is taking the bus back to the arrival transfer terminal. -/
def DRIVING_BACKWARD : Nat := 3

/-! ## probDataStruct.h and sharedDataSync.h: the shared region -/

/-- State of the passenger. -/
structure STAT_PASSENGER where
  stat : Nat
  sit : Nat
  nBagsReal : Nat
  nBagsAct : Nat

/-- Passenger has this airport as her final destination. -/
def FD : Nat := 0
/-- Passenger is in transit. -/
def TRT : Nat := 1

/-- State of the intervening entities. -/
structure STAT where
  porterStat : Nat
  passStat : Nat → Nat → STAT_PASSENGER
  driverStat : Nat

/-- Plane load. -/
structure LOAD where
  nBags : Nat
  bag : Nat → BAG

/-- Participant information for a transfer: `seat[T]` and the number of seats occupied. -/
structure TRANSF_INFO where
  seat : Nat → Int
  nOccup : Nat

/-- Seat is empty. -/
def EMPTYST : Int := -1

/-- Full state of the problem. -/
structure FULL_STAT where
  nLand : Nat
  st : STAT
  plHold : Nat → LOAD
  convBelt : CAM
  busQueue : QUEUE
  bus : TRANSF_INFO
  nToTPassFD : Nat
  nToTPassTST : Nat
  nToTBagsPCB : Nat
  nToTBagsPSR : Nat
  nToTMBags : Nat
  dayEnded : Bool

/-- Shared information: the full state, the identifications of the semaphores and the counters
of the rendezvous. -/
structure SHARED_DATA where
  fSt : FULL_STAT
  access : Nat
  waitingFlight : Nat
  nPassP : Nat
  pass : Nat → Nat
  nCalls : Nat → Nat
  waitingDrive : Nat
  waitingPass : Nat
  nPassD : Nat

/-- Index of critical region semaphore. -/
def ACCESS : Nat := 1
/-- Index of porter waiting for work semaphore. -/
def WAITINGFLIGHT : Nat := 2
/-- Index of bus driver waiting for starting a new journey semaphore. -/
def WAITINGDRIVE : Nat := 3
/-- Index of bus driver waiting for passengers to board / unboard semaphore. -/
def WAITINGPASS : Nat := 4
/-- Base index of passengers semaphore array. -/
def B_PASS : Nat := 5

/-! ## The operations: conventions

An operation of an entity is embedded through its critical region, which runs atomically between
the `semDown` and the `semUp` on `access`.  Its result is an `Outcome`: the shared region it
leaves, the semaphores on which it executed `semUp` (in order, `access` apart), the semaphore on
which the caller executes `semDown` after leaving the region (if any) and the value returned.
An operation that ends in `exit (EXIT_FAILURE)` yields `none`.  `saveState` only appends a line to
the logging file and leaves the shared region as it is.  A failing semaphore primitive is not part
of the embedding. -/

/-- What an operation leaves behind. -/
structure Outcome (α : Type) where
  sh : SHARED_DATA
  ups : List Nat
  down : Option Nat
  ret : α

/-- The loop `for (i = 0; i < n; i++) body`, without `break`, on the state `s`. -/
def forUpTo {σ : Type} (body : Nat → σ → σ) : Nat → σ → σ
  | 0, s => s
  | n + 1, s => body n (forUpTo body n s)

/-- The assignment `sh->fSt.st.passStat[k][i] = v` of a whole passenger record. -/
def setPassenger (sh : SHARED_DATA) (k i : Nat) (v : STAT_PASSENGER) : SHARED_DATA :=
  { sh with fSt := { sh.fSt with st := { sh.fSt.st with
      passStat := store sh.fSt.st.passStat k (store (sh.fSt.st.passStat k) i v) } } }

/-- The assignment `sh->fSt.st.passStat[k][i].stat = v`. -/
def setStat (sh : SHARED_DATA) (k i v : Nat) : SHARED_DATA :=
  setPassenger sh k i { sh.fSt.st.passStat k i with stat := v }

/-! ## semSharedMemPassengerO.c -/

/-- The passenger has this airport as her final destination and has bags to collect. -/
def FDBTC : Nat := 0
/-- The passenger has this airport as her final destination with no bags to collect. -/
def FDNBTC : Nat := 1
/-- The passenger is in transit. -/
def INTRAN : Nat := 2
/-- The passenger has collected all her bags. -/
def YES : Nat := 0
/-- The passenger has not yet collected all her bags. -/
def NO : Nat := 1
/-- The passenger has missing bags. -/
def MB : Nat := 3

/-- What should I do. -/
def whatShouldIDo (sh : SHARED_DATA) (k id : Nat) : Outcome Nat :=
  -- classification and statistical information
  let sh1 : SHARED_DATA :=
    if (sh.fSt.st.passStat k id).sit = TRT then
      { sh with fSt := { sh.fSt with nToTPassTST := uinc sh.fSt.nToTPassTST } }
    else
      { sh with fSt := { sh.fSt with nToTPassFD := uinc sh.fSt.nToTPassFD } }
  let stat : Nat :=
    if (sh.fSt.st.passStat k id).sit = TRT then INTRAN
    else if (sh.fSt.st.passStat k id).nBagsReal = 0 then FDNBTC else FDBTC
  -- the very first passenger descending from the plane
  let sh2 : SHARED_DATA :=
    if sh1.nPassP % N = 0 then
      forUpTo (fun i s => setStat s k i AT_THE_DISEMBARKING_ZONE) N
        { sh1 with fSt := { sh1.fSt with nLand := uinc sh1.fSt.nLand } }
    else sh1
  let sh3 : SHARED_DATA := { sh2 with nPassP := uinc sh2.nPassP }
  -- the very last passenger descending wakes up the porter
  { sh := sh3, ups := if sh3.nPassP = N then [sh3.waitingFlight] else [], down := none,
    ret := stat }

/-- Go collect a bag, the first critical region; the passenger then waits on her semaphore. -/
def goCollectABagArrive (sh : SHARED_DATA) (k id : Nat) : Outcome Unit :=
  let sh1 : SHARED_DATA :=
    if (sh.fSt.st.passStat k id).stat = AT_THE_DISEMBARKING_ZONE then
      setStat sh k id AT_THE_LUGGAGE_COLLECTION_POINT
    else sh
  { sh := sh1, ups := [], down := some (sh1.pass id), ret := () }

/-- The assignment `sh->fSt.st.passStat[k][id].nBagsAct++`. -/
def incBagsAct (sh : SHARED_DATA) (k id : Nat) : SHARED_DATA :=
  setPassenger sh k id
    { sh.fSt.st.passStat k id with nBagsAct := uinc (sh.fSt.st.passStat k id).nBagsAct }

/-- Go collect a bag, the second critical region, entered after the call of the porter. -/
def goCollectABag (sh : SHARED_DATA) (k id : Nat) : Outcome Nat :=
  let r : SHARED_DATA × Nat :=
    if camEmpty sh.fSt.convBelt then
      if (sh.fSt.st.passStat k id).nBagsAct < (sh.fSt.st.passStat k id).nBagsReal then (sh, MB)
      else (sh, YES)
    else if camSearch sh.fSt.convBelt id then
      let sh1 : SHARED_DATA :=
        incBagsAct { sh with fSt := { sh.fSt with convBelt := camOut sh.fSt.convBelt id } } k id
      if (sh1.fSt.st.passStat k id).nBagsAct < (sh1.fSt.st.passStat k id).nBagsReal then (sh1, NO)
      else (sh1, YES)
    else
      if (sh.fSt.st.passStat k id).nBagsAct < (sh.fSt.st.passStat k id).nBagsReal then (sh, MB)
      else (sh, YES)
  { sh := { r.1 with nCalls := store r.1.nCalls id (udec (r.1.nCalls id)) }, ups := [],
    down := none, ret := r.2 }

/-- Report missing bags. -/
def reportMissingBags (sh : SHARED_DATA) (k id : Nat) : Outcome Unit :=
  { sh := setStat sh k id AT_THE_BAGGAGE_RECLAIM_OFFICE, ups := [], down := none, ret := () }

/-- The count, in `goHome` and `prepareNextLeg`, of the passengers of landing `k` who are
entering the departure terminal or exiting the arrival terminal. -/
def readyCount (sh : SHARED_DATA) (k : Nat) : Nat :=
  forUpTo (fun i counter =>
    if (sh.fSt.st.passStat k i).stat = ENTERING_THE_DEPARTURE_TERMINAL
        ∨ (sh.fSt.st.passStat k i).stat = EXITING_THE_ARRIVAL_TERMINAL then counter + 1
    else counter) N 0

/-- The loop of `goHome` and `prepareNextLeg` that executes `semUp` on `pass[i]` for `i != id`. -/
def wakeOthers (sh : SHARED_DATA) (id : Nat) : List Nat :=
  forUpTo (fun i ups => if i ≠ id then ups ++ [sh.pass i] else ups) N []

/-- Go home. -/
def goHome (sh : SHARED_DATA) (k id : Nat) : Outcome Unit :=
  let sh1 := setStat sh k id EXITING_THE_ARRIVAL_TERMINAL
  let counter := readyCount sh1 k
  if counter = N then
    { sh := if k = K - 1 then { sh1 with fSt := { sh1.fSt with dayEnded := true } } else sh1,
      ups := wakeOthers sh1 id, down := none, ret := () }
  else
    { sh := sh1, ups := [], down := some (sh1.pass id), ret := () }

/-- Take a bus. -/
def takeABus (sh : SHARED_DATA) (k id : Nat) : Outcome Unit :=
  let sh1 : SHARED_DATA := { sh with fSt := { sh.fSt with busQueue := queueIn sh.fSt.busQueue id } }
  let counter : Nat :=
    forUpTo (fun i counter =>
      if queuePeek sh1.fSt.busQueue i ≠ EMPTYPOS then counter + 1 else counter) T 0
  let sh2 := setStat sh1 k id AT_THE_ARRIVAL_TRANSFER_TERMINAL
  { sh := sh2, ups := if counter = T then [sh1.waitingDrive] else [],
    down := some (sh2.pass id), ret := () }

/-- The loop of `enterTheBus`: the first empty seat, if any, from seat `i` on receives `id`. -/
def enterTheBusLoop (id : Nat) : Nat → Nat → TRANSF_INFO → TRANSF_INFO
  | 0, _, b => b
  | r + 1, i, b =>
    if b.seat i = EMPTYST then { seat := store b.seat i (toInt id), nOccup := uinc b.nOccup }
    else enterTheBusLoop id r (i + 1) b

/-- Enter the bus. -/
def enterTheBus (sh : SHARED_DATA) (k id : Nat) : Option (Outcome Unit) :=
  if sh.fSt.bus.nOccup = T then none
  else
    let sh1 : SHARED_DATA :=
      { sh with fSt := { sh.fSt with bus := enterTheBusLoop id T 0 sh.fSt.bus } }
    let sh2 : SHARED_DATA := { sh1 with nPassD := udec sh1.nPassD }
    let sh3 := setStat sh2 k id TERMINAL_TRANSFER
    some { sh := sh3, ups := if sh2.nPassD = 0 then [sh2.waitingPass] else [],
           down := some (sh3.pass id), ret := () }

/-- The loop of `leaveTheBus`: the first seat, if any, from seat `i` on that holds `id` is
emptied. -/
def leaveTheBusLoop (id : Nat) : Nat → Nat → TRANSF_INFO → TRANSF_INFO
  | 0, _, b => b
  | r + 1, i, b =>
    if toUnsigned (b.seat i) = id then { seat := store b.seat i EMPTYST, nOccup := udec b.nOccup }
    else leaveTheBusLoop id r (i + 1) b

/-- Leave the bus. -/
def leaveTheBus (sh : SHARED_DATA) (k id : Nat) : Option (Outcome Unit) :=
  if sh.fSt.bus.nOccup = 0 then none
  else
    let sh1 : SHARED_DATA :=
      { sh with fSt := { sh.fSt with bus := leaveTheBusLoop id T 0 sh.fSt.bus } }
    let sh2 : SHARED_DATA := { sh1 with nPassD := uinc sh1.nPassD }
    let sh3 := setStat sh2 k id AT_THE_DEPARTURE_TRANSFER_TERMINAL
    some { sh := sh3, ups := if sh2.fSt.bus.nOccup = 0 then [sh2.waitingPass] else [],
           down := none, ret := () }

/-- Prepare next leg. -/
def prepareNextLeg (sh : SHARED_DATA) (k id : Nat) : Outcome Unit :=
  let sh1 := setStat sh k id ENTERING_THE_DEPARTURE_TERMINAL
  let counter := readyCount sh1 k
  if counter = N then
    { sh := if k = K - 1 then { sh1 with fSt := { sh1.fSt with dayEnded := true } } else sh1,
      ups := wakeOthers sh1 id, down := none, ret := () }
  else
    { sh := sh1, ups := [], down := some (sh1.pass id), ret := () }

/-! ## semSharedMemPorter.c -/

/-- Take a rest: the critical region entered after the `semDown` on `waitingFlight`. -/
def takeARest (sh : SHARED_DATA) (_k : Nat) : Outcome Unit :=
  { sh := { sh with nPassP := usub sh.nPassP N }, ups := [], down := none, ret := () }

/-- The loop of `tryToCollectABag` on an empty hold: every final-destination passenger of the
landing who waits for more bags than she has been called for is called once more. -/
def informPassengers (k : Nat) (sh : SHARED_DATA) : SHARED_DATA × List Nat :=
  forUpTo (fun i (s : SHARED_DATA × List Nat) =>
    if (s.1.fSt.st.passStat k i).sit = FD ∧
        uadd (s.1.fSt.st.passStat k i).nBagsAct (s.1.nCalls i)
          < (s.1.fSt.st.passStat k i).nBagsReal then
      ({ s.1 with nCalls := store s.1.nCalls i (uinc (s.1.nCalls i)) }, s.2 ++ [s.1.pass i])
    else s) N (sh, [])

/-- Try to collect a bag; `bag` is the content of `*p_bag` before the call, the second component
of the value returned its content after the call. -/
def tryToCollectABag (sh : SHARED_DATA) (k : Nat) (bag : BAG) : Outcome (Bool × BAG) :=
  let r : (SHARED_DATA × List Nat) × (Bool × BAG) :=
    if (sh.fSt.plHold k).nBags ≠ 0 then
      (({ sh with fSt := { sh.fSt with
            plHold := store sh.fSt.plHold k
              { sh.fSt.plHold k with nBags := udec (sh.fSt.plHold k).nBags } } }, []),
        (true, (sh.fSt.plHold k).bag ((sh.fSt.plHold k).nBags - 1)))
    else (informPassengers k sh, (false, bag))
  { sh := { r.1.1 with fSt := { r.1.1.fSt with
              st := { r.1.1.fSt.st with porterStat := AT_THE_PLANES_HOLD } } },
    ups := r.1.2, down := none, ret := r.2 }

/-- Carry it to the appropriate store. -/
def carryItToAppropriateStore (sh : SHARED_DATA) (k : Nat) (bag : BAG) :
    Option (Outcome Unit) :=
  if bag.id > N then none
  else if (sh.fSt.st.passStat k bag.id).sit = FD then
    let sh1 : SHARED_DATA :=
      { sh with fSt := { sh.fSt with nToTBagsPCB := uinc sh.fSt.nToTBagsPCB } }
    let sh2 : SHARED_DATA := { sh1 with nCalls := store sh1.nCalls bag.id (uinc (sh1.nCalls bag.id)) }
    let sh3 : SHARED_DATA :=
      { sh2 with fSt := { sh2.fSt with convBelt := camIn sh2.fSt.convBelt bag.id } }
    let sh4 : SHARED_DATA :=
      { sh3 with fSt := { sh3.fSt with
          st := { sh3.fSt.st with porterStat := AT_THE_LUGGAGE_BELT_CONVEYOR } } }
    some { sh := sh4, ups := [sh4.pass bag.id], down := none, ret := () }
  else if (sh.fSt.st.passStat k bag.id).sit = TRT then
    let sh1 : SHARED_DATA :=
      { sh with fSt := { sh.fSt with nToTBagsPSR := uinc sh.fSt.nToTBagsPSR } }
    some { sh := { sh1 with fSt := { sh1.fSt with
                    st := { sh1.fSt.st with porterStat := AT_THE_STOREROOM } } },
           ups := [], down := none, ret := () }
  else some { sh := sh, ups := [], down := none, ret := () }

/-- No more bags to collect. -/
def noMoreBagsToCollect (sh : SHARED_DATA) (_k : Nat) : Outcome Unit :=
  { sh := { sh with fSt := { sh.fSt with
              st := { sh.fSt.st with porterStat := WAITING_FOR_A_PLANE_TO_LAND } } },
    ups := [], down := none, ret := () }

/-! ## semSharedMemDriver.c -/

/-- The assignment `sh->fSt.st.driverStat = v`. -/
def setDriverStat (sh : SHARED_DATA) (v : Nat) : SHARED_DATA :=
  { sh with fSt := { sh.fSt with st := { sh.fSt.st with driverStat := v } } }

/-- How one pass through the body of the `do ... while` of `hasDaysWorkEnded` ends. -/
inductive DaysWork where
  /-- The flag `dayEnded` was up: the function returns `true`. -/
  | ended
  /-- The flag was down and `queueEmpty` held: the body is executed again at once. -/
  | again
  /-- The flag was down and the queue held an id: the driver executes `semDown` on
  `waitingDrive` and the function returns `false`. -/
  | sleep
  deriving DecidableEq

/-- Has days work ended: one pass through the body of its loop.  The shared region is only
read. -/
def hasDaysWorkEnded (sh : SHARED_DATA) : Outcome DaysWork :=
  if sh.fSt.dayEnded then { sh := sh, ups := [], down := none, ret := DaysWork.ended }
  else if queueEmpty sh.fSt.busQueue then
    { sh := sh, ups := [], down := none, ret := DaysWork.again }
  else { sh := sh, ups := [], down := some sh.waitingDrive, ret := DaysWork.sleep }

/-- The loop of `announcingBusBoarding`; the state holds the shared region, the local `id` and
the semaphores raised so far, and is `none` after `exit (EXIT_FAILURE)`. -/
def summonPassengers (sh : SHARED_DATA) : Option (SHARED_DATA × Nat × List Nat) :=
  forUpTo (fun _ (st : Option (SHARED_DATA × Nat × List Nat)) =>
    match st with
    | none => none
    | some (s, id, ups) =>
      if !queueEmpty s.fSt.busQueue then
        let r := queueOut s.fSt.busQueue id
        let s1 : SHARED_DATA :=
          { s with fSt := { s.fSt with busQueue := r.1 }, nPassD := uinc s.nPassD }
        if r.2 < N then some (s1, r.2, ups ++ [s1.pass r.2]) else none
      else some (s, id, ups)) T (some (sh, 0, []))

/-- Announcing bus boarding.  The local `id` is written by `queueOut` before it is read. -/
def announcingBusBoarding (sh : SHARED_DATA) : Option (Outcome Unit) :=
  if queueEmpty sh.fSt.busQueue then none
  else
    match summonPassengers sh with
    | none => none
    | some (s, _, ups) => some { sh := s, ups := ups, down := some s.waitingPass, ret := () }

/-- Go to departure terminal. -/
def goToDepartureTerminal (sh : SHARED_DATA) : Outcome Unit :=
  { sh := setDriverStat sh DRIVING_FORWARD, ups := [], down := none, ret := () }

/-- The loop of `parkTheBusAndLetPassOff` over the seats below `nOccup`.  The comparison
`seat[i] < N` is a signed one.  For a negative `seat[i]` the C code addresses the memory in front
of `pass[]`; the embedding reads `pass` at `0` there. -/
def summonSeats (sh : SHARED_DATA) : Option (SHARED_DATA × List Nat) :=
  forUpTo (fun i (st : Option (SHARED_DATA × List Nat)) =>
    match st with
    | none => none
    | some (s, ups) =>
      if s.fSt.bus.seat i < (N : Int) then
        some ({ s with nPassD := uinc s.nPassD }, ups ++ [s.pass (s.fSt.bus.seat i).toNat])
      else none) sh.fSt.bus.nOccup (some (sh, []))

/-- Park the bus and let passengers off. -/
def parkTheBusAndLetPassOff (sh : SHARED_DATA) : Option (Outcome Unit) :=
  let sh1 := setDriverStat sh PARKING_AT_THE_DEPARTURE_TERMINAL
  if sh1.fSt.bus.nOccup > T ∨ sh1.fSt.bus.nOccup = 0 then none
  else
    match summonSeats sh1 with
    | none => none
    | some (s, ups) => some { sh := s, ups := ups, down := some s.waitingPass, ret := () }

/-- Go to arrival terminal. -/
def goToArrivalTerminal (sh : SHARED_DATA) : Outcome Unit :=
  { sh := setDriverStat sh DRIVING_BACKWARD, ups := [], down := none, ret := () }

/-- Park the bus. -/
def parkTheBus (sh : SHARED_DATA) : Outcome Unit :=
  { sh := setDriverStat sh PARKING_AT_THE_ARRIVAL_TERMINAL, ups := [], down := none, ret := () }

/-- Signal service function of the timer of the driver. -/
def alarmCk (sh : SHARED_DATA) : Outcome Unit :=
  { sh := sh, ups := [sh.waitingDrive], down := none, ret := () }

/-! ## probSemSharedMemAirportRhapsody.c: the initialisation of the shared region

The values drawn from `random ()` are inputs: `rSit k p` and `rLost k p` stand for the two values
`(unsigned int) floor (9.0*random ()/RAND_MAX+1.5)` and `rReal k p` for
`(unsigned int) floor (((double) M)*random ()/RAND_MAX+0.5)` drawn for passenger `p` of
landing `k`. -/

/-- The random draws of the generator. -/
structure Draws where
  rSit : Nat → Nat → Nat
  rReal : Nat → Nat → Nat
  rLost : Nat → Nat → Nat

/-- The body of `for (p = 0; p < N; p++)` that generates the passenger `p` of landing `k`; the
second component is `nTot`. -/
def genPassenger (d : Draws) (k p : Nat) (s : SHARED_DATA × Nat) : SHARED_DATA × Nat :=
  let sit : Nat := if d.rSit k p < 4 then TRT else FD
  let real : Nat := d.rReal k p
  let act : Nat :=
    if sit = TRT ∨ real = 0 then real
    else if d.rLost k p < 5 then usub real 1 else real
  (setPassenger s.1 k p
      { stat := AT_THE_DISEMBARKING_ZONE, sit := sit, nBagsReal := real, nBagsAct := act },
    uadd s.2 act)

/-- The body of `for (p = 0; p < N; p++)` that fills in the plane load: the bags of passenger
`p` are listed, then her `nBagsAct` is reset; the second component is `i`. -/
def fillPassenger (k p : Nat) (s : SHARED_DATA × Nat) : SHARED_DATA × Nat :=
  let s1 : SHARED_DATA × Nat :=
    forUpTo (fun _ (t : SHARED_DATA × Nat) =>
      ({ t.1 with fSt := { t.1.fSt with
          plHold := store t.1.fSt.plHold k
            { t.1.fSt.plHold k with
              bag := store (t.1.fSt.plHold k).bag t.2
                { (t.1.fSt.plHold k).bag t.2 with id := p } } } }, uinc t.2))
      (s.1.fSt.st.passStat k p).nBagsAct s
  (setPassenger s1.1 k p { s1.1.fSt.st.passStat k p with nBagsAct := 0 }, s1.2)

/-- The loop `while (i < nTot)` that fills in the plane load, with `r` passes left. -/
def fillLoad (k nTot : Nat) : Nat → SHARED_DATA × Nat → SHARED_DATA × Nat
  | 0, s => s
  | r + 1, s => if s.2 < nTot then fillLoad k nTot r (forUpTo (fillPassenger k) N s) else s

/-- The body of `for (k = 0; k < K; k++)` of the generator. -/
def genLanding (d : Draws) (k : Nat) (sh : SHARED_DATA) : SHARED_DATA :=
  let s1 : SHARED_DATA × Nat := forUpTo (genPassenger d k) N (sh, 0)
  let sh2 : SHARED_DATA :=
    { s1.1 with fSt := { s1.1.fSt with
        plHold := store s1.1.fSt.plHold k { s1.1.fSt.plHold k with nBags := s1.2 } } }
  (fillLoad k s1.2 (s1.2 + 1) (sh2, 0)).1

/-- The initialisation of the shared region by the generator, from the region `sh` as created. -/
def mainInit (d : Draws) (sh : SHARED_DATA) : SHARED_DATA :=
  let sh1 : SHARED_DATA :=
    { sh with fSt := { sh.fSt with
        nLand := 0, st := { sh.fSt.st with porterStat := WAITING_FOR_A_PLANE_TO_LAND } } }
  let sh2 : SHARED_DATA := forUpTo (genLanding d) K sh1
  let sh3 : SHARED_DATA := setDriverStat sh2 PARKING_AT_THE_ARRIVAL_TERMINAL
  let sh4 : SHARED_DATA :=
    { sh3 with fSt := { sh3.fSt with
        convBelt := camInit sh3.fSt.convBelt, busQueue := queueInit sh3.fSt.busQueue } }
  let sh5 : SHARED_DATA := { sh4 with fSt := { sh4.fSt with bus := { sh4.fSt.bus with nOccup := 0 } } }
  let sh6 : SHARED_DATA :=
    forUpTo (fun i (s : SHARED_DATA) =>
      { s with fSt := { s.fSt with bus := { s.fSt.bus with seat := store s.fSt.bus.seat i EMPTYST } } })
      T sh5
  let sh7 : SHARED_DATA :=
    { sh6 with fSt := { sh6.fSt with
        nToTPassFD := 0, nToTPassTST := 0, nToTBagsPCB := 0, nToTBagsPSR := 0, nToTMBags := 0,
        dayEnded := false } }
  let sh8 : SHARED_DATA :=
    forUpTo (fun p (s : SHARED_DATA) => { s with nCalls := store s.nCalls p 0 }) N
      { sh7 with nPassP := 0 }
  let sh9 : SHARED_DATA :=
    { sh8 with nPassD := 0, access := ACCESS, waitingFlight := WAITINGFLIGHT,
               waitingDrive := WAITINGDRIVE, waitingPass := WAITINGPASS }
  forUpTo (fun p (s : SHARED_DATA) => { s with pass := store s.pass p (B_PASS + p) }) N sh9

/-- A shared region as created, every cell zero. -/
def zeroShared : SHARED_DATA :=
  { fSt :=
      { nLand := 0,
        st := { porterStat := 0,
                passStat := fun _ _ => { stat := 0, sit := 0, nBagsReal := 0, nBagsAct := 0 },
                driverStat := 0 },
        plHold := fun _ => { nBags := 0, bag := fun _ => { id := 0 } },
        convBelt := { mem := fun _ => { id := 0 }, n := 0 },
        busQueue := { mem := fun _ => 0, ii := 0, ri := 0, full := false },
        bus := { seat := fun _ => 0, nOccup := 0 },
        nToTPassFD := 0, nToTPassTST := 0, nToTBagsPCB := 0, nToTBagsPSR := 0, nToTMBags := 0,
        dayEnded := false },
    access := 0, waitingFlight := 0, nPassP := 0, pass := fun _ => 0, nCalls := fun _ => 0,
    waitingDrive := 0, waitingPass := 0, nPassD := 0 }

/-! ## The invariants of the bus -/

/-- The number of seats different from `EMPTYST`. -/
def busCount (b : TRANSF_INFO) : Nat :=
  (List.range T).countP (fun i => decide (b.seat i ≠ EMPTYST))

/-- The bus invariant: `nOccup` is the number of seats different from `EMPTYST`, and at most
`T`. -/
def busInv (b : TRANSF_INFO) : Prop := b.nOccup = busCount b ∧ b.nOccup ≤ T

/-- The seats hold values of the C type `int`. -/
def busTyped (b : TRANSF_INFO) : Prop :=
  ∀ x, x < T → -2147483648 ≤ b.seat x ∧ b.seat x < 2147483648

/-- A shared region whose bus carries passenger 2 in seat 1, the other seats being empty. -/
def busExample : SHARED_DATA :=
  { zeroShared with
    fSt := { zeroShared.fSt with
      bus := { seat := fun i => if i = 1 then 2 else EMPTYST, nOccup := 1 } } }

/-! ## Sequences of check-ins -/

/-- The calls `whatShouldIDo (k, id)` for the pairs of a list, one after the other: the final
shared region and, for each call, the semaphores it raised. -/
def whatShouldIDoRun (sh : SHARED_DATA) : List (Nat × Nat) → SHARED_DATA × List (List Nat)
  | [] => (sh, [])
  | c :: rest =>
    ((whatShouldIDoRun (whatShouldIDo sh c.1 c.2).sh rest).1,
      (whatShouldIDo sh c.1 c.2).ups :: (whatShouldIDoRun (whatShouldIDo sh c.1 c.2).sh rest).2)

/-! ## The exit / entry barrier -/

/-- Every passenger of landing `k` other than `id` is entering the departure terminal or exiting
the arrival terminal. -/
def othersReady (sh : SHARED_DATA) (k id : Nat) : Prop :=
  ∀ i, i < N → i ≠ id →
    ((sh.fSt.st.passStat k i).stat = ENTERING_THE_DEPARTURE_TERMINAL
      ∨ (sh.fSt.st.passStat k i).stat = EXITING_THE_ARRIVAL_TERMINAL)

/-- A shared region where the passengers of every landing are all entering the departure
terminal, with the semaphores of the passengers as the generator numbers them. -/
def barrierExample : SHARED_DATA :=
  { zeroShared with
    fSt := { zeroShared.fSt with
      st := { zeroShared.fSt.st with
        passStat := fun _ _ =>
          { stat := ENTERING_THE_DEPARTURE_TERMINAL, sit := TRT, nBagsReal := 0, nBagsAct := 0 } } },
    pass := fun p => B_PASS + p }

/-! ## The operations of the three entities -/

/-- An operation of a passenger, of the porter or of the driver, with its arguments. -/
inductive Operation where
  | whatShouldIDo (k id : Nat)
  | goCollectABagArrive (k id : Nat)
  | goCollectABag (k id : Nat)
  | reportMissingBags (k id : Nat)
  | goHome (k id : Nat)
  | takeABus (k id : Nat)
  | enterTheBus (k id : Nat)
  | leaveTheBus (k id : Nat)
  | prepareNextLeg (k id : Nat)
  | takeARest (k : Nat)
  | tryToCollectABag (k : Nat) (bag : BAG)
  | carryItToAppropriateStore (k : Nat) (bag : BAG)
  | noMoreBagsToCollect (k : Nat)
  | hasDaysWorkEnded
  | announcingBusBoarding
  | goToDepartureTerminal
  | parkTheBusAndLetPassOff
  | goToArrivalTerminal
  | parkTheBus
  | alarmCk

/-- The shared region an operation leaves, `none` when it ends in `exit (EXIT_FAILURE)`. -/
def applyOperation : Operation → SHARED_DATA → Option SHARED_DATA
  | Operation.whatShouldIDo k id, sh => some (whatShouldIDo sh k id).sh
  | Operation.goCollectABagArrive k id, sh => some (goCollectABagArrive sh k id).sh
  | Operation.goCollectABag k id, sh => some (goCollectABag sh k id).sh
  | Operation.reportMissingBags k id, sh => some (reportMissingBags sh k id).sh
  | Operation.goHome k id, sh => some (goHome sh k id).sh
  | Operation.takeABus k id, sh => some (takeABus sh k id).sh
  | Operation.enterTheBus k id, sh => (enterTheBus sh k id).map (fun o => o.sh)
  | Operation.leaveTheBus k id, sh => (leaveTheBus sh k id).map (fun o => o.sh)
  | Operation.prepareNextLeg k id, sh => some (prepareNextLeg sh k id).sh
  | Operation.takeARest k, sh => some (takeARest sh k).sh
  | Operation.tryToCollectABag k bag, sh => some (tryToCollectABag sh k bag).sh
  | Operation.carryItToAppropriateStore k bag, sh =>
    (carryItToAppropriateStore sh k bag).map (fun o => o.sh)
  | Operation.noMoreBagsToCollect k, sh => some (noMoreBagsToCollect sh k).sh
  | Operation.hasDaysWorkEnded, sh => some (hasDaysWorkEnded sh).sh
  | Operation.announcingBusBoarding, sh => (announcingBusBoarding sh).map (fun o => o.sh)
  | Operation.goToDepartureTerminal, sh => some (goToDepartureTerminal sh).sh
  | Operation.parkTheBusAndLetPassOff, sh => (parkTheBusAndLetPassOff sh).map (fun o => o.sh)
  | Operation.goToArrivalTerminal, sh => some (goToArrivalTerminal sh).sh
  | Operation.parkTheBus, sh => some (parkTheBus sh).sh
  | Operation.alarmCk, sh => some (alarmCk sh).sh

/-! ## Runs from the state the generator leaves -/

/-- Draws that make every passenger a transit passenger without luggage. -/
def allTransit : Draws :=
  { rSit := fun _ _ => 1, rReal := fun _ _ => 0, rLost := fun _ _ => 1 }

/-- Draws that make passenger 0 of every landing a final-destination passenger whose only bag
is lost, and every other passenger a transit passenger without luggage. -/
def oneLost : Draws :=
  { rSit := fun _ p => if p = 0 then 5 else 1, rReal := fun _ p => if p = 0 then 1 else 0,
    rLost := fun _ _ => 1 }

/-- The shared region after the generator has run on the draws `d` and the six passengers of
landing 0 have executed `whatShouldIDo`. -/
def checkedIn (d : Draws) : SHARED_DATA :=
  (whatShouldIDoRun (mainInit d zeroShared) [(0, 0), (0, 1), (0, 2), (0, 3), (0, 4), (0, 5)]).1

/-- Two bus rides in a row, passenger 0 alone in the first and passenger 1 alone in the second,
every operation of the driver and of the two passengers in program order.  The value holds: the
semaphores raised by the `enterTheBus` of the first ride and `nPassD` after it; `nPassD` after
the `leaveTheBus` of the first ride; the semaphores raised by the `enterTheBus` of the second
ride and `nPassD` after it. -/
def twoRides : Option ((List Nat × Nat) × Nat × (List Nat × Nat)) := do
  let s1 := (takeABus (checkedIn allTransit) 0 0).sh
  let o2 ← announcingBusBoarding s1
  let o3 ← enterTheBus o2.sh 0 0
  let s4 := (goToDepartureTerminal o3.sh).sh
  let o5 ← parkTheBusAndLetPassOff s4
  let o6 ← leaveTheBus o5.sh 0 0
  let s7 := (parkTheBus (goToArrivalTerminal o6.sh).sh).sh
  let s8 := (takeABus s7 0 1).sh
  let o9 ← announcingBusBoarding s8
  let o10 ← enterTheBus o9.sh 0 1
  pure ((o3.ups, o3.sh.nPassD), o6.sh.nPassD, (o10.ups, o10.sh.nPassD))

/-- Passengers 0, 1, 2 and 3 execute `takeABus` one after the other while the driver sleeps:
for each call, the semaphores raised and the number of ids in the queue after it. -/
def fourQueue : List (List Nat × Nat) :=
  let o1 := takeABus (checkedIn allTransit) 0 0
  let o2 := takeABus o1.sh 0 1
  let o3 := takeABus o2.sh 0 2
  let o4 := takeABus o3.sh 0 3
  [(o1.ups, queueCount o1.sh.fSt.busQueue), (o2.ups, queueCount o2.sh.fSt.busQueue),
   (o3.ups, queueCount o3.sh.fSt.busQueue), (o4.ups, queueCount o4.sh.fSt.busQueue)]

/-- The shared region when passenger 0, whose only bag was lost, enters the second critical
region of `goCollectABag`: the porter has rested, found the hold of landing 0 empty and called
her. -/
def lostBagCall : SHARED_DATA :=
  (goCollectABagArrive
    (tryToCollectABag (takeARest (checkedIn oneLost) 0).sh 0 { id := 0 }).sh 0 0).sh

/-! ## Sequences of insertions into the CAM -/

/-- The calls `camIn` for the ids of a list, the first id first. -/
def camInAll (c : CAM) (ids : List Nat) : CAM := ids.foldl camIn c

/-- A CAM that holds `[1,2,2,5]`, filled by four insertions. -/
def camExample : CAM := camInAll (camInit { mem := fun _ => { id := 0 }, n := 0 }) [1, 2, 2, 5]

/-- A full queue: the ids 0 to 5 inserted into a fresh queue. -/
def queueExample : QUEUE :=
  queueInAll (queueInit { mem := fun _ => 0, ii := 0, ri := 0, full := false })
    [0, 1, 2, 3, 4, 5]

/-! ## Runs of the porter -/

/-- The shared region when the porter starts on landing 0: the generator has run on the draws
`d`, the six passengers have checked in and the porter has left `takeARest`. -/
def porterStart (d : Draws) : SHARED_DATA := (takeARest (checkedIn d) 0).sh

/-- Draws that make every passenger a transit passenger, passenger 1 of every landing with one
bag and the others without luggage. -/
def transitWithBag : Draws :=
  { rSit := fun _ _ => 1, rReal := fun _ p => if p = 1 then 1 else 0, rLost := fun _ _ => 1 }

/-- The shared region after the porter has picked the only bag of landing 0, the one of the
transit passenger 1, and carried it to the storeroom. -/
def holdEmptied : Option SHARED_DATA :=
  (carryItToAppropriateStore (tryToCollectABag (porterStart transitWithBag) 0 { id := 0 }).sh 0
    (tryToCollectABag (porterStart transitWithBag) 0 { id := 0 }).ret.2).map (fun o => o.sh)

/-- The test of the loop of `tryToCollectABag` on an empty hold, for passenger `i` of landing
`k`: she has this airport as her final destination and `nBagsAct + nCalls[i] < nBagsReal`. -/
def awaitsBags (sh : SHARED_DATA) (k i : Nat) : Bool :=
  decide ((sh.fSt.st.passStat k i).sit = FD ∧
    uadd (sh.fSt.st.passStat k i).nBagsAct (sh.nCalls i) < (sh.fSt.st.passStat k i).nBagsReal)

/-- A belt that holds `[1,2,2,5]` in front of passengers who each expect two bags, hold none
and have been called once. -/
def collectExample : SHARED_DATA :=
  { zeroShared with
    fSt := { zeroShared.fSt with
      convBelt := camExample,
      st := { zeroShared.fSt.st with
        passStat := fun _ _ =>
          { stat := AT_THE_LUGGAGE_COLLECTION_POINT, sit := FD, nBagsReal := 2, nBagsAct := 0 } } },
    nCalls := fun _ => 1 }

/-! ## Runs of the bus -/

/-- The shared region after the passengers 0, 1, 2 and 3 have queued for the bus, one after the
other. -/
def fourQueued : SHARED_DATA :=
  (takeABus (takeABus (takeABus (takeABus (checkedIn allTransit) 0 0).sh 0 1).sh 0 2).sh 0 3).sh

/-- The calls `enterTheBus (k, id)` for the pairs of a list, one after the other: the shared
region they leave, `none` if one of them finds the bus packed full. -/
def boardAll (sh : SHARED_DATA) : List (Nat × Nat) → Option SHARED_DATA
  | [] => some sh
  | c :: rest =>
    match enterTheBus sh c.1 c.2 with
    | none => none
    | some o => boardAll o.sh rest

/-- The bus carries the passengers of the list `ids`, in the seats `0`, `1`, ... in this order,
and its other seats are empty. -/
def seatsFilled (b : TRANSF_INFO) (ids : List Nat) : Prop :=
  b.nOccup = ids.length ∧ ids.length ≤ T ∧
  (List.range b.nOccup).map b.seat = ids.map (fun x : Nat => (x : Int)) ∧
  (∀ i, b.nOccup ≤ i → i < T → b.seat i = EMPTYST) ∧
  ∀ x, x ∈ ids → x < N

/-- The shared region after the passengers 0 and 1 have queued and the driver has announced the
boarding. -/
def announcedExample : SHARED_DATA :=
  match announcingBusBoarding (takeABus (takeABus (checkedIn allTransit) 0 0).sh 0 1).sh with
  | some o => o.sh
  | none => zeroShared

/-- The shared region after the passengers 0 and 1 have then boarded. -/
def boardedExample : SHARED_DATA :=
  (boardAll announcedExample [(0, 0), (0, 1)]).getD zeroShared

/-! ## Sequences of passengers queueing for the bus -/

/-- The calls `takeABus (k, id)` for the pairs of a list, one after the other: the final shared
region and, for each call, the semaphores it raised. -/
def takeABusRun (sh : SHARED_DATA) : List (Nat × Nat) → SHARED_DATA × List (List Nat)
  | [] => (sh, [])
  | c :: rest =>
    ((takeABusRun (takeABus sh c.1 c.2).sh rest).1,
      (takeABus sh c.1 c.2).ups :: (takeABusRun (takeABus sh c.1 c.2).sh rest).2)

/-! ## The disembarking zone: check-ins and the rest of the porter -/

/-- An event at the disembarking zone: a passenger runs the critical region of `whatShouldIDo`,
or the porter, having passed the `semDown` on `waitingFlight`, runs the one of `takeARest`. -/
inductive Event where
  | checkIn (k id : Nat)
  | rest (k : Nat)

/-- The disembarking zone during a run: the shared region, the value of the semaphore
`waitingFlight`, the number of `semUp` executed on it so far, the number of calls of
`whatShouldIDo` so far and, of these calls (numbered from zero), the ones that changed
`nLand`, that is, went through the branch of the very first passenger. -/
structure Arrivals where
  sh : SHARED_DATA
  pending : Nat
  released : Nat
  checkIns : Nat
  firsts : List Nat

/-- One event.  The porter cannot pass the `semDown` on `waitingFlight` while the semaphore is
at zero: the event `rest` is then not possible (`none`). -/
def arrivalStep (l : Arrivals) : Event → Option Arrivals
  | Event.checkIn k id =>
    some { sh := (whatShouldIDo l.sh k id).sh,
           pending := l.pending + (whatShouldIDo l.sh k id).ups.count l.sh.waitingFlight,
           released := l.released + (whatShouldIDo l.sh k id).ups.count l.sh.waitingFlight,
           checkIns := l.checkIns + 1,
           firsts := if (whatShouldIDo l.sh k id).sh.fSt.nLand = l.sh.fSt.nLand then l.firsts
                     else l.firsts ++ [l.checkIns] }
  | Event.rest k =>
    if l.pending = 0 then none
    else some { l with sh := (takeARest l.sh k).sh, pending := l.pending - 1 }

/-- A sequence of events, the first event first; `none` if one of them is not possible. -/
def arrivalRun (l : Arrivals) : List Event → Option Arrivals
  | [] => some l
  | e :: es =>
    match arrivalStep l e with
    | none => none
    | some l1 => arrivalRun l1 es

/-- The disembarking zone when the processes start, on the shared region `sh`. -/
def arrivalStart (sh : SHARED_DATA) : Arrivals :=
  { sh := sh, pending := 0, released := 0, checkIns := 0, firsts := [] }

/-- What holds of the disembarking zone all along a run. -/
def arrivalInv (l : Arrivals) : Prop :=
  l.pending ≤ 1 ∧ (l.pending = 1 → N ≤ l.sh.nPassP) ∧
  l.sh.nPassP % N = l.checkIns % N ∧ l.sh.nPassP ≤ l.checkIns ∧
  l.firsts = (List.range l.checkIns).filter (fun j => decide (j % N = 0)) ∧
  l.sh.fSt.nLand = (l.checkIns + N - 1) / N

/-- Draws that make every passenger a final-destination passenger without luggage. -/
def allHome : Draws :=
  { rSit := fun _ _ => 5, rReal := fun _ _ => 0, rLost := fun _ _ => 5 }

/-- The check-ins of the six passengers of landing `k`, in the order of their ids. -/
def landingCheckIns (k : Nat) : List Event := (List.range N).map (Event.checkIn k)

/-! ## The three programs run together

The life cycles of the passengers, of the porter and of the driver (the `main` functions of
`semSharedMemPassengerO.c`, `semSharedMemPorter.c` and `semSharedMemDriver.c`), interleaved at
the grain of the critical regions.  A process is never held back at a `semDown`: the runs of
this system include every run of the real one, so what holds of all its states holds of all
states the program can reach.  `alarmCk` only raises a semaphore and is left out. -/

/-- Where a passenger is in her life cycle: the operation she executes next, for the landing
`k` of her loop `for (k = 0; k < K; k++)`. -/
inductive PassengerAt where
  /-- She calls `whatShouldIDo`, or has left the loop when `k = K`. -/
  | arriving (k : Nat)
  /-- She enters the first critical region of `goCollectABag`. -/
  | atBelt (k : Nat)
  /-- She enters the second critical region of `goCollectABag`. -/
  | called (k : Nat)
  /-- She calls `reportMissingBags`. -/
  | atOffice (k : Nat)
  /-- She calls `goHome`. -/
  | exiting (k : Nat)
  /-- She calls `takeABus`. -/
  | atTransfer (k : Nat)
  /-- She calls `enterTheBus`. -/
  | boarding (k : Nat)
  /-- She calls `leaveTheBus`. -/
  | riding (k : Nat)
  /-- She calls `prepareNextLeg`. -/
  | departing (k : Nat)
  deriving DecidableEq

/-- The number of calls of `whatShouldIDo` a passenger has made. -/
def PassengerAt.begun : PassengerAt → Nat
  | PassengerAt.arriving k => k
  | PassengerAt.atBelt k => k + 1
  | PassengerAt.called k => k + 1
  | PassengerAt.atOffice k => k + 1
  | PassengerAt.exiting k => k + 1
  | PassengerAt.atTransfer k => k + 1
  | PassengerAt.boarding k => k + 1
  | PassengerAt.riding k => k + 1
  | PassengerAt.departing k => k + 1

/-- The landing of her loop a passenger is in. -/
def PassengerAt.landing : PassengerAt → Nat
  | PassengerAt.arriving k => k
  | PassengerAt.atBelt k => k
  | PassengerAt.called k => k
  | PassengerAt.atOffice k => k
  | PassengerAt.exiting k => k
  | PassengerAt.atTransfer k => k
  | PassengerAt.boarding k => k
  | PassengerAt.riding k => k
  | PassengerAt.departing k => k

/-- The passenger is in the loop `while ((stat = goCollectABag (k, p)) == NO)`. -/
def PassengerAt.collecting : PassengerAt → Bool
  | PassengerAt.atBelt _ => true
  | PassengerAt.called _ => true
  | _ => false

/-- Where the porter is in his life cycle, for the landing `k` of his loop. -/
inductive PorterAt where
  /-- He calls `takeARest`, or has left the loop when `k = K`. -/
  | resting (k : Nat)
  /-- He calls `tryToCollectABag`. -/
  | atHold (k : Nat)
  /-- He calls `carryItToAppropriateStore` with the bag he has picked. -/
  | carrying (k : Nat)
  /-- He calls `noMoreBagsToCollect`. -/
  | leavingHold (k : Nat)

/-- The porter holds a bag he has picked and not yet carried to a store. -/
def PorterAt.loaded : PorterAt → Nat
  | PorterAt.carrying _ => 1
  | _ => 0

/-- The landing of his loop the porter is in. -/
def PorterAt.landing : PorterAt → Nat
  | PorterAt.resting k => k
  | PorterAt.atHold k => k
  | PorterAt.carrying k => k
  | PorterAt.leavingHold k => k

/-- Where the driver is in his life cycle. -/
inductive DriverAt where
  /-- He enters the critical region of `hasDaysWorkEnded`, where `dayEnded` is read. -/
  | checking
  /-- He evaluates `queueEmpty`, the condition of the `do ... while` of `hasDaysWorkEnded`,
  outside the critical region; the test reads the queue in one go. -/
  | looking
  /-- He has left `hasDaysWorkEnded` with the value false and calls
  `announcingBusBoarding`. -/
  | announcing
  /-- He calls `goToDepartureTerminal`. -/
  | forward
  /-- He calls `parkTheBusAndLetPassOff`. -/
  | unloading
  /-- He calls `goToArrivalTerminal`. -/
  | backward
  /-- He calls `parkTheBus`. -/
  | parking
  /-- He has left his loop. -/
  | off
  deriving DecidableEq

/-- The next operation of passenger `p`: the shared region it leaves and where she is then.
`none` when the operation ends in `exit (EXIT_FAILURE)` or she has left her loop. -/
def passengerStep (sh : SHARED_DATA) (p : Nat) : PassengerAt → Option (SHARED_DATA × PassengerAt)
  | PassengerAt.arriving k =>
    if k < K then
      some ((whatShouldIDo sh k p).sh,
        if (whatShouldIDo sh k p).ret = FDBTC then PassengerAt.atBelt k
        else if (whatShouldIDo sh k p).ret = FDNBTC then PassengerAt.exiting k
        else if (whatShouldIDo sh k p).ret = INTRAN then PassengerAt.atTransfer k
        else PassengerAt.arriving (k + 1))
    else none
  | PassengerAt.atBelt k => some ((goCollectABagArrive sh k p).sh, PassengerAt.called k)
  | PassengerAt.called k =>
    some ((goCollectABag sh k p).sh,
      if (goCollectABag sh k p).ret = NO then PassengerAt.atBelt k
      else if (goCollectABag sh k p).ret = MB then PassengerAt.atOffice k
      else PassengerAt.exiting k)
  | PassengerAt.atOffice k => some ((reportMissingBags sh k p).sh, PassengerAt.exiting k)
  | PassengerAt.exiting k => some ((goHome sh k p).sh, PassengerAt.arriving (k + 1))
  | PassengerAt.atTransfer k => some ((takeABus sh k p).sh, PassengerAt.boarding k)
  | PassengerAt.boarding k =>
    (enterTheBus sh k p).map (fun o => (o.sh, PassengerAt.riding k))
  | PassengerAt.riding k =>
    (leaveTheBus sh k p).map (fun o => (o.sh, PassengerAt.departing k))
  | PassengerAt.departing k => some ((prepareNextLeg sh k p).sh, PassengerAt.arriving (k + 1))

/-- The next operation of the porter, `bag` being the content of his local variable: the
shared region it leaves, the content of the variable and where he is then. -/
def porterStep (sh : SHARED_DATA) (bag : BAG) : PorterAt → Option (SHARED_DATA × BAG × PorterAt)
  | PorterAt.resting k =>
    if k < K then some ((takeARest sh k).sh, bag, PorterAt.atHold k) else none
  | PorterAt.atHold k =>
    some ((tryToCollectABag sh k bag).sh, (tryToCollectABag sh k bag).ret.2,
      if (tryToCollectABag sh k bag).ret.1 then PorterAt.carrying k else PorterAt.leavingHold k)
  | PorterAt.carrying k =>
    (carryItToAppropriateStore sh k bag).map (fun o => (o.sh, bag, PorterAt.atHold k))
  | PorterAt.leavingHold k =>
    some ((noMoreBagsToCollect sh k).sh, bag, PorterAt.resting (k + 1))

/-- The next step of the driver.  The loop of `hasDaysWorkEnded` takes two steps a pass: the
critical region, which ends the loop (the function returns true) when `dayEnded` is up, and
the test `queueEmpty`, which sends him back into the critical region when the queue is empty
and out of the function, with the value false, when it is not. -/
def driverStep (sh : SHARED_DATA) : DriverAt → Option (SHARED_DATA × DriverAt)
  | DriverAt.checking =>
    some (sh, if sh.fSt.dayEnded then DriverAt.off else DriverAt.looking)
  | DriverAt.looking =>
    some (sh, if queueEmpty sh.fSt.busQueue then DriverAt.checking else DriverAt.announcing)
  | DriverAt.announcing => (announcingBusBoarding sh).map (fun o => (o.sh, DriverAt.forward))
  | DriverAt.forward => some ((goToDepartureTerminal sh).sh, DriverAt.unloading)
  | DriverAt.unloading =>
    (parkTheBusAndLetPassOff sh).map (fun o => (o.sh, DriverAt.backward))
  | DriverAt.backward => some ((goToArrivalTerminal sh).sh, DriverAt.parking)
  | DriverAt.parking => some ((parkTheBus sh).sh, DriverAt.checking)
  | DriverAt.off => none

/-- The shared region and the processes: where each passenger, the porter and the driver are,
and the local variable `bag` of the porter. -/
structure Airport where
  sh : SHARED_DATA
  passenger : Nat → PassengerAt
  porter : PorterAt
  bag : BAG
  driver : DriverAt

/-- The process that runs its next critical region. -/
inductive Actor where
  | passenger (p : Nat)
  | porter
  | driver

/-- One critical region of one process. -/
def airportStep (s : Airport) : Actor → Option Airport
  | Actor.passenger p =>
    if p < N then
      (passengerStep s.sh p (s.passenger p)).map
        (fun r => { s with sh := r.1, passenger := store s.passenger p r.2 })
    else none
  | Actor.porter =>
    (porterStep s.sh s.bag s.porter).map
      (fun r => { s with sh := r.1, bag := r.2.1, porter := r.2.2 })
  | Actor.driver =>
    (driverStep s.sh s.driver).map (fun r => { s with sh := r.1, driver := r.2 })

/-- A schedule, the first process to run first; `none` if a process of the schedule cannot
run. -/
def airportRun (s : Airport) : List Actor → Option Airport
  | [] => some s
  | a :: rest =>
    match airportStep s a with
    | none => none
    | some s1 => airportRun s1 rest

/-- The system when the processes start: the generator has run on the draws `d`.  The local
variable of the porter is not read before `tryToCollectABag` has written it. -/
def airportStart (d : Draws) (sh0 : SHARED_DATA) : Airport :=
  { sh := mainInit d sh0, passenger := fun _ => PassengerAt.arriving 0,
    porter := PorterAt.resting 0, bag := { id := 0 }, driver := DriverAt.checking }

/-- The records of the passengers agree on the journey and on the luggage. -/
def sameLuggage (s t : SHARED_DATA) : Prop :=
  ∀ k i, (t.fSt.st.passStat k i).sit = (s.fSt.st.passStat k i).sit ∧
    (t.fSt.st.passStat k i).nBagsReal = (s.fSt.st.passStat k i).nBagsReal ∧
    (t.fSt.st.passStat k i).nBagsAct = (s.fSt.st.passStat k i).nBagsAct

/-- The manifests and the statistics agree. -/
def sameCounts (s t : SHARED_DATA) : Prop :=
  t.fSt.plHold = s.fSt.plHold ∧ t.fSt.nToTBagsPCB = s.fSt.nToTBagsPCB ∧
  t.fSt.nToTBagsPSR = s.fSt.nToTBagsPSR ∧ t.fSt.nToTMBags = s.fSt.nToTMBags ∧
  t.fSt.nToTPassFD = s.fSt.nToTPassFD ∧ t.fSt.nToTPassTST = s.fSt.nToTPassTST

/-- The queue, the manifests, the statistics and the luggage of the passengers agree. -/
def untouched (s t : SHARED_DATA) : Prop :=
  t.fSt.busQueue = s.fSt.busQueue ∧ sameCounts s t ∧ sameLuggage s t

/-- The number of bags listed in the manifests of the `K` landings. -/
def holdTotal (sh : SHARED_DATA) : Nat :=
  ((List.range K).map (fun k => (sh.fSt.plHold k).nBags)).sum

/-! ## The three programs run together: what holds all along a run -/

/-- What holds of the totals of the passengers all along a run: every passenger has made at
most `K` calls of `whatShouldIDo`, and the two totals add up to the number of calls made. -/
def totalsInv (s : Airport) : Prop :=
  (∀ p, p < N → (s.passenger p).begun ≤ K) ∧
  s.sh.fSt.nToTPassFD + s.sh.fSt.nToTPassTST
    = ((List.range N).map (fun p => (s.passenger p).begun)).sum

/-- What holds of the queue all along a run: it is not empty when the driver is about to call
`announcingBusBoarding`. -/
def boardingInv (s : Airport) : Prop :=
  s.driver = DriverAt.announcing → queueEmpty s.sh.fSt.busQueue = false

/-- The porter is in the loop `while (tryToCollectABag (k, &bag))`. -/
def PorterAt.inHold : PorterAt → Bool
  | PorterAt.atHold _ => true
  | PorterAt.carrying _ => true
  | _ => false

/-- What holds of the bags all along a run: the bags carried to a store or reported missing,
the bag the porter holds and the bags still listed in the manifests of the `K` landings are at
most `t0` in number. -/
def bagsInv (t0 : Nat) (s : Airport) : Prop :=
  (s.porter.inHold = true → s.porter.landing < K) ∧
  s.sh.fSt.nToTBagsPCB + s.sh.fSt.nToTBagsPSR + s.sh.fSt.nToTMBags + s.porter.loaded
    + holdTotal s.sh ≤ t0

/-- What holds of the luggage all along a run: no passenger holds more bags than she expects;
a passenger holds no bag in the landings she has not begun; and while she is in the loop of
`goCollectABag` she holds fewer bags than she expects. -/
def luggageInv (s : Airport) : Prop :=
  (∀ k p, k < K → p < N →
    (s.sh.fSt.st.passStat k p).nBagsAct ≤ (s.sh.fSt.st.passStat k p).nBagsReal) ∧
  ∀ p, p < N →
    (∀ k, (s.passenger p).begun ≤ k → k < K → (s.sh.fSt.st.passStat k p).nBagsAct = 0) ∧
    ((s.passenger p).collecting = true →
      (s.passenger p).landing < K ∧
      (s.sh.fSt.st.passStat (s.passenger p).landing p).nBagsAct
        < (s.sh.fSt.st.passStat (s.passenger p).landing p).nBagsReal)

/-! ## Runs of the three programs -/

/-- Draws that make passenger 0 of every landing a final-destination passenger with one bag,
which is not lost, and every other passenger a transit passenger without luggage. -/
def oneBag : Draws :=
  { rSit := fun _ p => if p = 0 then 5 else 1, rReal := fun _ p => if p = 0 then 1 else 0,
    rLost := fun _ _ => 5 }

/-- A schedule in which the six passengers run one critical region each, in the order of their
ids. -/
def everyPassenger : List Actor := (List.range N).map Actor.passenger

/-- A schedule for passengers who all go home at once: in each of the `K` landings the six
passengers check in and then leave. -/
def allGoHome : List Actor := (List.range K).flatMap (fun _ => everyPassenger ++ everyPassenger)

/-! ## Machine arithmetic and arrays: basic facts -/

theorem store_apply {α : Type} (a : Nat → α) (i : Nat) (v : α) (j : Nat) :
    store a i v j = if j = i then v else a j := rfl

theorem uinc_of_lt {x : Nat} (h : x < 4294967295) : uinc x = x + 1 := by
  unfold uinc
  rw [if_neg (by omega)]

theorem udec_of_pos {x : Nat} (h0 : 0 < x) : udec x = x - 1 := by
  unfold udec
  rw [if_neg (by omega)]

/-- On values of the type, `x++` is the successor modulo `2^32`. -/
theorem uinc_eq_mod {x : Nat} (h : x < 4294967296) : uinc x = (x + 1) % 4294967296 := by
  unfold uinc
  split <;> omega

/-- On values of the type, `x--` is the predecessor modulo `2^32`. -/
theorem udec_eq_mod {x : Nat} (h : x < 4294967296) :
    udec x = (x + 4294967295) % 4294967296 := by
  unfold udec
  split <;> omega

/-- On values of the type, `x + y` is the sum modulo `2^32`. -/
theorem uadd_eq_mod {x y : Nat} (hx : x < 4294967296) (hy : y < 4294967296) :
    uadd x y = (x + y) % 4294967296 := by
  unfold uadd
  split <;> omega

/-- On values of the type, `x - y` is the difference modulo `2^32`. -/
theorem usub_eq_mod {x y : Nat} (hx : x < 4294967296) (hy : y < 4294967296) :
    usub x y = (x + 4294967296 - y) % 4294967296 := by
  unfold usub
  split <;> omega

theorem MN_eq : M * N = 12 := by decide

/-! ## The CAM: the loops -/

theorem camInShift_apply (i : Nat) :
    ∀ (j : Nat) (mem : Nat → BAG) (x : Nat),
      camInShift i j mem x = if i < x ∧ x ≤ j then mem (x - 1) else mem x := by
  intro j
  induction j with
  | zero =>
    intro mem x
    simp only [camInShift]
    split
    · omega
    · rfl
  | succ j ih =>
    intro mem x
    simp only [camInShift]
    by_cases hij : i < j + 1
    · rw [if_pos hij, ih, store_apply, store_apply]
      by_cases hx : x = j + 1
      · subst hx
        simp [hij]
      · by_cases h1 : i < x ∧ x ≤ j
        · have h2 : i < x ∧ x ≤ j + 1 := ⟨h1.1, by omega⟩
          have h3 : x - 1 ≠ j + 1 := by omega
          simp [h1, h2, h3]
        · have h2 : ¬ (i < x ∧ x ≤ j + 1) := by omega
          simp [h1, h2, hx]
    · rw [if_neg hij]
      have h2 : ¬ (i < x ∧ x ≤ j + 1) := by omega
      simp [h2]

theorem camOutShift_apply (n : Nat) :
    ∀ (r j : Nat) (mem : Nat → BAG) (x : Nat), 1 ≤ j → n ≤ j + r →
      camOutShift n r j mem x = if j ≤ x + 1 ∧ x + 1 < n then mem (x + 1) else mem x := by
  intro r
  induction r with
  | zero =>
    intro j mem x _ hn
    simp only [camOutShift]
    split
    · omega
    · rfl
  | succ r ih =>
    intro j mem x hj hn
    simp only [camOutShift]
    by_cases hjn : j < n
    · rw [if_pos hjn, ih (j + 1) _ x (by omega) (by omega), store_apply, store_apply]
      by_cases h1 : j + 1 ≤ x + 1 ∧ x + 1 < n
      · have h2 : j ≤ x + 1 ∧ x + 1 < n := ⟨by omega, h1.2⟩
        have h3 : x + 1 ≠ j - 1 := by omega
        rw [if_pos h1, if_neg h3, if_pos h2]
      · by_cases hx : x = j - 1
        · have h2 : j ≤ x + 1 ∧ x + 1 < n := by omega
          have h4 : x + 1 = j := by omega
          rw [if_neg h1, if_pos hx, if_pos h2, h4]
        · have h2 : ¬ (j ≤ x + 1 ∧ x + 1 < n) := by omega
          rw [if_neg h1, if_neg hx, if_neg h2]
    · rw [if_neg hjn]
      have h2 : ¬ (j ≤ x + 1 ∧ x + 1 < n) := by omega
      simp [h2]

/-- The scan of `camIn` stops at the first index, from `i` on, that holds an id above `val`. -/
theorem camInFind_spec (c : CAM) (val : Nat) :
    ∀ (r i : Nat), i ≤ c.n → c.n ≤ i + r →
      i ≤ camInFind c val r i ∧ camInFind c val r i ≤ c.n ∧
      (∀ x, i ≤ x → x < camInFind c val r i → (c.mem x).id ≤ val) ∧
      (camInFind c val r i < c.n → val < (c.mem (camInFind c val r i)).id) := by
  intro r
  induction r with
  | zero =>
    intro i hi hn
    simp only [camInFind]
    refine ⟨le_refl _, hi, ?_, ?_⟩
    · intro x h1 h2; omega
    · intro h; omega
  | succ r ih =>
    intro i hi hn
    simp only [camInFind]
    by_cases hin : i < c.n
    · rw [if_pos hin]
      by_cases hgt : (c.mem i).id > val
      · rw [if_pos hgt]
        refine ⟨le_refl _, hi, ?_, ?_⟩
        · intro x h1 h2; omega
        · intro _; exact hgt
      · rw [if_neg hgt]
        obtain ⟨h1, h2, h3, h4⟩ := ih (i + 1) (by omega) (by omega)
        refine ⟨by omega, h2, ?_, h4⟩
        intro x hx1 hx2
        by_cases hxi : x = i
        · subst hxi; omega
        · exact h3 x (by omega) hx2
    · rw [if_neg hin]
      refine ⟨le_refl _, hi, ?_, ?_⟩
      · intro x h1 h2; omega
      · intro h; omega

/-- Where `camIn` stores the value: after every id not above it, before the first id above. -/
theorem camInPos_spec (c : CAM) (val : Nat) :
    camInPos c val ≤ c.n ∧
    (∀ x, x < camInPos c val → (c.mem x).id ≤ val) ∧
    (camInPos c val < c.n → val < (c.mem (camInPos c val)).id) := by
  unfold camInPos
  by_cases h0 : c.n = 0
  · rw [if_pos h0]
    refine ⟨by omega, ?_, ?_⟩
    · intro x hx; omega
    · intro h; omega
  · rw [if_neg h0]
    by_cases hgt : (c.mem 0).id > val
    · rw [if_pos hgt]
      refine ⟨by omega, ?_, ?_⟩
      · intro x hx; omega
      · intro _; exact hgt
    · rw [if_neg hgt]
      obtain ⟨h1, h2, h3, h4⟩ := camInFind_spec c val c.n 1 (by omega) (by omega)
      refine ⟨h2, ?_, h4⟩
      intro x hx
      by_cases hx0 : x = 0
      · subst hx0; omega
      · exact h3 x (by omega) hx

/-- The cells of the CAM after `camIn` on a CAM that is not full. -/
theorem camIn_mem (c : CAM) (val : Nat) (hn : c.n ≠ M * N) (x : Nat) :
    (camIn c val).mem x =
      if x < camInPos c val then c.mem x
      else if x = camInPos c val then { id := val }
      else if x ≤ c.n then c.mem (x - 1) else c.mem x := by
  unfold camIn camInPos
  rw [if_neg hn]
  by_cases h0 : c.n = 0
  · simp only [if_pos h0, store_apply]
    by_cases hx : x = 0
    · subst hx; simp
    · have h2 : ¬ x ≤ c.n := by omega
      rw [if_neg (Nat.not_lt_zero x), if_neg hx, if_neg hx, if_neg h2]
  · simp only [if_neg h0]
    by_cases hgt : (c.mem 0).id > val
    · simp only [if_pos hgt, store_apply, camInShift_apply]
      by_cases hx : x = 0
      · subst hx; simp
      · have h1 : 0 < x := by omega
        simp [hx, h1]
    · simp only [if_neg hgt, store_apply, camInShift_apply]
      obtain ⟨h1, h2, -, -⟩ := camInFind_spec c val c.n 1 (by omega) (by omega)
      by_cases hx : x = camInFind c val c.n 1
      · rw [if_pos hx, if_neg (by omega), if_pos hx]
      · rw [if_neg hx, if_neg hx]
        by_cases hlt : x < camInFind c val c.n 1
        · rw [if_pos hlt, if_neg (by omega)]
        · rw [if_neg hlt]
          by_cases hle : x ≤ c.n
          · rw [if_pos ⟨by omega, hle⟩, if_pos hle]
          · rw [if_neg (by omega), if_neg hle]

theorem camIn_n (c : CAM) (val : Nat) (hn : c.n < M * N) : (camIn c val).n = c.n + 1 := by
  have h12 := MN_eq
  have hu : uinc c.n = c.n + 1 := uinc_of_lt (by omega)
  unfold camIn
  rw [if_neg (by omega)]
  split
  · exact hu
  · split
    · exact hu
    · exact hu

theorem camIn_full (c : CAM) (val : Nat) (hn : c.n = M * N) : camIn c val = c := by
  unfold camIn
  rw [if_pos hn]

/-- What `camOut` does: nothing when no stored id equals `val`, and otherwise the cells above the
first match move one position down and `n` is decremented. -/
theorem camOutLoop_cases (val : Nat) (c : CAM) :
    ∀ (r i : Nat), c.n ≤ i + r →
      (camOutLoop val r i c = c ∧ ∀ x, i ≤ x → x < c.n → (c.mem x).id ≠ val) ∨
      (∃ p, i ≤ p ∧ p < c.n ∧ (c.mem p).id = val ∧
        (∀ x, i ≤ x → x < p → (c.mem x).id ≠ val) ∧
        camOutLoop val r i c = { mem := camOutShift c.n c.n (p + 1) c.mem, n := udec c.n }) := by
  intro r
  induction r with
  | zero =>
    intro i hn
    left
    refine ⟨rfl, ?_⟩
    intro x h1 h2; omega
  | succ r ih =>
    intro i hn
    simp only [camOutLoop]
    by_cases hin : i < c.n
    · rw [if_pos hin]
      by_cases heq : (c.mem i).id = val
      · rw [if_pos heq]
        right
        refine ⟨i, le_refl _, hin, heq, ?_, rfl⟩
        intro x h1 h2; omega
      · rw [if_neg heq]
        rcases ih (i + 1) (by omega) with ⟨h1, h2⟩ | ⟨p, h1, h2, h3, h4, h5⟩
        · left
          refine ⟨h1, ?_⟩
          intro x hx1 hx2
          by_cases hxi : x = i
          · subst hxi; exact heq
          · exact h2 x (by omega) hx2
        · right
          refine ⟨p, by omega, h2, h3, ?_, h5⟩
          intro x hx1 hx2
          by_cases hxi : x = i
          · subst hxi; exact heq
          · exact h4 x (by omega) hx2
    · rw [if_neg hin]
      left
      refine ⟨rfl, ?_⟩
      intro x h1 h2; omega

/-- The invariant of the conveyor belt: stored ids in non-decreasing order, at most `M*N`. -/
theorem camIn_inv (c : CAM) (val : Nat) (hs : camSorted c) (hn : c.n ≤ M * N) :
    camSorted (camIn c val) ∧ (camIn c val).n ≤ M * N := by
  by_cases hfull : c.n = M * N
  · rw [camIn_full c val hfull]
    exact ⟨hs, hn⟩
  · have hlt : c.n < M * N := by omega
    obtain ⟨hp1, hp2, hp3⟩ := camInPos_spec c val
    refine ⟨?_, by rw [camIn_n c val hlt]; omega⟩
    intro i j hij hj
    rw [camIn_n c val hlt] at hj
    rw [camIn_mem c val hfull i, camIn_mem c val hfull j]
    by_cases hi1 : i < camInPos c val
    · rw [if_pos hi1]
      by_cases hj1 : j < camInPos c val
      · rw [if_pos hj1]
        exact hs i j hij (by omega)
      · rw [if_neg hj1]
        by_cases hj2 : j = camInPos c val
        · rw [if_pos hj2]
          exact hp2 i hi1
        · have hjle : j ≤ c.n := by omega
          rw [if_neg hj2, if_pos hjle]
          by_cases hij2 : i = j - 1
          · rw [hij2]
          · exact hs i (j - 1) (by omega) (by omega)
    · have hjlt : ¬ j < camInPos c val := by omega
      have hjne : ¬ j = camInPos c val := by omega
      have hjle : j ≤ c.n := by omega
      have hile : i ≤ c.n := by omega
      rw [if_neg hi1, if_neg hjlt, if_neg hjne, if_pos hjle]
      have hpn : camInPos c val < c.n := by omega
      have hgt := hp3 hpn
      by_cases hi2 : i = camInPos c val
      · rw [if_pos hi2]
        by_cases hjp : j - 1 = camInPos c val
        · rw [hjp]; exact le_of_lt hgt
        · have := hs (camInPos c val) (j - 1) (by omega) (by omega)
          exact le_trans (le_of_lt hgt) this
      · rw [if_neg hi2, if_pos hile]
        exact hs (i - 1) (j - 1) (by omega) (by omega)

theorem camOut_inv (c : CAM) (val : Nat) (hs : camSorted c) (hn : c.n ≤ M * N) :
    camSorted (camOut c val) ∧ (camOut c val).n ≤ M * N := by
  have h12 := MN_eq
  unfold camOut
  by_cases h0 : c.n = 0
  · rw [if_pos h0]; exact ⟨hs, hn⟩
  · rw [if_neg h0]
    rcases camOutLoop_cases val c c.n 0 (by omega) with ⟨h1, -⟩ | ⟨p, -, hp, -, -, h5⟩
    · rw [h1]; exact ⟨hs, hn⟩
    · rw [h5]
      have hu : udec c.n = c.n - 1 := udec_of_pos (by omega)
      refine ⟨?_, by show udec c.n ≤ M * N; omega⟩
      intro i j hij hj
      have hj' : j < c.n - 1 := by
        have : j < udec c.n := hj
        omega
      show (camOutShift c.n c.n (p + 1) c.mem i).id ≤ (camOutShift c.n c.n (p + 1) c.mem j).id
      rw [camOutShift_apply c.n c.n (p + 1) c.mem i (by omega) (by omega),
        camOutShift_apply c.n c.n (p + 1) c.mem j (by omega) (by omega)]
      by_cases hi1 : p + 1 ≤ i + 1 ∧ i + 1 < c.n
      · rw [if_pos hi1, if_pos (by omega)]
        exact hs (i + 1) (j + 1) (by omega) (by omega)
      · rw [if_neg hi1]
        by_cases hj1 : p + 1 ≤ j + 1 ∧ j + 1 < c.n
        · rw [if_pos hj1]
          exact hs i (j + 1) (by omega) (by omega)
        · rw [if_neg hj1]
          exact hs i j hij (by omega)

theorem camRun_inv (ops : List CamOp) :
    ∀ (c : CAM), camSorted c → c.n ≤ M * N →
      camSorted (camRun c ops) ∧ (camRun c ops).n ≤ M * N := by
  induction ops with
  | nil => intro c hs hn; exact ⟨hs, hn⟩
  | cons op ops ih =>
    intro c hs hn
    show camSorted (camRun (camStep c op) ops) ∧ (camRun (camStep c op) ops).n ≤ M * N
    cases op with
    | camIn val =>
      obtain ⟨h1, h2⟩ := camIn_inv c val hs hn
      exact ih _ h1 h2
    | camOut val =>
      obtain ⟨h1, h2⟩ := camOut_inv c val hs hn
      exact ih _ h1 h2

/-- C1: for every sequence of `camIn` and `camOut` calls applied to a CAM initialised by `camInit`
(a `camIn` on a CAM that holds `M*N` ids being a no-op), after every call -- the sequence is
arbitrary, so after each of its initial segments -- the stored ids `mem[0..n-1]` are in
non-decreasing order and `n ≤ M*N`. -/
theorem cam_sorted_bounded (c0 : CAM) (ops : List CamOp) :
    camSorted (camRun (camInit c0) ops) ∧ (camRun (camInit c0) ops).n ≤ M * N := by
  have hinit : camSorted (camInit c0) := by
    intro i j _ hj
    have : j < 0 := hj
    omega
  have hn0 : (camInit c0).n ≤ M * N := Nat.zero_le _
  exact camRun_inv ops _ hinit hn0

/-! ## The queue -/

theorem N_eq : N = 6 := rfl

theorem queueContents_length (q : QUEUE) : (queueContents q).length = queueCount q := by
  simp [queueContents]

theorem queueCount_le (q : QUEUE) : queueCount q ≤ N := by
  unfold queueCount
  split
  · exact le_refl _
  · exact le_of_lt (Nat.mod_lt _ (by decide))

theorem queueFull_iff_count (q : QUEUE) : queueFull q = true ↔ queueCount q = N := by
  unfold queueFull queueCount
  constructor
  · intro h; rw [if_pos h]
  · intro h
    by_contra hf
    rw [if_neg hf] at h
    have := Nat.mod_lt (q.ii + N - q.ri) (show N > 0 by decide)
    omega

theorem queueEmpty_iff_count (q : QUEUE) (hwf : queueWF q) :
    queueEmpty q = true ↔ queueCount q = 0 := by
  obtain ⟨h1, h2, h3⟩ := hwf
  unfold queueEmpty queueCount
  rw [N_eq] at *
  cases hf : q.full
  · simp only [Bool.not_false, Bool.true_and, decide_eq_true_eq, Bool.false_eq_true, if_false]
    omega
  · simp

theorem queueInit_wf (q : QUEUE) : queueWF (queueInit q) := by
  refine ⟨?_, ?_, ?_⟩
  · show 0 < N; decide
  · show 0 < N; decide
  · intro _; rfl

theorem queueInit_contents (q : QUEUE) : queueContents (queueInit q) = [] := by
  simp [queueContents, queueCount, queueInit]

theorem queueIn_full (q : QUEUE) (val : Nat) (hf : q.full = true) : queueIn q val = q := by
  unfold queueIn
  rw [if_pos hf]

/-- An insertion into a queue that is not full appends the id at the tail. -/
theorem queueIn_contents (q : QUEUE) (val : Nat) (hwf : queueWF q) (hf : q.full = false) :
    queueWF (queueIn q val) ∧ queueContents (queueIn q val) = queueContents q ++ [val] := by
  obtain ⟨h1, h2, -⟩ := hwf
  rw [N_eq] at h1 h2
  have hu : uinc q.ii = q.ii + 1 := uinc_of_lt (by omega)
  have hq : queueIn q val =
      { mem := store q.mem q.ii val, ii := (q.ii + 1) % N, ri := q.ri,
        full := decide ((q.ii + 1) % N = q.ri) } := by
    unfold queueIn
    simp [hf, hu]
  have hc : queueCount q = (q.ii + N - q.ri) % N := by
    unfold queueCount; simp [hf]
  have hc' : queueCount (queueIn q val) = queueCount q + 1 := by
    rw [hc, hq]
    unfold queueCount
    simp only [N_eq, decide_eq_true_eq]
    split <;> omega
  refine ⟨?_, ?_⟩
  · rw [hq]
    refine ⟨?_, ?_, ?_⟩
    · show (q.ii + 1) % N < N
      exact Nat.mod_lt _ (by decide)
    · show q.ri < N
      rw [N_eq]; exact h2
    · intro h
      simpa using h
  · unfold queueContents
    rw [hc', List.range_succ, List.map_append]
    congr 1
    · apply List.map_congr_left
      intro j hj
      rw [List.mem_range, hc] at hj
      rw [hq]
      show store q.mem q.ii val ((q.ri + j) % N) = q.mem ((q.ri + j) % N)
      rw [store_apply, if_neg]
      rw [N_eq] at hj ⊢
      omega
    · rw [hq]
      show [store q.mem q.ii val ((q.ri + queueCount q) % N)] = [val]
      rw [store_apply, if_pos]
      rw [hc, N_eq]
      omega

/-- A retrieval from a queue that is not empty takes the id at the head. -/
theorem queueOut_contents (q : QUEUE) (d : Nat) (hwf : queueWF q) (he : queueEmpty q = false) :
    queueWF (queueOut q d).1 ∧
    queueContents q = (queueOut q d).2 :: queueContents (queueOut q d).1 := by
  have hcnt : queueCount q ≠ 0 := by
    intro h
    rw [(queueEmpty_iff_count q hwf).mpr h] at he
    exact Bool.noConfusion he
  obtain ⟨h1, h2, h3⟩ := hwf
  rw [N_eq] at h1 h2
  have hu : uinc q.ri = q.ri + 1 := uinc_of_lt (by omega)
  have hq : queueOut q d = ({ q with ri := (q.ri + 1) % N, full := false }, q.mem q.ri) := by
    unfold queueOut
    unfold queueEmpty at he
    rw [he, hu]
    rfl
  have hc' : queueCount q = queueCount (queueOut q d).1 + 1 := by
    rw [hq]
    unfold queueCount at hcnt ⊢
    simp only [N_eq, Bool.false_eq_true, if_false] at hcnt ⊢
    by_cases hf : q.full = true
    · have := h3 hf
      rw [if_pos hf]
      omega
    · rw [if_neg hf] at hcnt ⊢
      omega
  refine ⟨?_, ?_⟩
  · rw [hq]
    refine ⟨?_, ?_, ?_⟩
    · show q.ii < N
      rw [N_eq]; exact h1
    · show (q.ri + 1) % N < N
      exact Nat.mod_lt _ (by decide)
    · intro h
      exact Bool.noConfusion h
  · unfold queueContents
    rw [hc', List.range_succ_eq_map, List.map_cons, List.map_map]
    congr 1
    · rw [hq]
      show q.mem ((q.ri + 0) % N) = q.mem q.ri
      rw [N_eq]
      congr 1
      omega
    · apply List.map_congr_left
      intro j _
      rw [hq]
      show q.mem ((q.ri + (j + 1)) % N) = q.mem (((q.ri + 1) % N + j) % N)
      rw [N_eq]
      congr 1
      omega

theorem queueOut_empty (q : QUEUE) (d : Nat) (he : queueEmpty q = true) :
    queueOut q d = (q, d) := by
  unfold queueOut
  unfold queueEmpty at he
  rw [he]
  rfl

theorem queueInAll_contents (ids : List Nat) :
    ∀ (q : QUEUE), queueWF q → queueCount q + ids.length ≤ N →
      queueWF (queueInAll q ids) ∧ queueContents (queueInAll q ids) = queueContents q ++ ids := by
  induction ids with
  | nil =>
    intro q hwf _
    exact ⟨hwf, by simp [queueInAll]⟩
  | cons a ids ih =>
    intro q hwf hlen
    rw [List.length_cons] at hlen
    have hf : q.full = false := by
      cases hfull : q.full
      · rfl
      · have := (queueFull_iff_count q).mp hfull
        omega
    obtain ⟨hwf1, hc1⟩ := queueIn_contents q a hwf hf
    have hcnt : queueCount (queueIn q a) = queueCount q + 1 := by
      rw [← queueContents_length, hc1, List.length_append, queueContents_length]
      rfl
    obtain ⟨hwf2, hc2⟩ := ih (queueIn q a) hwf1 (by omega)
    refine ⟨hwf2, ?_⟩
    show queueContents (queueInAll (queueIn q a) ids) = queueContents q ++ a :: ids
    rw [hc2, hc1, List.append_assoc]
    rfl

theorem queueOutN_contents (k : Nat) :
    ∀ (q : QUEUE) (d : Nat), queueWF q → k ≤ queueCount q →
      queueWF (queueOutN k q d).1 ∧
      (queueOutN k q d).2 = (queueContents q).take k ∧
      queueContents (queueOutN k q d).1 = (queueContents q).drop k := by
  induction k with
  | zero =>
    intro q d hwf _
    exact ⟨hwf, by simp [queueOutN], by simp [queueOutN]⟩
  | succ k ih =>
    intro q d hwf hk
    have he : queueEmpty q = false := by
      cases hem : queueEmpty q
      · rfl
      · have := (queueEmpty_iff_count q hwf).mp hem
        omega
    obtain ⟨hwf1, hc1⟩ := queueOut_contents q d hwf he
    have hcnt : queueCount q = queueCount (queueOut q d).1 + 1 := by
      rw [← queueContents_length q, hc1, List.length_cons, queueContents_length]
    obtain ⟨hwf2, ht, hd⟩ := ih (queueOut q d).1 (queueOut q d).2 hwf1 (by omega)
    refine ⟨hwf2, ?_, ?_⟩
    · show (queueOut q d).2 :: (queueOutN k (queueOut q d).1 (queueOut q d).2).2 = _
      rw [ht, hc1, List.take_succ_cons]
    · show queueContents (queueOutN k (queueOut q d).1 (queueOut q d).2).1 = _
      rw [hd, hc1, List.drop_succ_cons]

/-- C2: for every `k ≤ N` and all ids `a1..ak`, starting from any empty queue -- `ii = ri` at any
index below `N`, the flag down -- `k` calls of `queueIn` followed by `k` calls of `queueOut`
return `a1..ak` in insertion order and leave the queue empty. -/
theorem queue_fifo_roundtrip (q : QUEUE) (ids : List Nat) (d : Nat)
    (hempty : queueEmpty q = true) (hri : q.ri < N) (hlen : ids.length ≤ N) :
    (queueOutN ids.length (queueInAll q ids) d).2 = ids ∧
    queueEmpty (queueOutN ids.length (queueInAll q ids) d).1 = true := by
  have hfe : q.full = false ∧ q.ii = q.ri := by
    unfold queueEmpty at hempty
    simpa using hempty
  have hwf : queueWF q := ⟨by rw [hfe.2]; exact hri, hri, by rw [hfe.1]; intro h; cases h⟩
  have hc0 : queueCount q = 0 := (queueEmpty_iff_count q hwf).mp hempty
  have hl0 : queueContents q = [] := by
    apply List.eq_nil_of_length_eq_zero
    rw [queueContents_length, hc0]
  obtain ⟨hwf1, hc1⟩ := queueInAll_contents ids q hwf (by omega)
  rw [hl0, List.nil_append] at hc1
  have hcnt : queueCount (queueInAll q ids) = ids.length := by
    rw [← queueContents_length, hc1]
  obtain ⟨hwf2, ht, hd⟩ := queueOutN_contents ids.length (queueInAll q ids) d hwf1 (by omega)
  rw [hc1] at ht hd
  refine ⟨by rw [ht, List.take_length], ?_⟩
  apply (queueEmpty_iff_count _ hwf2).mpr
  rw [← queueContents_length, hd, List.drop_length]
  rfl

/-- Four ids through a queue that was emptied with its head at index 4: the insertions wrap
around the end of the storage region. -/
theorem queue_fifo_roundtrip_witness :
    (queueOutN 4 (queueInAll { mem := fun _ => 0, ii := 4, ri := 4, full := false } [5, 1, 3, 2])
        9).2 = [5, 1, 3, 2] ∧
    queueEmpty (queueOutN 4
      (queueInAll { mem := fun _ => 0, ii := 4, ri := 4, full := false } [5, 1, 3, 2]) 9).1
      = true :=
  queue_fifo_roundtrip { mem := fun _ => 0, ii := 4, ri := 4, full := false } [5, 1, 3, 2] 9
    (by decide) (by decide) (by decide)

theorem queueRun_refines (ops : List QueueOp) :
    ∀ (q : QUEUE), queueWF q →
      queueWF (queueRun q ops) ∧
      queueContents (queueRun q ops) = specQueueRun (queueContents q) ops := by
  induction ops with
  | nil => intro q hwf; exact ⟨hwf, rfl⟩
  | cons op ops ih =>
    intro q hwf
    show queueWF (queueRun (queueStep q op) ops) ∧
      queueContents (queueRun (queueStep q op) ops)
        = specQueueRun (specQueueStep (queueContents q) op) ops
    cases op with
    | queueIn val =>
      cases hf : q.full
      · obtain ⟨hwf1, hc1⟩ := queueIn_contents q val hwf hf
        have hlt : (queueContents q).length < N := by
          rw [queueContents_length]
          have h1 := queueCount_le q
          have h2 : ¬ queueCount q = N := fun h => by
            have := (queueFull_iff_count q).mpr h
            unfold queueFull at this
            rw [hf] at this
            cases this
          omega
        obtain ⟨hwf2, hc2⟩ := ih _ hwf1
        refine ⟨hwf2, ?_⟩
        show queueContents (queueRun (queueIn q val) ops) = _
        rw [hc2, hc1]
        simp [specQueueStep, hlt]
      · have hlen : ¬ (queueContents q).length < N := by
          rw [queueContents_length, (queueFull_iff_count q).mp hf]
          omega
        obtain ⟨hwf2, hc2⟩ := ih _ hwf
        show queueWF (queueRun (queueIn q val) ops) ∧
          queueContents (queueRun (queueIn q val) ops)
            = specQueueRun (specQueueStep (queueContents q) (QueueOp.queueIn val)) ops
        rw [queueIn_full q val hf]
        refine ⟨hwf2, ?_⟩
        rw [hc2]
        simp [specQueueStep, hlen]
    | queueOut =>
      show queueWF (queueRun (queueOut q 0).1 ops) ∧
        queueContents (queueRun (queueOut q 0).1 ops)
          = specQueueRun (queueContents q).tail ops
      cases he : queueEmpty q
      · obtain ⟨hwf1, hc1⟩ := queueOut_contents q 0 hwf he
        obtain ⟨hwf2, hc2⟩ := ih _ hwf1
        refine ⟨hwf2, ?_⟩
        rw [hc2, hc1, List.tail_cons]
      · rw [queueOut_empty q 0 he]
        obtain ⟨hwf2, hc2⟩ := ih _ hwf
        refine ⟨hwf2, ?_⟩
        rw [hc2]
        have hc0 : queueCount q = 0 := (queueEmpty_iff_count q hwf).mp he
        have hl0 : queueContents q = [] := by
          apply List.eq_nil_of_length_eq_zero
          rw [queueContents_length, hc0]
        rw [hl0, List.tail_nil]

/-- C3: in every queue state reachable from `queueInit` by `queueIn` and `queueOut` calls,
`ii < N` and `ri < N`; the stored ids are those of the specification's first-in first-out line
run through the same calls, so their number is at most `N`; `queueFull` and `queueEmpty` are
never both true; and `queueFull` is true exactly when `N` ids are stored. -/
theorem queue_reachable_invariant (q0 : QUEUE) (ops : List QueueOp) :
    (queueRun (queueInit q0) ops).ii < N ∧ (queueRun (queueInit q0) ops).ri < N ∧
    queueContents (queueRun (queueInit q0) ops) = specQueueRun [] ops ∧
    (specQueueRun [] ops).length ≤ N ∧
    ¬ (queueFull (queueRun (queueInit q0) ops) = true ∧
        queueEmpty (queueRun (queueInit q0) ops) = true) ∧
    (queueFull (queueRun (queueInit q0) ops) = true ↔ (specQueueRun [] ops).length = N) := by
  obtain ⟨hwf, hc⟩ := queueRun_refines ops (queueInit q0) (queueInit_wf q0)
  rw [queueInit_contents] at hc
  have hlen : (specQueueRun [] ops).length = queueCount (queueRun (queueInit q0) ops) := by
    rw [← hc, queueContents_length]
  refine ⟨hwf.1, hwf.2.1, hc, ?_, ?_, ?_⟩
  · rw [hlen]; exact queueCount_le _
  · rintro ⟨h1, h2⟩
    have e1 := (queueFull_iff_count _).mp h1
    have e2 := (queueEmpty_iff_count _ hwf).mp h2
    rw [e1] at e2
    exact absurd e2 (by decide)
  · rw [hlen]
    exact queueFull_iff_count _

/-! ## The bus -/

theorem T_eq : T = 3 := rfl

theorem countP_range_congr (f g : Nat → Bool) (n : Nat) (h : ∀ i, i < n → g i = f i) :
    (List.range n).countP g = (List.range n).countP f := by
  apply List.countP_congr
  intro x hx
  rw [List.mem_range] at hx
  rw [h x hx]

/-- Raising a predicate at one index below `n` raises its count on `0..n-1` by one. -/
theorem countP_range_raise (f g : Nat → Bool) (p : Nat) (hfg : ∀ i, i ≠ p → g i = f i)
    (hf : f p = false) (hg : g p = true) :
    ∀ (n : Nat), p < n → (List.range n).countP g = (List.range n).countP f + 1 := by
  intro n
  induction n with
  | zero => intro h; omega
  | succ n ih =>
    intro hp
    rw [List.range_succ, List.countP_append, List.countP_append]
    by_cases hpn : p = n
    · subst hpn
      rw [countP_range_congr f g p (fun i hi => hfg i (by omega))]
      simp [List.countP_cons, hf, hg]
    · rw [ih (by omega)]
      have : g n = f n := hfg n (fun h => hpn h.symm)
      simp [List.countP_cons, this]
      omega

theorem countP_range_le (f : Nat → Bool) (n : Nat) : (List.range n).countP f ≤ n := by
  have := List.countP_le_length f (l := List.range n)
  simpa using this

theorem countP_range_all (f : Nat → Bool) (n : Nat) (h : ∀ i, i < n → f i = true) :
    (List.range n).countP f = n := by
  have h1 : (List.range n).countP f = (List.range n).length := by
    rw [List.countP_eq_length]
    intro a ha
    exact h a (List.mem_range.mp ha)
  simpa using h1

theorem toInt_of_lt {u : Nat} (h : u < 2147483648) : toInt u = (u : Int) := by
  unfold toInt
  rw [if_pos h]

theorem toUnsigned_eq_iff {i : Int} {u : Nat} (h1 : -2147483648 ≤ i) (h2 : i < 2147483648)
    (hu : u < 2147483648) : toUnsigned i = u ↔ i = (u : Int) := by
  unfold toUnsigned
  split <;> omega

/-- The loop of `enterTheBus`: either no seat of the range is empty and the bus is left as it
is, or the first empty seat receives the id. -/
theorem enterTheBusLoop_cases (id : Nat) :
    ∀ (r i : Nat) (b : TRANSF_INFO),
      (enterTheBusLoop id r i b = b ∧ ∀ x, i ≤ x → x < i + r → b.seat x ≠ EMPTYST) ∨
      (∃ p, i ≤ p ∧ p < i + r ∧ b.seat p = EMPTYST ∧
        (∀ x, i ≤ x → x < p → b.seat x ≠ EMPTYST) ∧
        enterTheBusLoop id r i b
          = { seat := store b.seat p (toInt id), nOccup := uinc b.nOccup }) := by
  intro r
  induction r with
  | zero =>
    intro i b
    left
    refine ⟨rfl, ?_⟩
    intro x h1 h2; omega
  | succ r ih =>
    intro i b
    simp only [enterTheBusLoop]
    by_cases he : b.seat i = EMPTYST
    · rw [if_pos he]
      right
      refine ⟨i, le_refl _, by omega, he, ?_, rfl⟩
      intro x h1 h2; omega
    · rw [if_neg he]
      rcases ih (i + 1) b with ⟨h1, h2⟩ | ⟨p, h1, h2, h3, h4, h5⟩
      · left
        refine ⟨h1, ?_⟩
        intro x hx1 hx2
        by_cases hxi : x = i
        · subst hxi; exact he
        · exact h2 x (by omega) (by omega)
      · right
        refine ⟨p, by omega, by omega, h3, ?_, h5⟩
        intro x hx1 hx2
        by_cases hxi : x = i
        · subst hxi; exact he
        · exact h4 x (by omega) hx2

/-- The loop of `leaveTheBus`: either no seat of the range holds the id and the bus is left as it
is, or the first seat that holds it is emptied. -/
theorem leaveTheBusLoop_cases (id : Nat) :
    ∀ (r i : Nat) (b : TRANSF_INFO),
      (leaveTheBusLoop id r i b = b ∧ ∀ x, i ≤ x → x < i + r → toUnsigned (b.seat x) ≠ id) ∨
      (∃ p, i ≤ p ∧ p < i + r ∧ toUnsigned (b.seat p) = id ∧
        (∀ x, i ≤ x → x < p → toUnsigned (b.seat x) ≠ id) ∧
        leaveTheBusLoop id r i b
          = { seat := store b.seat p EMPTYST, nOccup := udec b.nOccup }) := by
  intro r
  induction r with
  | zero =>
    intro i b
    left
    refine ⟨rfl, ?_⟩
    intro x h1 h2; omega
  | succ r ih =>
    intro i b
    simp only [leaveTheBusLoop]
    by_cases he : toUnsigned (b.seat i) = id
    · rw [if_pos he]
      right
      refine ⟨i, le_refl _, by omega, he, ?_, rfl⟩
      intro x h1 h2; omega
    · rw [if_neg he]
      rcases ih (i + 1) b with ⟨h1, h2⟩ | ⟨p, h1, h2, h3, h4, h5⟩
      · left
        refine ⟨h1, ?_⟩
        intro x hx1 hx2
        by_cases hxi : x = i
        · subst hxi; exact he
        · exact h2 x (by omega) (by omega)
      · right
        refine ⟨p, by omega, by omega, h3, ?_, h5⟩
        intro x hx1 hx2
        by_cases hxi : x = i
        · subst hxi; exact he
        · exact h4 x (by omega) hx2

theorem busCount_occupy (b : TRANSF_INFO) (p : Nat) (v : Int) (n : Nat) (hp : p < T)
    (he : b.seat p = EMPTYST) (hv : v ≠ EMPTYST) :
    busCount { seat := store b.seat p v, nOccup := n } = busCount b + 1 := by
  unfold busCount
  apply countP_range_raise _ _ p _ _ _ T hp
  · intro i hi
    simp [store_apply, hi]
  · simp [he]
  · simp [store_apply, hv]

theorem busCount_vacate (b : TRANSF_INFO) (p : Nat) (n : Nat) (hp : p < T)
    (he : b.seat p ≠ EMPTYST) :
    busCount b = busCount { seat := store b.seat p EMPTYST, nOccup := n } + 1 := by
  unfold busCount
  apply countP_range_raise _ _ p _ _ _ T hp
  · intro i hi
    simp [store_apply, hi]
  · simp [store_apply]
  · simp [he]

/-- The bus as the generator leaves it: no seat occupied. -/
theorem mainInit_bus (d : Draws) (sh0 : SHARED_DATA) :
    (mainInit d sh0).fSt.bus.nOccup = 0 ∧
    ∀ x, x < T → (mainInit d sh0).fSt.bus.seat x = EMPTYST := by
  refine ⟨rfl, ?_⟩
  intro x hx
  show store (store (store _ 0 EMPTYST) 1 EMPTYST) 2 EMPTYST x = EMPTYST
  rw [T_eq] at hx
  simp only [store_apply]
  have : x = 0 ∨ x = 1 ∨ x = 2 := by omega
  rcases this with h | h | h <;> subst h <;> simp

theorem mainInit_busInv (d : Draws) (sh0 : SHARED_DATA) :
    busInv (mainInit d sh0).fSt.bus ∧ busTyped (mainInit d sh0).fSt.bus := by
  obtain ⟨h1, h2⟩ := mainInit_bus d sh0
  refine ⟨⟨?_, by rw [h1]; exact Nat.zero_le _⟩, ?_⟩
  · rw [h1]
    unfold busCount
    rw [countP_range_congr (fun _ => false)]
    · simp
    · intro i hi
      simp [h2 i hi]
  · intro x hx
    rw [h2 x hx]
    decide

/-- Boarding a bus that satisfies the invariant and is not packed full: the lowest-index empty
seat receives the id and the invariant holds again. -/
theorem enterTheBusLoop_inv (b : TRANSF_INFO) (id : Nat) (hid : id < N) (hinv : busInv b)
    (hty : busTyped b) (hne : b.nOccup ≠ T) :
    ∃ p, p < T ∧ b.seat p = EMPTYST ∧ (∀ x, x < p → b.seat x ≠ EMPTYST) ∧
      enterTheBusLoop id T 0 b = { seat := store b.seat p (id : Int), nOccup := b.nOccup + 1 } ∧
      busInv { seat := store b.seat p (id : Int), nOccup := b.nOccup + 1 } ∧
      busTyped { seat := store b.seat p (id : Int), nOccup := b.nOccup + 1 } := by
  obtain ⟨hcnt, hle⟩ := hinv
  rw [N_eq] at hid
  have hT := T_eq
  rcases enterTheBusLoop_cases id T 0 b with ⟨-, hall⟩ | ⟨p, -, hp, he, hfirst, hloop⟩
  · exfalso
    apply hne
    rw [hcnt]
    unfold busCount
    apply countP_range_all
    intro i hi
    simpa using hall i (Nat.zero_le _) (by omega)
  · have hp' : p < T := by omega
    have hv : ((id : Nat) : Int) ≠ EMPTYST := by
      unfold EMPTYST; omega
    rw [toInt_of_lt (by omega), uinc_of_lt (by omega)] at hloop
    refine ⟨p, hp', he, fun x hx => hfirst x (Nat.zero_le _) hx, hloop, ⟨?_, ?_⟩, ?_⟩
    · show b.nOccup + 1 = busCount _
      rw [busCount_occupy b p (id : Int) (b.nOccup + 1) hp' he hv, hcnt]
    · show b.nOccup + 1 ≤ T
      omega
    · intro x hx
      show -2147483648 ≤ store b.seat p (id : Int) x ∧ store b.seat p (id : Int) x < 2147483648
      rw [store_apply]
      split
      · omega
      · exact hty x hx

/-- Leaving a bus that satisfies the invariant and is not empty: when no seat holds the id the
bus is left as it is, otherwise the lowest-index seat holding it is emptied; the invariant holds
again. -/
theorem leaveTheBusLoop_inv (b : TRANSF_INFO) (id : Nat) (hid : id < N) (hinv : busInv b)
    (hty : busTyped b) (hne : b.nOccup ≠ 0) :
    busInv (leaveTheBusLoop id T 0 b) ∧ busTyped (leaveTheBusLoop id T 0 b) ∧
    ((∀ x, x < T → b.seat x ≠ (id : Int)) → leaveTheBusLoop id T 0 b = b) ∧
    (∀ p, p < T → b.seat p = (id : Int) → (∀ x, x < p → b.seat x ≠ (id : Int)) →
      leaveTheBusLoop id T 0 b = { seat := store b.seat p EMPTYST, nOccup := b.nOccup - 1 }) := by
  obtain ⟨hcnt, hle⟩ := hinv
  rw [N_eq] at hid
  have hT := T_eq
  have hiff : ∀ x, x < T → (toUnsigned (b.seat x) = id ↔ b.seat x = (id : Int)) := by
    intro x hx
    exact toUnsigned_eq_iff (hty x hx).1 (hty x hx).2 (by omega)
  rcases leaveTheBusLoop_cases id T 0 b with ⟨hsame, hall⟩ | ⟨p, -, hp, he, hfirst, hloop⟩
  · rw [hsame]
    refine ⟨⟨hcnt, hle⟩, hty, fun _ => rfl, ?_⟩
    intro p hp hseat _
    exact absurd ((hiff p hp).mpr hseat) (hall p (Nat.zero_le _) (by omega))
  · have hp' : p < T := by omega
    have hseat : b.seat p = (id : Int) := (hiff p hp').mp he
    have hocc : b.seat p ≠ EMPTYST := by
      rw [hseat]; unfold EMPTYST; omega
    rw [udec_of_pos (by omega)] at hloop
    rw [hloop]
    refine ⟨⟨?_, ?_⟩, ?_, ?_, ?_⟩
    · show b.nOccup - 1 = busCount _
      have := busCount_vacate b p (b.nOccup - 1) hp' hocc
      omega
    · show b.nOccup - 1 ≤ T
      omega
    · intro x hx
      show -2147483648 ≤ store b.seat p EMPTYST x ∧ store b.seat p EMPTYST x < 2147483648
      rw [store_apply]
      split
      · unfold EMPTYST; omega
      · exact hty x hx
    · intro hnone
      exact absurd hseat (hnone p hp')
    · intro q hq hqseat hqfirst
      have hqp : q = p := by
        by_contra hne'
        rcases Nat.lt_or_gt_of_ne hne' with h | h
        · exact hfirst q (Nat.zero_le _) h ((hiff q hq).mpr hqseat)
        · exact hqfirst p h hseat
      rw [hqp]

/-- C4: the bus invariant -- `nOccup` is the number of seats different from `EMPTYST`, and
`nOccup ≤ T` -- holds in the state the generator leaves and is preserved by `enterTheBus`, which
aborts when `nOccup = T` and otherwise puts the id of the caller in the lowest-index empty seat,
and by `leaveTheBus`, which aborts when `nOccup = 0` and otherwise empties the (lowest-index) seat
holding the id of the caller.  The caller is one of the passengers `0..N-1` and the seats hold C
`int` values. -/
theorem bus_invariant (d : Draws) (sh0 sh : SHARED_DATA) (k id : Nat) (hid : id < N)
    (hinv : busInv sh.fSt.bus) (hty : busTyped sh.fSt.bus) :
    (busInv (mainInit d sh0).fSt.bus ∧ busTyped (mainInit d sh0).fSt.bus) ∧
    (sh.fSt.bus.nOccup = T → enterTheBus sh k id = none) ∧
    (sh.fSt.bus.nOccup ≠ T → ∃ o p, enterTheBus sh k id = some o ∧
      busInv o.sh.fSt.bus ∧ busTyped o.sh.fSt.bus ∧
      p < T ∧ sh.fSt.bus.seat p = EMPTYST ∧ (∀ x, x < p → sh.fSt.bus.seat x ≠ EMPTYST) ∧
      o.sh.fSt.bus
        = { seat := store sh.fSt.bus.seat p (id : Int), nOccup := sh.fSt.bus.nOccup + 1 }) ∧
    (sh.fSt.bus.nOccup = 0 → leaveTheBus sh k id = none) ∧
    (sh.fSt.bus.nOccup ≠ 0 → ∃ o, leaveTheBus sh k id = some o ∧
      busInv o.sh.fSt.bus ∧ busTyped o.sh.fSt.bus ∧
      ((∀ x, x < T → sh.fSt.bus.seat x ≠ (id : Int)) → o.sh.fSt.bus = sh.fSt.bus) ∧
      (∀ p, p < T → sh.fSt.bus.seat p = (id : Int) →
        (∀ x, x < p → sh.fSt.bus.seat x ≠ (id : Int)) →
        o.sh.fSt.bus
          = { seat := store sh.fSt.bus.seat p EMPTYST, nOccup := sh.fSt.bus.nOccup - 1 })) := by
  refine ⟨mainInit_busInv d sh0, ?_, ?_, ?_, ?_⟩
  · intro h
    unfold enterTheBus
    rw [if_pos h]
  · intro hne
    obtain ⟨p, hp, he, hfirst, hloop, hinv', hty'⟩ :=
      enterTheBusLoop_inv sh.fSt.bus id hid hinv hty hne
    unfold enterTheBus
    rw [if_neg hne]
    refine ⟨_, p, rfl, ?_, ?_, hp, he, hfirst, ?_⟩
    · show busInv (enterTheBusLoop id T 0 sh.fSt.bus)
      rw [hloop]; exact hinv'
    · show busTyped (enterTheBusLoop id T 0 sh.fSt.bus)
      rw [hloop]; exact hty'
    · show enterTheBusLoop id T 0 sh.fSt.bus = _
      exact hloop
  · intro h
    unfold leaveTheBus
    rw [if_pos h]
  · intro hne
    obtain ⟨h1, h2, h3, h4⟩ := leaveTheBusLoop_inv sh.fSt.bus id hid hinv hty hne
    unfold leaveTheBus
    rw [if_neg hne]
    exact ⟨_, rfl, h1, h2, h3, h4⟩

/-- A bus that carries passenger 2 in seat 1 satisfies the invariant, and passenger 4 enters
it. -/
theorem bus_invariant_witness :
    ∃ o p, enterTheBus busExample 0 4 = some o ∧
      busInv o.sh.fSt.bus ∧ busTyped o.sh.fSt.bus ∧
      p < T ∧ busExample.fSt.bus.seat p = EMPTYST ∧
      (∀ x, x < p → busExample.fSt.bus.seat x ≠ EMPTYST) ∧
      o.sh.fSt.bus
        = { seat := store busExample.fSt.bus.seat p ((4 : Nat) : Int),
            nOccup := busExample.fSt.bus.nOccup + 1 } :=
  (bus_invariant ⟨fun _ _ => 0, fun _ _ => 0, fun _ _ => 0⟩ zeroShared busExample 0 4
    (by decide) ⟨by decide, by decide⟩ (by unfold busTyped; decide)).2.2.1 (by decide)

/-! ## The check-in of a landing -/

/-- A property kept by every pass through the body of a loop holds after the loop. -/
theorem forUpTo_inv {σ : Type} (P : σ → Prop) (body : Nat → σ → σ)
    (h : ∀ i s, P s → P (body i s)) : ∀ (n : Nat) (s : σ), P s → P (forUpTo body n s) := by
  intro n
  induction n with
  | zero => intro s hs; exact hs
  | succ n ih => intro s hs; exact h n _ (ih s hs)

/-- The counter and the semaphore of the porter after `whatShouldIDo`. -/
theorem whatShouldIDo_nPassP (sh : SHARED_DATA) (k id : Nat) :
    (whatShouldIDo sh k id).sh.nPassP = uinc sh.nPassP ∧
    (whatShouldIDo sh k id).sh.waitingFlight = sh.waitingFlight ∧
    (whatShouldIDo sh k id).ups = if uinc sh.nPassP = N then [sh.waitingFlight] else [] := by
  have key : ∀ (s0 : SHARED_DATA) (n : Nat),
      (forUpTo (fun i s => setStat s k i AT_THE_DISEMBARKING_ZONE) n s0).nPassP = s0.nPassP ∧
      (forUpTo (fun i s => setStat s k i AT_THE_DISEMBARKING_ZONE) n s0).waitingFlight
        = s0.waitingFlight := by
    intro s0 n
    exact forUpTo_inv
      (fun s : SHARED_DATA => s.nPassP = s0.nPassP ∧ s.waitingFlight = s0.waitingFlight)
      (fun i s => setStat s k i AT_THE_DISEMBARKING_ZONE) (fun i s hs => hs) n s0 ⟨rfl, rfl⟩
  unfold whatShouldIDo
  by_cases h1 : (sh.fSt.st.passStat k id).sit = TRT <;> by_cases h2 : sh.nPassP % N = 0
  all_goals simp only [h1, h2, if_true, if_false, key]
  all_goals exact ⟨trivial, trivial, trivial⟩

theorem whatShouldIDoRun_append (l1 l2 : List (Nat × Nat)) :
    ∀ (sh : SHARED_DATA),
      whatShouldIDoRun sh (l1 ++ l2)
        = ((whatShouldIDoRun (whatShouldIDoRun sh l1).1 l2).1,
            (whatShouldIDoRun sh l1).2 ++ (whatShouldIDoRun (whatShouldIDoRun sh l1).1 l2).2) := by
  induction l1 with
  | nil => intro sh; rfl
  | cons c l1 ih =>
    intro sh
    show whatShouldIDoRun sh (c :: (l1 ++ l2)) = _
    simp only [whatShouldIDoRun, ih, List.cons_append]

/-- While fewer than `N` passengers have checked in, nobody wakes up the porter. -/
theorem whatShouldIDoRun_quiet (calls : List (Nat × Nat)) :
    ∀ (sh : SHARED_DATA), sh.nPassP + calls.length < N →
      (whatShouldIDoRun sh calls).1.nPassP = sh.nPassP + calls.length ∧
      (whatShouldIDoRun sh calls).1.waitingFlight = sh.waitingFlight ∧
      (whatShouldIDoRun sh calls).2 = List.replicate calls.length [] := by
  induction calls with
  | nil => intro sh _; exact ⟨rfl, rfl, rfl⟩
  | cons c calls ih =>
    intro sh hlt
    rw [List.length_cons, N_eq] at hlt
    obtain ⟨h1, h2, h3⟩ := whatShouldIDo_nPassP sh c.1 c.2
    have hu : uinc sh.nPassP = sh.nPassP + 1 := uinc_of_lt (by omega)
    rw [hu] at h1 h3
    have h3' : (whatShouldIDo sh c.1 c.2).ups = [] := by
      rw [h3, if_neg]
      rw [N_eq]; omega
    obtain ⟨i1, i2, i3⟩ := ih (whatShouldIDo sh c.1 c.2).sh (by rw [h1, N_eq]; omega)
    simp only [whatShouldIDoRun, List.length_cons, List.replicate_succ]
    refine ⟨by rw [i1, h1]; omega, by rw [i2, h2], by rw [i3, h3']⟩

/-- C5: starting from the check-in counter `nPassP = 0`, in any sequence of `N` calls of
`whatShouldIDo` (any landing numbers, any passenger ids, in any order) the semaphore
`waitingFlight` of the porter is raised exactly once, by the `N`-th call, after which
`nPassP = N`; none of the first `N-1` calls raises any semaphore. -/
theorem checkin_wakes_porter_once (sh : SHARED_DATA) (calls : List (Nat × Nat))
    (h0 : sh.nPassP = 0) (hlen : calls.length = N) :
    (whatShouldIDoRun sh calls).2 = List.replicate (N - 1) [] ++ [[sh.waitingFlight]] ∧
    (whatShouldIDoRun sh calls).1.nPassP = N ∧
    (whatShouldIDoRun sh (calls.take (N - 1))).1.nPassP = N - 1 := by
  have hN := N_eq
  have hsplit : calls = calls.take (N - 1) ++ calls.drop (N - 1) := (List.take_append_drop _ _).symm
  have hl1 : (calls.take (N - 1)).length = N - 1 := by
    rw [List.length_take]; omega
  have hl2 : (calls.drop (N - 1)).length = 1 := by
    rw [List.length_drop]; omega
  obtain ⟨c, hc⟩ : ∃ c, calls.drop (N - 1) = [c] := by
    match hd : calls.drop (N - 1), hl2 with
    | [c], _ => exact ⟨c, rfl⟩
  obtain ⟨q1, q2, q3⟩ := whatShouldIDoRun_quiet (calls.take (N - 1)) sh (by rw [hl1, h0]; omega)
  rw [hl1, h0] at q1
  rw [hl1] at q3
  obtain ⟨w1, w2, w3⟩ := whatShouldIDo_nPassP (whatShouldIDoRun sh (calls.take (N - 1))).1 c.1 c.2
  have hu : uinc (whatShouldIDoRun sh (calls.take (N - 1))).1.nPassP = N := by
    rw [q1, uinc_of_lt (by omega)]; omega
  rw [hu] at w1
  rw [hu, if_pos rfl, q2] at w3
  have hrun : whatShouldIDoRun sh calls
      = ((whatShouldIDo (whatShouldIDoRun sh (calls.take (N - 1))).1 c.1 c.2).sh,
          (whatShouldIDoRun sh (calls.take (N - 1))).2
            ++ [(whatShouldIDo (whatShouldIDoRun sh (calls.take (N - 1))).1 c.1 c.2).ups]) := by
    conv_lhs => rw [hsplit, hc]
    rw [whatShouldIDoRun_append]
    rfl
  rw [hrun]
  refine ⟨?_, w1, by rw [q1]; omega⟩
  show (whatShouldIDoRun sh (calls.take (N - 1))).2 ++ [_] = _
  rw [q3, w3]

/-- Six passengers of landing 0 check in, in the order 3, 0, 5, 1, 4, 2. -/
theorem checkin_wakes_porter_once_witness :
    (whatShouldIDoRun zeroShared [(0, 3), (0, 0), (0, 5), (0, 1), (0, 4), (0, 2)]).2
      = List.replicate (N - 1) [] ++ [[zeroShared.waitingFlight]] ∧
    (whatShouldIDoRun zeroShared [(0, 3), (0, 0), (0, 5), (0, 1), (0, 4), (0, 2)]).1.nPassP = N ∧
    (whatShouldIDoRun zeroShared
      (([(0, 3), (0, 0), (0, 5), (0, 1), (0, 4), (0, 2)] : List (Nat × Nat)).take (N - 1))).1.nPassP
      = N - 1 :=
  checkin_wakes_porter_once zeroShared [(0, 3), (0, 0), (0, 5), (0, 1), (0, 4), (0, 2)] rfl rfl

/-! ## The exit / entry barrier -/

/-- A counting loop counts at most its passes, and all of them exactly when the property counted
holds at every pass. -/
theorem forUpTo_count (P : Nat → Prop) [DecidablePred P] :
    ∀ (n : Nat),
      forUpTo (fun i (c : Nat) => if P i then c + 1 else c) n 0 ≤ n ∧
      (forUpTo (fun i (c : Nat) => if P i then c + 1 else c) n 0 = n ↔ ∀ i, i < n → P i) := by
  intro n
  induction n with
  | zero =>
    refine ⟨le_refl _, ?_⟩
    constructor
    · intro _ i hi; omega
    · intro _; rfl
  | succ n ih =>
    obtain ⟨h1, h2⟩ := ih
    simp only [forUpTo]
    by_cases hp : P n
    · rw [if_pos hp]
      refine ⟨by omega, ?_⟩
      constructor
      · intro h i hi
        by_cases hin : i = n
        · subst hin; exact hp
        · exact h2.mp (by omega) i (by omega)
      · intro h
        have := h2.mpr (fun i hi => h i (by omega))
        omega
    · rw [if_neg hp]
      refine ⟨by omega, ?_⟩
      constructor
      · intro h; omega
      · intro h
        exact absurd (h n (by omega)) hp

theorem setStat_stat (sh : SHARED_DATA) (k id v i : Nat) :
    ((setStat sh k id v).fSt.st.passStat k i).stat
      = if i = id then v else (sh.fSt.st.passStat k i).stat := by
  unfold setStat setPassenger
  simp only [store_apply, if_true]
  split <;> rfl

theorem store_store {α : Type} (a : Nat → α) (i : Nat) (v w : α) :
    store (store a i v) i w = store a i w := by
  funext j
  simp only [store_apply]
  split <;> rfl

theorem setStat_setStat (sh : SHARED_DATA) (k id v w : Nat) :
    setStat (setStat sh k id v) k id w = setStat sh k id w := by
  unfold setStat setPassenger
  simp only [store_apply, if_true, store_store]

/-- The barrier is complete, after the caller has set her status to one of the two states,
exactly when all the other passengers of the landing are in one of them. -/
theorem readyCount_setStat (sh : SHARED_DATA) (k id v : Nat)
    (hv : v = ENTERING_THE_DEPARTURE_TERMINAL ∨ v = EXITING_THE_ARRIVAL_TERMINAL) :
    readyCount (setStat sh k id v) k = N ↔ othersReady sh k id := by
  unfold readyCount
  rw [(forUpTo_count (fun i =>
    ((setStat sh k id v).fSt.st.passStat k i).stat = ENTERING_THE_DEPARTURE_TERMINAL
      ∨ ((setStat sh k id v).fSt.st.passStat k i).stat = EXITING_THE_ARRIVAL_TERMINAL) N).2]
  unfold othersReady
  constructor
  · intro h i hi hne
    have := h i hi
    rw [setStat_stat, if_neg hne] at this
    exact this
  · intro h i hi
    rw [setStat_stat]
    by_cases hid : i = id
    · rw [if_pos hid]; exact hv
    · rw [if_neg hid]; exact h i hi hid

theorem wakeLoop_eq (pass : Nat → Nat) (id : Nat) :
    ∀ (n : Nat),
      forUpTo (fun i (ups : List Nat) => if i ≠ id then ups ++ [pass i] else ups) n []
        = ((List.range n).filter (fun i => decide (i ≠ id))).map pass := by
  intro n
  induction n with
  | zero => rfl
  | succ n ih =>
    simp only [forUpTo]
    rw [ih, List.range_succ, List.filter_append, List.map_append]
    by_cases h : n = id
    · simp [h]
    · simp [h]

theorem wakeOthers_eq (sh : SHARED_DATA) (id : Nat) :
    wakeOthers sh id = ((List.range N).filter (fun i => decide (i ≠ id))).map sh.pass :=
  wakeLoop_eq sh.pass id N

/-- Among the semaphores `B_PASS + i` of the passengers other than `id`, each occurs once and
the one of `id` does not occur. -/
theorem wake_counts (id : Nat) (hid : id < N) :
    (∀ i, i < N → i ≠ id →
      (((List.range N).filter (fun i => decide (i ≠ id))).map (fun p => B_PASS + p)).count
        (B_PASS + i) = 1) ∧
    (((List.range N).filter (fun i => decide (i ≠ id))).map (fun p => B_PASS + p)).count
      (B_PASS + id) = 0 := by
  rw [N_eq] at hid
  interval_cases id <;> decide

theorem goHome_ups (sh : SHARED_DATA) (k id : Nat) :
    (othersReady sh k id →
      (goHome sh k id).ups = ((List.range N).filter (fun i => decide (i ≠ id))).map sh.pass ∧
      (goHome sh k id).down = none ∧
      (goHome sh k id).sh
        = if k = K - 1 then
            { setStat sh k id EXITING_THE_ARRIVAL_TERMINAL with
              fSt := { (setStat sh k id EXITING_THE_ARRIVAL_TERMINAL).fSt with dayEnded := true } }
          else setStat sh k id EXITING_THE_ARRIVAL_TERMINAL) ∧
    (¬ othersReady sh k id →
      (goHome sh k id).ups = [] ∧ (goHome sh k id).down = some (sh.pass id) ∧
      (goHome sh k id).sh = setStat sh k id EXITING_THE_ARRIVAL_TERMINAL) := by
  have hiff := readyCount_setStat sh k id EXITING_THE_ARRIVAL_TERMINAL (Or.inr rfl)
  constructor
  · intro h
    rw [show goHome sh k id = _ from if_pos (hiff.mpr h)]
    exact ⟨wakeOthers_eq _ id, rfl, rfl⟩
  · intro h
    rw [show goHome sh k id = _ from if_neg (fun hc => h (hiff.mp hc))]
    exact ⟨rfl, rfl, rfl⟩

theorem prepareNextLeg_ups (sh : SHARED_DATA) (k id : Nat) :
    (othersReady sh k id →
      (prepareNextLeg sh k id).ups
        = ((List.range N).filter (fun i => decide (i ≠ id))).map sh.pass ∧
      (prepareNextLeg sh k id).down = none ∧
      (prepareNextLeg sh k id).sh
        = if k = K - 1 then
            { setStat sh k id ENTERING_THE_DEPARTURE_TERMINAL with
              fSt := { (setStat sh k id ENTERING_THE_DEPARTURE_TERMINAL).fSt with
                dayEnded := true } }
          else setStat sh k id ENTERING_THE_DEPARTURE_TERMINAL) ∧
    (¬ othersReady sh k id →
      (prepareNextLeg sh k id).ups = [] ∧ (prepareNextLeg sh k id).down = some (sh.pass id) ∧
      (prepareNextLeg sh k id).sh = setStat sh k id ENTERING_THE_DEPARTURE_TERMINAL) := by
  have hiff := readyCount_setStat sh k id ENTERING_THE_DEPARTURE_TERMINAL (Or.inl rfl)
  constructor
  · intro h
    rw [show prepareNextLeg sh k id = _ from if_pos (hiff.mpr h)]
    exact ⟨wakeOthers_eq _ id, rfl, rfl⟩
  · intro h
    rw [show prepareNextLeg sh k id = _ from if_neg (fun hc => h (hiff.mp hc))]
    exact ⟨rfl, rfl, rfl⟩

/-- C6: the exit / entry barrier of `goHome` and `prepareNextLeg`.  The caller first sets her
status (`EXITING_THE_ARRIVAL_TERMINAL`, respectively `ENTERING_THE_DEPARTURE_TERMINAL`).  If all
`N` passengers of landing `k` are then in one of these two states -- that is, if all the others
are -- the semaphore `pass[i]` of each of the other `N-1` passengers is raised exactly once, the
one of the caller is not raised and the caller does not wait; otherwise no semaphore is raised
and the caller waits on her own semaphore.  The two operations raise the same semaphores, wait on
the same semaphore and leave the same shared region apart from the status set. -/
theorem exit_entry_barrier (sh : SHARED_DATA) (k id : Nat) (hid : id < N)
    (hpass : ∀ p, p < N → sh.pass p = B_PASS + p) :
    ((goHome sh k id).sh.fSt.st.passStat k id).stat = EXITING_THE_ARRIVAL_TERMINAL ∧
    ((prepareNextLeg sh k id).sh.fSt.st.passStat k id).stat = ENTERING_THE_DEPARTURE_TERMINAL ∧
    (othersReady sh k id →
      (goHome sh k id).ups = ((List.range N).filter (fun i => decide (i ≠ id))).map sh.pass ∧
      (∀ i, i < N → i ≠ id → (goHome sh k id).ups.count (sh.pass i) = 1) ∧
      (goHome sh k id).ups.count (sh.pass id) = 0 ∧
      (goHome sh k id).down = none) ∧
    (¬ othersReady sh k id →
      (goHome sh k id).ups = [] ∧ (goHome sh k id).down = some (sh.pass id)) ∧
    (prepareNextLeg sh k id).ups = (goHome sh k id).ups ∧
    (prepareNextLeg sh k id).down = (goHome sh k id).down ∧
    (goHome sh k id).sh
      = setStat (prepareNextLeg sh k id).sh k id EXITING_THE_ARRIVAL_TERMINAL := by
  obtain ⟨g1, g2⟩ := goHome_ups sh k id
  obtain ⟨p1, p2⟩ := prepareNextLeg_ups sh k id
  have hmap : ((List.range N).filter (fun i => decide (i ≠ id))).map sh.pass
      = ((List.range N).filter (fun i => decide (i ≠ id))).map (fun p => B_PASS + p) := by
    apply List.map_congr_left
    intro a ha
    exact hpass a (List.mem_range.mp (List.mem_filter.mp ha).1)
  obtain ⟨c1, c2⟩ := wake_counts id hid
  by_cases hr : othersReady sh k id
  · obtain ⟨gu, gd, gs⟩ := g1 hr
    obtain ⟨pu, pd, ps⟩ := p1 hr
    refine ⟨?_, ?_, ?_, fun h => absurd hr h, by rw [pu, gu], by rw [pd, gd], ?_⟩
    · rw [gs]
      split <;> exact (setStat_stat sh k id _ id).trans (if_pos rfl)
    · rw [ps]
      split <;> exact (setStat_stat sh k id _ id).trans (if_pos rfl)
    · intro _
      refine ⟨gu, ?_, ?_, gd⟩
      · intro i hi hne
        rw [gu, hmap, hpass i hi]
        exact c1 i hi hne
      · rw [gu, hmap, hpass id hid]
        exact c2
    · rw [gs, ps]
      by_cases hk : k = K - 1
      · rw [if_pos hk, if_pos hk]
        have e := setStat_setStat sh k id ENTERING_THE_DEPARTURE_TERMINAL
          EXITING_THE_ARRIVAL_TERMINAL
        show _ = ({ setStat (setStat sh k id ENTERING_THE_DEPARTURE_TERMINAL) k id
                      EXITING_THE_ARRIVAL_TERMINAL with
                    fSt := { (setStat (setStat sh k id ENTERING_THE_DEPARTURE_TERMINAL) k id
                      EXITING_THE_ARRIVAL_TERMINAL).fSt with dayEnded := true } } : SHARED_DATA)
        rw [e]
      · rw [if_neg hk, if_neg hk, setStat_setStat]
  · obtain ⟨gu, gd, gs⟩ := g2 hr
    obtain ⟨pu, pd, ps⟩ := p2 hr
    refine ⟨?_, ?_, fun h => absurd h hr, fun _ => ⟨gu, gd⟩, by rw [pu, gu], by rw [pd, gd], ?_⟩
    · rw [gs]
      exact (setStat_stat sh k id _ id).trans (if_pos rfl)
    · rw [ps]
      exact (setStat_stat sh k id _ id).trans (if_pos rfl)
    · rw [gs, ps, setStat_setStat]

/-- Passenger 2 arrives at a barrier where all the others already wait: she raises the
semaphores of the five others and does not wait. -/
theorem exit_entry_barrier_witness :
    (goHome barrierExample 0 2).ups
      = ((List.range N).filter (fun i => decide (i ≠ 2))).map barrierExample.pass ∧
    (∀ i, i < N → i ≠ 2 → (goHome barrierExample 0 2).ups.count (barrierExample.pass i) = 1) ∧
    (goHome barrierExample 0 2).ups.count (barrierExample.pass 2) = 0 ∧
    (goHome barrierExample 0 2).down = none :=
  (exit_entry_barrier barrierExample 0 2 (by decide) (fun _ _ => rfl)).2.2.1
    (fun _ _ _ => Or.inl rfl)

/-! ## The flag `dayEnded` -/

theorem whatShouldIDo_dayEnded (sh : SHARED_DATA) (k id : Nat) :
    (whatShouldIDo sh k id).sh.fSt.dayEnded = sh.fSt.dayEnded := by
  have key : ∀ (s0 : SHARED_DATA) (n : Nat),
      (forUpTo (fun i s => setStat s k i AT_THE_DISEMBARKING_ZONE) n s0).fSt.dayEnded
        = s0.fSt.dayEnded := by
    intro s0 n
    exact forUpTo_inv (fun s : SHARED_DATA => s.fSt.dayEnded = s0.fSt.dayEnded)
      (fun i s => setStat s k i AT_THE_DISEMBARKING_ZONE) (fun i s hs => hs) n s0 rfl
  unfold whatShouldIDo
  by_cases h1 : (sh.fSt.st.passStat k id).sit = TRT <;> by_cases h2 : sh.nPassP % N = 0
  all_goals simp only [h1, h2, if_true, if_false, key]

theorem goCollectABagArrive_dayEnded (sh : SHARED_DATA) (k id : Nat) :
    (goCollectABagArrive sh k id).sh.fSt.dayEnded = sh.fSt.dayEnded := by
  unfold goCollectABagArrive
  by_cases h : (sh.fSt.st.passStat k id).stat = AT_THE_DISEMBARKING_ZONE
  · simp only [if_pos h]; rfl
  · simp only [if_neg h]

theorem goCollectABag_dayEnded (sh : SHARED_DATA) (k id : Nat) :
    (goCollectABag sh k id).sh.fSt.dayEnded = sh.fSt.dayEnded := by
  unfold goCollectABag
  dsimp only
  split_ifs <;> rfl

theorem goHome_dayEnded (sh : SHARED_DATA) (k id : Nat) :
    (othersReady sh k id ∧ k = K - 1 → (goHome sh k id).sh.fSt.dayEnded = true) ∧
    (¬ (othersReady sh k id ∧ k = K - 1) →
      (goHome sh k id).sh.fSt.dayEnded = sh.fSt.dayEnded) := by
  obtain ⟨g1, g2⟩ := goHome_ups sh k id
  constructor
  · rintro ⟨hr, hk⟩
    rw [(g1 hr).2.2, if_pos hk]
  · intro h
    by_cases hr : othersReady sh k id
    · have hk : ¬ k = K - 1 := fun hk => h ⟨hr, hk⟩
      rw [(g1 hr).2.2, if_neg hk]
      rfl
    · rw [(g2 hr).2.2]
      rfl

theorem prepareNextLeg_dayEnded (sh : SHARED_DATA) (k id : Nat) :
    (othersReady sh k id ∧ k = K - 1 → (prepareNextLeg sh k id).sh.fSt.dayEnded = true) ∧
    (¬ (othersReady sh k id ∧ k = K - 1) →
      (prepareNextLeg sh k id).sh.fSt.dayEnded = sh.fSt.dayEnded) := by
  obtain ⟨g1, g2⟩ := prepareNextLeg_ups sh k id
  constructor
  · rintro ⟨hr, hk⟩
    rw [(g1 hr).2.2, if_pos hk]
  · intro h
    by_cases hr : othersReady sh k id
    · have hk : ¬ k = K - 1 := fun hk => h ⟨hr, hk⟩
      rw [(g1 hr).2.2, if_neg hk]
      rfl
    · rw [(g2 hr).2.2]
      rfl

theorem enterTheBus_dayEnded (sh : SHARED_DATA) (k id : Nat) (o : Outcome Unit)
    (h : enterTheBus sh k id = some o) : o.sh.fSt.dayEnded = sh.fSt.dayEnded := by
  unfold enterTheBus at h
  split at h
  · cases h
  · cases h; rfl

theorem leaveTheBus_dayEnded (sh : SHARED_DATA) (k id : Nat) (o : Outcome Unit)
    (h : leaveTheBus sh k id = some o) : o.sh.fSt.dayEnded = sh.fSt.dayEnded := by
  unfold leaveTheBus at h
  split at h
  · cases h
  · cases h; rfl

theorem informPassengers_dayEnded (k : Nat) (sh : SHARED_DATA) :
    (informPassengers k sh).1.fSt.dayEnded = sh.fSt.dayEnded := by
  unfold informPassengers
  apply forUpTo_inv (fun s : SHARED_DATA × List Nat => s.1.fSt.dayEnded = sh.fSt.dayEnded)
  · intro i s hs
    dsimp only
    split
    · exact hs
    · exact hs
  · rfl

theorem tryToCollectABag_dayEnded (sh : SHARED_DATA) (k : Nat) (bag : BAG) :
    (tryToCollectABag sh k bag).sh.fSt.dayEnded = sh.fSt.dayEnded := by
  unfold tryToCollectABag
  have hi := informPassengers_dayEnded k sh
  generalize informPassengers k sh = r at hi ⊢
  dsimp only
  split
  · rfl
  · exact hi

theorem carryItToAppropriateStore_dayEnded (sh : SHARED_DATA) (k : Nat) (bag : BAG)
    (o : Outcome Unit) (h : carryItToAppropriateStore sh k bag = some o) :
    o.sh.fSt.dayEnded = sh.fSt.dayEnded := by
  unfold carryItToAppropriateStore at h
  split at h
  · cases h
  · split at h
    · cases h; rfl
    · split at h
      · cases h; rfl
      · cases h; rfl

theorem summonPassengers_dayEnded (sh : SHARED_DATA) (s : SHARED_DATA) (id : Nat)
    (ups : List Nat) (h : summonPassengers sh = some (s, id, ups)) :
    s.fSt.dayEnded = sh.fSt.dayEnded := by
  have key : ∀ st, summonPassengers sh = st →
      ∀ s id ups, st = some (s, id, ups) → s.fSt.dayEnded = sh.fSt.dayEnded := by
    intro st hst
    rw [← hst]
    unfold summonPassengers
    apply forUpTo_inv (fun st : Option (SHARED_DATA × Nat × List Nat) =>
      ∀ s id ups, st = some (s, id, ups) → s.fSt.dayEnded = sh.fSt.dayEnded)
    · intro i st hst s id ups hs
      match st, hst with
      | none, _ => cases hs
      | some (s0, id0, ups0), hst =>
        have h0 := hst s0 id0 ups0 rfl
        dsimp only at hs
        split at hs
        · split at hs
          · cases hs; exact h0
          · cases hs
        · cases hs; exact h0
    · intro s id ups hs
      cases hs; rfl
  exact key _ rfl s id ups h

theorem announcingBusBoarding_dayEnded (sh : SHARED_DATA) (o : Outcome Unit)
    (h : announcingBusBoarding sh = some o) : o.sh.fSt.dayEnded = sh.fSt.dayEnded := by
  unfold announcingBusBoarding at h
  split at h
  · cases h
  · split at h
    · cases h
    · rename_i s id ups hs
      cases h
      exact summonPassengers_dayEnded sh s id ups hs

theorem summonSeats_dayEnded (sh : SHARED_DATA) (s : SHARED_DATA) (ups : List Nat)
    (h : summonSeats sh = some (s, ups)) : s.fSt.dayEnded = sh.fSt.dayEnded := by
  have key : ∀ st, summonSeats sh = st →
      ∀ s ups, st = some (s, ups) → s.fSt.dayEnded = sh.fSt.dayEnded := by
    intro st hst
    rw [← hst]
    unfold summonSeats
    apply forUpTo_inv (fun st : Option (SHARED_DATA × List Nat) =>
      ∀ s ups, st = some (s, ups) → s.fSt.dayEnded = sh.fSt.dayEnded)
    · intro i st hst s ups hs
      match st, hst with
      | none, _ => cases hs
      | some (s0, ups0), hst =>
        have h0 := hst s0 ups0 rfl
        dsimp only at hs
        split at hs
        · cases hs; exact h0
        · cases hs
    · intro s ups hs
      cases hs; rfl
  exact key _ rfl s ups h

theorem parkTheBusAndLetPassOff_dayEnded (sh : SHARED_DATA) (o : Outcome Unit)
    (h : parkTheBusAndLetPassOff sh = some o) : o.sh.fSt.dayEnded = sh.fSt.dayEnded := by
  unfold parkTheBusAndLetPassOff at h
  dsimp only at h
  split at h
  · cases h
  · split at h
    · cases h
    · rename_i s ups hs
      cases h
      exact summonSeats_dayEnded (setDriverStat sh PARKING_AT_THE_DEPARTURE_TERMINAL) s ups hs

/-- Every operation leaves the flag `dayEnded` as it is, except `goHome` and `prepareNextLeg`
when they complete the barrier of the last landing, which raise it. -/
theorem applyOperation_dayEnded (op : Operation) (sh sh' : SHARED_DATA)
    (h : applyOperation op sh = some sh') :
    sh'.fSt.dayEnded = sh.fSt.dayEnded ∨
    (sh'.fSt.dayEnded = true ∧ ∃ k id,
      (op = Operation.goHome k id ∨ op = Operation.prepareNextLeg k id) ∧
      othersReady sh k id ∧ k = K - 1) := by
  cases op with
  | whatShouldIDo k id =>
    simp only [applyOperation, Option.some.injEq] at h
    subst h
    exact Or.inl (whatShouldIDo_dayEnded sh k id)
  | goCollectABagArrive k id =>
    simp only [applyOperation, Option.some.injEq] at h
    subst h
    exact Or.inl (goCollectABagArrive_dayEnded sh k id)
  | goCollectABag k id =>
    simp only [applyOperation, Option.some.injEq] at h
    subst h
    exact Or.inl (goCollectABag_dayEnded sh k id)
  | reportMissingBags k id =>
    simp only [applyOperation, Option.some.injEq] at h
    subst h
    exact Or.inl rfl
  | goHome k id =>
    simp only [applyOperation, Option.some.injEq] at h
    subst h
    by_cases hc : othersReady sh k id ∧ k = K - 1
    · exact Or.inr ⟨(goHome_dayEnded sh k id).1 hc, k, id, Or.inl rfl, hc.1, hc.2⟩
    · exact Or.inl ((goHome_dayEnded sh k id).2 hc)
  | takeABus k id =>
    simp only [applyOperation, Option.some.injEq] at h
    subst h
    exact Or.inl rfl
  | enterTheBus k id =>
    simp only [applyOperation, Option.map_eq_some'] at h
    obtain ⟨o, ho, rfl⟩ := h
    exact Or.inl (enterTheBus_dayEnded sh k id o ho)
  | leaveTheBus k id =>
    simp only [applyOperation, Option.map_eq_some'] at h
    obtain ⟨o, ho, rfl⟩ := h
    exact Or.inl (leaveTheBus_dayEnded sh k id o ho)
  | prepareNextLeg k id =>
    simp only [applyOperation, Option.some.injEq] at h
    subst h
    by_cases hc : othersReady sh k id ∧ k = K - 1
    · exact Or.inr ⟨(prepareNextLeg_dayEnded sh k id).1 hc, k, id, Or.inr rfl, hc.1, hc.2⟩
    · exact Or.inl ((prepareNextLeg_dayEnded sh k id).2 hc)
  | takeARest k =>
    simp only [applyOperation, Option.some.injEq] at h
    subst h
    exact Or.inl rfl
  | tryToCollectABag k bag =>
    simp only [applyOperation, Option.some.injEq] at h
    subst h
    exact Or.inl (tryToCollectABag_dayEnded sh k bag)
  | carryItToAppropriateStore k bag =>
    simp only [applyOperation, Option.map_eq_some'] at h
    obtain ⟨o, ho, rfl⟩ := h
    exact Or.inl (carryItToAppropriateStore_dayEnded sh k bag o ho)
  | noMoreBagsToCollect k =>
    simp only [applyOperation, Option.some.injEq] at h
    subst h
    exact Or.inl rfl
  | hasDaysWorkEnded =>
    simp only [applyOperation, hasDaysWorkEnded, Option.some.injEq] at h
    subst h
    left
    split
    · rfl
    · split <;> rfl
  | announcingBusBoarding =>
    simp only [applyOperation, Option.map_eq_some'] at h
    obtain ⟨o, ho, rfl⟩ := h
    exact Or.inl (announcingBusBoarding_dayEnded sh o ho)
  | goToDepartureTerminal =>
    simp only [applyOperation, Option.some.injEq] at h
    subst h
    exact Or.inl rfl
  | parkTheBusAndLetPassOff =>
    simp only [applyOperation, Option.map_eq_some'] at h
    obtain ⟨o, ho, rfl⟩ := h
    exact Or.inl (parkTheBusAndLetPassOff_dayEnded sh o ho)
  | goToArrivalTerminal =>
    simp only [applyOperation, Option.some.injEq] at h
    subst h
    exact Or.inl rfl
  | parkTheBus =>
    simp only [applyOperation, Option.some.injEq] at h
    subst h
    exact Or.inl rfl
  | alarmCk =>
    simp only [applyOperation, Option.some.injEq] at h
    subst h
    exact Or.inl rfl

/-- C7: `goHome` and `prepareNextLeg` set the flag `dayEnded` to true exactly when the caller
completes the barrier of all `N` passengers (all the others are entering the departure terminal or
exiting the arrival terminal) of the last landing `k = K-1`; for `k < K-1` or an incomplete
barrier they leave the flag as it is.  No operation of the porter, of a passenger or of the driver
changes the flag otherwise, so none ever sets it back to false. -/
theorem dayEnded_raised_by_last_barrier (sh : SHARED_DATA) (k id : Nat) :
    (othersReady sh k id ∧ k = K - 1 →
      (goHome sh k id).sh.fSt.dayEnded = true ∧
      (prepareNextLeg sh k id).sh.fSt.dayEnded = true) ∧
    (¬ (othersReady sh k id ∧ k = K - 1) →
      (goHome sh k id).sh.fSt.dayEnded = sh.fSt.dayEnded ∧
      (prepareNextLeg sh k id).sh.fSt.dayEnded = sh.fSt.dayEnded) ∧
    (∀ op sh', applyOperation op sh = some sh' → sh'.fSt.dayEnded ≠ sh.fSt.dayEnded →
      sh'.fSt.dayEnded = true ∧ ∃ k' id',
        (op = Operation.goHome k' id' ∨ op = Operation.prepareNextLeg k' id') ∧
        othersReady sh k' id' ∧ k' = K - 1) ∧
    (∀ op sh', applyOperation op sh = some sh' → sh.fSt.dayEnded = true →
      sh'.fSt.dayEnded = true) := by
  refine ⟨fun h => ⟨(goHome_dayEnded sh k id).1 h, (prepareNextLeg_dayEnded sh k id).1 h⟩,
    fun h => ⟨(goHome_dayEnded sh k id).2 h, (prepareNextLeg_dayEnded sh k id).2 h⟩, ?_, ?_⟩
  · intro op sh' hop hne
    rcases applyOperation_dayEnded op sh sh' hop with h | h
    · exact absurd h hne
    · exact h
  · intro op sh' hop ht
    rcases applyOperation_dayEnded op sh sh' hop with h | h
    · rw [h, ht]
    · exact h.1

/-- The last passenger of the last landing, passenger 2 of landing 4, raises the flag. -/
theorem dayEnded_raised_by_last_barrier_witness :
    barrierExample.fSt.dayEnded = false ∧
    (goHome barrierExample 4 2).sh.fSt.dayEnded = true ∧
    (prepareNextLeg barrierExample 4 2).sh.fSt.dayEnded = true :=
  ⟨rfl, (dayEnded_raised_by_last_barrier barrierExample 4 2).1
    ⟨fun _ _ _ => Or.inl rfl, by decide⟩⟩

/-! ## The rendezvous of the bus rides -/

/-- C8, at the failing input: in the first ride the boarding passenger finds `nPassD = 0` and
raises `waitingPass`; `leaveTheBus` then increments `nPassD` once more, so that it is two after
the ride; in the second ride the one passenger summoned boards and leaves `nPassD = 2`, and
`waitingPass` is not raised. -/
theorem second_ride_boarding_not_signalled :
    twoRides = some (([WAITINGPASS], 0), 2, ([], 2)) := by
  decide

/-! ## The boarding threshold -/

theorem uadd_of_lt {x y : Nat} (h : x + y < 4294967296) : uadd x y = x + y := by
  unfold uadd
  rw [if_pos h]

/-- What `queuePeek` returns: the id stored `pos` places after the head when `pos` is below the
number of ids stored, and `EMPTYPOS` otherwise. -/
theorem queuePeek_spec (q : QUEUE) (hwf : queueWF q) (pos : Nat) (hpos : pos < 4294967296 - N) :
    queuePeek q pos
      = if pos < queueCount q then toInt (q.mem ((q.ri + pos) % N)) else EMPTYPOS := by
  obtain ⟨h1, h2, h3⟩ := hwf
  rw [N_eq] at h1 h2 hpos
  have hu : uadd q.ri pos = q.ri + pos := uadd_of_lt (by omega)
  unfold queuePeek queueCount
  rw [hu]
  simp only [N_eq, ge_iff_le, gt_iff_lt, Bool.or_eq_true, Bool.and_eq_true, decide_eq_true_eq,
    Bool.not_eq_true']
  cases hf : q.full
  · simp only [Bool.false_eq_true, if_false, true_and]
    split_ifs <;> first | rfl | omega | (congr 2; omega)
  · have := h3 hf
    simp only [if_true, Bool.true_eq_false, false_and, or_false]
    split_ifs <;> first | rfl | omega

theorem queueIn_wf (q : QUEUE) (val : Nat) (hwf : queueWF q) : queueWF (queueIn q val) := by
  cases hf : q.full
  · exact (queueIn_contents q val hwf hf).1
  · rw [queueIn_full q val hf]; exact hwf

theorem queueIn_mem_lt (q : QUEUE) (val b : Nat) (hmem : ∀ j, q.mem j < b) (hval : val < b) :
    ∀ j, (queueIn q val).mem j < b := by
  intro j
  unfold queueIn
  split
  · exact hmem j
  · show store q.mem q.ii val j < b
    rw [store_apply]
    split
    · exact hval
    · exact hmem j

/-- What `takeABus` does on a queue of passenger ids: it raises `waitingDrive` exactly when the
queue holds at least `T` ids once the id of the caller has been inserted. -/
theorem takeABus_wakes_iff (sh : SHARED_DATA) (k id : Nat) (hwf : queueWF sh.fSt.busQueue)
    (hmem : ∀ j, sh.fSt.busQueue.mem j < 2147483648) (hid : id < 2147483648) :
    (takeABus sh k id).ups
      = if T ≤ queueCount (queueIn sh.fSt.busQueue id) then [sh.waitingDrive] else [] := by
  have hwf' := queueIn_wf sh.fSt.busQueue id hwf
  have hmem' := queueIn_mem_lt sh.fSt.busQueue id 2147483648 hmem hid
  have hpeek : ∀ i, i < T →
      (queuePeek (queueIn sh.fSt.busQueue id) i ≠ EMPTYPOS
        ↔ i < queueCount (queueIn sh.fSt.busQueue id)) := by
    intro i hi
    rw [queuePeek_spec _ hwf' i (by rw [T_eq] at hi; rw [N_eq]; omega)]
    constructor
    · intro h
      by_contra hlt
      rw [if_neg hlt] at h
      exact h rfl
    · intro h
      rw [if_pos h, toInt_of_lt (hmem' _)]
      unfold EMPTYPOS
      omega
  have hcount := (forUpTo_count
    (fun i => queuePeek (queueIn sh.fSt.busQueue id) i ≠ EMPTYPOS) T).2
  have hiff : forUpTo (fun i (counter : Nat) =>
        if queuePeek (queueIn sh.fSt.busQueue id) i ≠ EMPTYPOS then counter + 1 else counter) T 0
        = T ↔ T ≤ queueCount (queueIn sh.fSt.busQueue id) := by
    rw [hcount]
    constructor
    · intro h
      have := (hpeek (T - 1) (by rw [T_eq]; omega)).mp (h (T - 1) (by rw [T_eq]; omega))
      rw [T_eq] at this ⊢
      omega
    · intro h i hi
      exact (hpeek i hi).mpr (by omega)
  show (if forUpTo (fun i (counter : Nat) =>
        if queuePeek (queueIn sh.fSt.busQueue id) i ≠ EMPTYPOS then counter + 1 else counter) T 0
        = T then [sh.waitingDrive] else []) = _
  by_cases h : T ≤ queueCount (queueIn sh.fSt.busQueue id)
  · rw [if_pos (hiff.mpr h), if_pos h]
  · rw [if_neg (fun hc => h (hiff.mp hc)), if_neg h]

/-- C9, at the failing input: the fourth passenger in a row to queue finds four ids in the
queue, which is not `T`, and raises `waitingDrive` all the same, as the third did. -/
theorem fourth_in_queue_wakes_driver :
    fourQueue = [([], 1), ([], 2), ([WAITINGDRIVE], 3), ([WAITINGDRIVE], 4)] := by
  decide

/-! ## Missing bags -/

/-- No call of `goCollectABag` changes the total of missing bags. -/
theorem goCollectABag_nToTMBags (sh : SHARED_DATA) (k id : Nat) :
    (goCollectABag sh k id).sh.fSt.nToTMBags = sh.fSt.nToTMBags := by
  unfold goCollectABag
  dsimp only
  split_ifs <;> rfl

/-- C10, at the failing input: passenger 0 expects one bag, holds none and finds the belt empty;
`goCollectABag` returns `MB` and the total of missing bags is still zero. -/
theorem missing_bag_not_counted :
    (lostBagCall.fSt.st.passStat 0 0).nBagsAct = 0 ∧
    (lostBagCall.fSt.st.passStat 0 0).nBagsReal = 1 ∧
    camSearch lostBagCall.fSt.convBelt 0 = false ∧
    lostBagCall.fSt.nToTMBags = 0 ∧
    (goCollectABag lostBagCall 0 0).ret = MB ∧
    (goCollectABag lostBagCall 0 0).sh.fSt.nToTMBags = 0 := by
  decide

/-! ## The CAM: its contents as a list -/

theorem map_range_take (f : Nat → Nat) (n p : Nat) (hp : p ≤ n) :
    ((List.range n).map f).take p = (List.range p).map f := by
  obtain ⟨m, rfl⟩ : ∃ m, n = p + m := ⟨n - p, by omega⟩
  rw [List.range_add, List.map_append]
  exact List.take_left' (by simp)

theorem map_range_drop (f : Nat → Nat) (n p : Nat) (hp : p ≤ n) :
    ((List.range n).map f).drop p = (List.range (n - p)).map (fun j => f (p + j)) := by
  obtain ⟨m, rfl⟩ : ∃ m, n = p + m := ⟨n - p, by omega⟩
  rw [List.range_add, List.map_append, List.drop_left' (by simp), List.map_map,
    Nat.add_sub_cancel_left]
  rfl

theorem map_range_split (g : Nat → Nat) (n p : Nat) (hp : p ≤ n) :
    (List.range (n + 1)).map g
      = (List.range p).map g ++ g p :: (List.range (n - p)).map (fun j => g (p + 1 + j)) := by
  obtain ⟨m, rfl⟩ : ∃ m, n = p + m := ⟨n - p, by omega⟩
  have h1 : p + m + 1 = p + (1 + m) := by omega
  rw [h1, List.range_add, List.map_append, List.range_add, List.map_append, List.map_append,
    Nat.add_sub_cancel_left]
  have h2 : List.range 1 = [0] := rfl
  rw [h2]
  simp only [List.map_cons, List.map_nil, List.map_map, List.singleton_append, Nat.add_zero]
  congr 2
  apply List.map_congr_left
  intro j _
  simp only [Function.comp_apply]
  congr 1
  omega

theorem mem_camContents (c : CAM) (v : Nat) :
    v ∈ camContents c ↔ ∃ x, x < c.n ∧ (c.mem x).id = v := by
  unfold camContents
  rw [List.mem_map]
  constructor
  · rintro ⟨x, hx, h⟩
    exact ⟨x, List.mem_range.mp hx, h⟩
  · rintro ⟨x, hx, h⟩
    exact ⟨x, List.mem_range.mpr hx, h⟩

theorem camContents_length (c : CAM) : (camContents c).length = c.n := by
  simp [camContents]

/-- The contents of the CAM after `camIn` on a CAM that is not full: the value stands at the
index `camInPos`, the ids in front of it keep their places, the ids behind it move one place
up. -/
theorem camIn_contents (c : CAM) (val : Nat) (hn : c.n < M * N) :
    camContents (camIn c val)
      = (camContents c).take (camInPos c val) ++ val :: (camContents c).drop (camInPos c val) := by
  have hfull : c.n ≠ M * N := by omega
  obtain ⟨hp, -, -⟩ := camInPos_spec c val
  unfold camContents
  rw [camIn_n c val hn, map_range_split _ c.n (camInPos c val) hp,
    map_range_take _ c.n _ hp, map_range_drop _ c.n _ hp]
  congr 1
  · apply List.map_congr_left
    intro i hi
    rw [List.mem_range] at hi
    rw [camIn_mem c val hfull i, if_pos hi]
  · congr 1
    · rw [camIn_mem c val hfull, if_neg (lt_irrefl _), if_pos rfl]
    · apply List.map_congr_left
      intro j hj
      rw [List.mem_range] at hj
      have h1 : ¬ camInPos c val + 1 + j < camInPos c val := by omega
      have h2 : ¬ camInPos c val + 1 + j = camInPos c val := by omega
      have h3 : camInPos c val + 1 + j ≤ c.n := by omega
      have h4 : camInPos c val + 1 + j - 1 = camInPos c val + j := by omega
      rw [camIn_mem c val hfull, if_neg h1, if_neg h2, if_pos h3, h4]

/-- What `camOut` does to the contents: nothing when the value is not stored, and otherwise the
lowest-index occurrence goes, the ids behind it move one place down and `n` is decremented. -/
theorem camOut_contents (c : CAM) (val : Nat) :
    (val ∉ camContents c → camOut c val = c) ∧
    (val ∈ camContents c → ∃ p, p < c.n ∧ (c.mem p).id = val ∧
      (∀ x, x < p → (c.mem x).id ≠ val) ∧
      (camOut c val).n = c.n - 1 ∧
      camContents (camOut c val) = (camContents c).take p ++ (camContents c).drop (p + 1) ∧
      camContents (camOut c val) = (camContents c).erase val) := by
  by_cases h0 : c.n = 0
  · have hnot : val ∉ camContents c := by
      rw [mem_camContents]
      rintro ⟨x, hx, -⟩
      omega
    refine ⟨fun _ => ?_, fun h => absurd h hnot⟩
    unfold camOut
    rw [if_pos h0]
  · have hunf : camOut c val = camOutLoop val c.n 0 c := by
      unfold camOut
      rw [if_neg h0]
    rcases camOutLoop_cases val c c.n 0 (by omega) with ⟨h1, h2⟩ | ⟨p, -, hp, hv, hfirst0, h5⟩
    · have hnot : val ∉ camContents c := by
        rw [mem_camContents]
        rintro ⟨x, hx, hxv⟩
        exact h2 x (Nat.zero_le _) hx hxv
      refine ⟨fun _ => by rw [hunf, h1], fun h => absurd h hnot⟩
    · have hfirst : ∀ x, x < p → (c.mem x).id ≠ val := fun x hx => hfirst0 x (Nat.zero_le _) hx
      have hmem : val ∈ camContents c := (mem_camContents c val).mpr ⟨p, hp, hv⟩
      refine ⟨fun h => absurd hmem h, fun _ => ?_⟩
      have hn' : (camOut c val).n = c.n - 1 := by
        rw [hunf, h5]
        exact udec_of_pos (by omega)
      have hcont : camContents (camOut c val)
          = (camContents c).take p ++ (camContents c).drop (p + 1) := by
        unfold camContents
        rw [hn']
        have hsplit : c.n - 1 = p + (c.n - 1 - p) := by omega
        rw [map_range_take _ c.n p (by omega), map_range_drop _ c.n (p + 1) (by omega)]
        conv_lhs => rw [hsplit, List.range_add, List.map_append, List.map_map]
        congr 1
        · apply List.map_congr_left
          intro i hi
          rw [List.mem_range] at hi
          rw [hunf, h5]
          show (camOutShift c.n c.n (p + 1) c.mem i).id = (c.mem i).id
          rw [camOutShift_apply c.n c.n (p + 1) c.mem i (by omega) (by omega), if_neg (by omega)]
        · have hlen : c.n - 1 - p = c.n - (p + 1) := by omega
          rw [hlen]
          apply List.map_congr_left
          intro j hj
          rw [List.mem_range] at hj
          rw [hunf, h5]
          show (camOutShift c.n c.n (p + 1) c.mem (p + j)).id = (c.mem (p + 1 + j)).id
          have h6 : p + j + 1 = p + 1 + j := by omega
          rw [camOutShift_apply c.n c.n (p + 1) c.mem (p + j) (by omega) (by omega),
            if_pos (by omega), h6]
      refine ⟨p, hp, hv, hfirst, hn', hcont, ?_⟩
      rw [hcont]
      have hdecomp : camContents c
          = (camContents c).take p ++ val :: (camContents c).drop (p + 1) := by
        have hlt : p < (camContents c).length := by rw [camContents_length]; exact hp
        have hget : (camContents c)[p] = val := by
          simp only [camContents, List.getElem_map, List.getElem_range]
          exact hv
        rw [← hget]
        exact (List.take_append_drop p _).symm.trans
          (by rw [List.drop_eq_getElem_cons hlt])
      have hnotin : val ∉ (camContents c).take p := by
        rw [camContents, map_range_take _ c.n p (by omega), List.mem_map]
        rintro ⟨x, hx, hxv⟩
        exact hfirst x (List.mem_range.mp hx) hxv
      conv_rhs => rw [hdecomp]
      rw [List.erase_append_right _ hnotin, List.erase_cons_head]

theorem camSorted_sorted (c : CAM) (hs : camSorted c) :
    List.Sorted (fun a b : Nat => a ≤ b) (camContents c) := by
  unfold List.Sorted
  rw [List.pairwise_iff_getElem]
  intro i j hi hj hij
  rw [camContents_length] at hj
  simp only [camContents, List.getElem_map, List.getElem_range]
  exact hs i j hij hj

/-- Inserting the ids of a list that fits keeps the CAM sorted, adds as many ids as the list
holds and stores the ids of the list on top of the previous ones. -/
theorem camInAll_inv (ids : List Nat) :
    ∀ (c : CAM), camSorted c → c.n + ids.length ≤ M * N →
      camSorted (camInAll c ids) ∧ (camInAll c ids).n = c.n + ids.length ∧
      (camContents (camInAll c ids)).Perm (camContents c ++ ids) := by
  induction ids with
  | nil =>
    intro c hs _
    refine ⟨hs, rfl, ?_⟩
    rw [List.append_nil]
    exact List.Perm.refl _
  | cons a ids ih =>
    intro c hs hlen
    rw [List.length_cons] at hlen
    have hlt : c.n < M * N := by omega
    obtain ⟨hs1, -⟩ := camIn_inv c a hs (by omega)
    have hn1 := camIn_n c a hlt
    obtain ⟨i1, i2, i3⟩ := ih (camIn c a) hs1 (by rw [hn1]; omega)
    refine ⟨i1, by rw [show camInAll c (a :: ids) = camInAll (camIn c a) ids from rfl, i2, hn1,
      List.length_cons]; omega, ?_⟩
    show (camContents (camInAll (camIn c a) ids)).Perm (camContents c ++ a :: ids)
    refine i3.trans ?_
    rw [camIn_contents c a hlt]
    have h1 : ((camContents c).take (camInPos c a) ++ a :: (camContents c).drop (camInPos c a)).Perm
        (a :: camContents c) := by
      refine List.perm_middle.trans ?_
      rw [List.take_append_drop]
    exact (List.Perm.append_right ids h1).trans List.perm_middle.symm

/-- The insertion of a list of at most `M*N` ids into an empty CAM sorts the list. -/
theorem camInAll_init (c0 : CAM) (l : List Nat) (hl : l.length ≤ M * N) :
    camContents (camInAll (camInit c0) l) = l.insertionSort (fun a b => a ≤ b) := by
  have hinit : camSorted (camInit c0) := by
    intro i j _ hj
    have : j < 0 := hj
    omega
  obtain ⟨i1, -, i3⟩ := camInAll_inv l (camInit c0) hinit (by
    show 0 + l.length ≤ M * N
    omega)
  have hnil : camContents (camInit c0) = [] := rfl
  rw [hnil, List.nil_append] at i3
  exact List.eq_of_perm_of_sorted (i3.trans (List.perm_insertionSort _ l).symm)
    (camSorted_sorted _ i1) (List.sorted_insertionSort _ l)

/-- C18: for every CAM that is not full and every id `val`, `camIn` stores `val` at the index of
the first stored id greater than `val` (no id in front of that index is greater, the id at that
index is), hence, the CAM being sorted, behind every stored id equal to `val`; the ids in front
keep their places, the ids behind move one place up in their order, and `n` grows by one.
Consequently the insertion of any list of at most `M*N` ids into an empty CAM yields the
ascending sort of the list -- the stable one, a bag being nothing but its id --, and the
insertion of `[3,1,2,1]` yields `[1,1,2,3]`. -/
theorem camIn_before_first_greater (c : CAM) (val : Nat) (c0 : CAM) (ids : List Nat)
    (hn : c.n < M * N) (hlen : ids.length ≤ M * N) :
    camInPos c val ≤ c.n ∧
    (∀ x, x < camInPos c val → (c.mem x).id ≤ val) ∧
    (camInPos c val < c.n → val < (c.mem (camInPos c val)).id) ∧
    (camSorted c → ∀ x, camInPos c val ≤ x → x < c.n → val < (c.mem x).id) ∧
    camContents (camIn c val)
      = (camContents c).take (camInPos c val) ++ val :: (camContents c).drop (camInPos c val) ∧
    (camIn c val).n = c.n + 1 ∧
    camContents (camInAll (camInit c0) ids) = ids.insertionSort (fun a b => a ≤ b) ∧
    camContents (camInAll (camInit c0) [3, 1, 2, 1]) = [1, 1, 2, 3] := by
  obtain ⟨hp1, hp2, hp3⟩ := camInPos_spec c val
  refine ⟨hp1, hp2, hp3, ?_, camIn_contents c val hn, camIn_n c val hn,
    camInAll_init c0 ids hlen, ?_⟩
  · intro hs x hx1 hx2
    have hgt := hp3 (by omega)
    by_cases hxp : x = camInPos c val
    · rw [hxp]; exact hgt
    · exact lt_of_lt_of_le hgt (hs _ x (by omega) hx2)
  · rw [camInAll_init c0 [3, 1, 2, 1] (by decide)]
    decide

/-- The id 2 goes into the CAM that holds `[1,2,2,5]`: it is stored at index 3, behind the two
ids equal to it. -/
theorem camIn_before_first_greater_witness :
    camInPos camExample 2 = 3 ∧ camContents (camIn camExample 2) = [1, 2, 2, 2, 5] :=
  ⟨by decide,
    (camIn_before_first_greater camExample 2 camExample [] (by decide)
      (by decide)).2.2.2.2.1.trans (by decide)⟩

/-- C19: for every CAM and every id `val`: if `val` occurs among `mem[0..n-1]`, `camOut` removes
exactly the lowest-index occurrence, the ids behind it move one place down in their order and `n`
decreases by one; if `val` does not occur (in the empty CAM, for one), the CAM is left as it is.
Two calls `camOut (1)` turn `[1,1,2,3]` into `[2,3]`. -/
theorem camOut_removes_first_match (c : CAM) (val : Nat) (c0 : CAM) :
    (val ∈ camContents c → ∃ p, p < c.n ∧ (c.mem p).id = val ∧
      (∀ x, x < p → (c.mem x).id ≠ val) ∧
      (camOut c val).n = c.n - 1 ∧
      camContents (camOut c val) = (camContents c).take p ++ (camContents c).drop (p + 1) ∧
      camContents (camOut c val) = (camContents c).erase val) ∧
    (val ∉ camContents c → camOut c val = c) ∧
    (c.n = 0 → camOut c val = c) ∧
    camContents (camInAll (camInit c0) [3, 1, 2, 1]) = [1, 1, 2, 3] ∧
    camContents (camOut (camOut (camInAll (camInit c0) [3, 1, 2, 1]) 1) 1) = [2, 3] := by
  obtain ⟨h1, h2⟩ := camOut_contents c val
  have e1 : camContents (camInAll (camInit c0) [3, 1, 2, 1]) = [1, 1, 2, 3] := by
    rw [camInAll_init c0 [3, 1, 2, 1] (by decide)]
    decide
  refine ⟨h2, h1, ?_, e1, ?_⟩
  · intro h0
    unfold camOut
    rw [if_pos h0]
  · have m1 : (1 : Nat) ∈ camContents (camInAll (camInit c0) [3, 1, 2, 1]) := by
      rw [e1]; decide
    obtain ⟨-, -, -, -, -, -, k1⟩ := (camOut_contents (camInAll (camInit c0) [3, 1, 2, 1]) 1).2 m1
    rw [e1] at k1
    have m2 : (1 : Nat) ∈ camContents (camOut (camInAll (camInit c0) [3, 1, 2, 1]) 1) := by
      rw [k1]; decide
    obtain ⟨-, -, -, -, -, -, k2⟩ :=
      (camOut_contents (camOut (camInAll (camInit c0) [3, 1, 2, 1]) 1) 1).2 m2
    rw [k2, k1]
    decide

/-- The id 2 leaves the CAM that holds `[1,2,2,5]`: the first of its two occurrences goes. -/
theorem camOut_removes_first_match_witness :
    ∃ p, p < camExample.n ∧ (camExample.mem p).id = 2 ∧
      (∀ x, x < p → (camExample.mem x).id ≠ 2) ∧
      (camOut camExample 2).n = camExample.n - 1 ∧
      camContents (camOut camExample 2)
        = (camContents camExample).take p ++ (camContents camExample).drop (p + 1) ∧
      camContents (camOut camExample 2) = (camContents camExample).erase 2 :=
  (camOut_removes_first_match camExample 2 camExample).1 (by decide)

/-! ## The queue when it is full -/

/-- C20: for every full queue that holds `a :: l` (the head first, `N` ids) and every id `x`:
`queueIn (x)` leaves the queue as it is; a `queueOut` then returns `a` and leaves the queue not
full; a following `queueIn (x)` succeeds, after which the queue is full again and holds
`l ++ [x]`, wherever the indices wrap around. -/
theorem queue_full_then_out_then_in (q : QUEUE) (x d a : Nat) (l : List Nat) (hwf : queueWF q)
    (hfull : queueFull q = true) (hc : queueContents q = a :: l) :
    (a :: l).length = N ∧
    queueIn q x = q ∧
    (queueOut q d).2 = a ∧
    queueFull (queueOut q d).1 = false ∧
    queueContents (queueOut q d).1 = l ∧
    queueFull (queueIn (queueOut q d).1 x) = true ∧
    queueContents (queueIn (queueOut q d).1 x) = l ++ [x] := by
  have hlen : (a :: l).length = N := by
    rw [← hc, queueContents_length]
    exact (queueFull_iff_count q).mp hfull
  have hne : queueEmpty q = false := by
    cases he : queueEmpty q
    · rfl
    · have := (queueEmpty_iff_count q hwf).mp he
      rw [(queueFull_iff_count q).mp hfull] at this
      exact absurd this (by decide)
  obtain ⟨hwf1, hc1⟩ := queueOut_contents q d hwf hne
  rw [hc] at hc1
  have hhead : (queueOut q d).2 = a := (List.cons.inj hc1).1.symm
  have htail : queueContents (queueOut q d).1 = l := (List.cons.inj hc1).2.symm
  have hnf : (queueOut q d).1.full = false := by
    unfold queueOut
    unfold queueEmpty at hne
    rw [hne]
    rfl
  obtain ⟨hwf2, hc2⟩ := queueIn_contents (queueOut q d).1 x hwf1 hnf
  rw [htail] at hc2
  refine ⟨hlen, queueIn_full q x hfull, hhead, hnf, htail, ?_, hc2⟩
  rw [queueFull_iff_count, ← queueContents_length, hc2, List.length_append, ← hlen]
  rfl

/-- The ids 0 to 5 fill the queue; 6 is refused, then 0 is retrieved, then 6 is accepted and the
queue holds 1 to 6. -/
theorem queue_full_then_out_then_in_witness :
    ([0, 1, 2, 3, 4, 5] : List Nat).length = N ∧
    queueIn queueExample 6 = queueExample ∧
    (queueOut queueExample 9).2 = 0 ∧
    queueFull (queueOut queueExample 9).1 = false ∧
    queueContents (queueOut queueExample 9).1 = [1, 2, 3, 4, 5] ∧
    queueFull (queueIn (queueOut queueExample 9).1 6) = true ∧
    queueContents (queueIn (queueOut queueExample 9).1 6) = [1, 2, 3, 4, 5] ++ [6] :=
  queue_full_then_out_then_in queueExample 6 9 0 [1, 2, 3, 4, 5]
    ⟨by decide, by decide, by decide⟩ (by decide) (by decide)

/-! ## The porter carries a bag -/

/-- C11: `carryItToAppropriateStore` for a bag whose owner is one of the passengers `0..N-1`,
the belt not being full: if the owner has this airport as her final destination, the id is
inserted in the conveyor belt, `nToTBagsPCB` and `nCalls[id]` each grow by one, `pass[id]` is
raised exactly once and the porter is `AT_THE_LUGGAGE_BELT_CONVEYOR`; if she is in transit,
`nToTBagsPSR` grows by one and the porter is `AT_THE_STOREROOM`, while the belt, every entry of
`nCalls` and `nToTBagsPCB` stay as they are and no semaphore is raised. -/
theorem carry_routes_the_bag (sh : SHARED_DATA) (k : Nat) (bag : BAG) (hid : bag.id < N)
    (hbelt : sh.fSt.convBelt.n < M * N) (hpcb : sh.fSt.nToTBagsPCB < 4294967295)
    (hpsr : sh.fSt.nToTBagsPSR < 4294967295) (hcalls : sh.nCalls bag.id < 4294967295) :
    ((sh.fSt.st.passStat k bag.id).sit = FD →
      ∃ o, carryItToAppropriateStore sh k bag = some o ∧
        o.sh.fSt.convBelt = camIn sh.fSt.convBelt bag.id ∧
        camContents o.sh.fSt.convBelt
          = (camContents sh.fSt.convBelt).take (camInPos sh.fSt.convBelt bag.id)
            ++ bag.id :: (camContents sh.fSt.convBelt).drop (camInPos sh.fSt.convBelt bag.id) ∧
        o.sh.fSt.convBelt.n = sh.fSt.convBelt.n + 1 ∧
        o.sh.fSt.nToTBagsPCB = sh.fSt.nToTBagsPCB + 1 ∧
        o.sh.nCalls bag.id = sh.nCalls bag.id + 1 ∧
        (∀ j, j ≠ bag.id → o.sh.nCalls j = sh.nCalls j) ∧
        o.ups = [sh.pass bag.id] ∧
        o.sh.fSt.st.porterStat = AT_THE_LUGGAGE_BELT_CONVEYOR) ∧
    ((sh.fSt.st.passStat k bag.id).sit = TRT →
      ∃ o, carryItToAppropriateStore sh k bag = some o ∧
        o.sh.fSt.nToTBagsPSR = sh.fSt.nToTBagsPSR + 1 ∧
        o.sh.fSt.st.porterStat = AT_THE_STOREROOM ∧
        o.sh.fSt.convBelt = sh.fSt.convBelt ∧
        o.sh.nCalls = sh.nCalls ∧
        o.sh.fSt.nToTBagsPCB = sh.fSt.nToTBagsPCB ∧
        o.ups = []) := by
  have hN := N_eq
  have hnot : ¬ bag.id > N := by omega
  constructor
  · intro hfd
    unfold carryItToAppropriateStore
    rw [if_neg hnot, if_pos hfd]
    refine ⟨_, rfl, rfl, ?_, ?_, ?_, ?_, ?_, rfl, rfl⟩
    · exact camIn_contents sh.fSt.convBelt bag.id hbelt
    · exact camIn_n sh.fSt.convBelt bag.id hbelt
    · exact uinc_of_lt hpcb
    · show store sh.nCalls bag.id (uinc (sh.nCalls bag.id)) bag.id = sh.nCalls bag.id + 1
      rw [store_apply, if_pos rfl, uinc_of_lt hcalls]
    · intro j hj
      show store sh.nCalls bag.id (uinc (sh.nCalls bag.id)) j = sh.nCalls j
      rw [store_apply, if_neg hj]
  · intro htrt
    have hnfd : ¬ (sh.fSt.st.passStat k bag.id).sit = FD := by
      rw [htrt]; decide
    unfold carryItToAppropriateStore
    rw [if_neg hnot, if_neg hnfd, if_pos htrt]
    exact ⟨_, rfl, uinc_of_lt hpsr, rfl, rfl, rfl, rfl, rfl⟩

/-- The porter carries a bag of passenger 0, who ends her journey here, to the belt. -/
theorem carry_routes_the_bag_witness :
    ∃ o, carryItToAppropriateStore (porterStart oneLost) 0 { id := 0 } = some o ∧
      o.sh.fSt.convBelt = camIn (porterStart oneLost).fSt.convBelt 0 ∧
      camContents o.sh.fSt.convBelt
        = (camContents (porterStart oneLost).fSt.convBelt).take
            (camInPos (porterStart oneLost).fSt.convBelt 0)
          ++ 0 :: (camContents (porterStart oneLost).fSt.convBelt).drop
            (camInPos (porterStart oneLost).fSt.convBelt 0) ∧
      o.sh.fSt.convBelt.n = (porterStart oneLost).fSt.convBelt.n + 1 ∧
      o.sh.fSt.nToTBagsPCB = (porterStart oneLost).fSt.nToTBagsPCB + 1 ∧
      o.sh.nCalls 0 = (porterStart oneLost).nCalls 0 + 1 ∧
      (∀ j, j ≠ 0 → o.sh.nCalls j = (porterStart oneLost).nCalls j) ∧
      o.ups = [(porterStart oneLost).pass 0] ∧
      o.sh.fSt.st.porterStat = AT_THE_LUGGAGE_BELT_CONVEYOR :=
  (carry_routes_the_bag (porterStart oneLost) 0 { id := 0 } (by decide) (by decide) (by decide)
    (by decide) (by decide)).1 (by decide)

/-- Whatever the shared region, a bag that gives `N` as its owner is not refused. -/
theorem carry_accepts_N (sh : SHARED_DATA) (k : Nat) :
    (carryItToAppropriateStore sh k { id := N }).isSome = true := by
  unfold carryItToAppropriateStore
  rw [if_neg (lt_irrefl N)]
  split
  · rfl
  · split <;> rfl

/-- C12, at the failing input: a bag that gives 6, which is `N`, as its owner is not refused;
the porter counts it as carried to the belt, puts the id 6 on the belt and raises a semaphore. A
bag that gives 7 is refused. -/
theorem carry_accepts_unknown_owner :
    (carryItToAppropriateStore (porterStart oneLost) 0 { id := N }).map
        (fun o => (o.sh.fSt.nToTBagsPCB, camContents o.sh.fSt.convBelt, o.ups.length,
          o.sh.fSt.st.porterStat))
      = some (1, [6], 1, AT_THE_LUGGAGE_BELT_CONVEYOR) ∧
    (porterStart oneLost).fSt.nToTBagsPCB = 0 ∧
    camContents (porterStart oneLost).fSt.convBelt = [] ∧
    (carryItToAppropriateStore (porterStart oneLost) 0 { id := N + 1 }).isSome = false := by
  decide

/-! ## The passenger collects a bag -/

/-- The scan of `camSearch` on a sorted CAM finds the value exactly when it is stored at or
behind the index the scan starts from. -/
theorem camSearchLoop_iff (c : CAM) (val : Nat) (hs : camSorted c) :
    ∀ (r i : Nat), c.n ≤ i + r →
      (camSearchLoop c val r i = true ↔ ∃ x, i ≤ x ∧ x < c.n ∧ (c.mem x).id = val) := by
  intro r
  induction r with
  | zero =>
    intro i hn
    simp only [camSearchLoop]
    constructor
    · intro h; cases h
    · rintro ⟨x, h1, h2, -⟩; omega
  | succ r ih =>
    intro i hn
    simp only [camSearchLoop]
    by_cases hin : i < c.n
    · rw [if_pos hin]
      by_cases heq : (c.mem i).id = val
      · rw [if_pos heq]
        exact ⟨fun _ => ⟨i, le_refl _, hin, heq⟩, fun _ => rfl⟩
      · rw [if_neg heq]
        by_cases hgt : (c.mem i).id > val
        · rw [if_pos hgt]
          constructor
          · intro h; cases h
          · rintro ⟨x, h1, h2, h3⟩
            exfalso
            by_cases hxi : x = i
            · subst hxi; exact heq h3
            · have := hs i x (by omega) h2
              omega
        · rw [if_neg hgt, ih (i + 1) (by omega)]
          constructor
          · rintro ⟨x, h1, h2, h3⟩
            exact ⟨x, by omega, h2, h3⟩
          · rintro ⟨x, h1, h2, h3⟩
            by_cases hxi : x = i
            · subst hxi; exact absurd h3 heq
            · exact ⟨x, by omega, h2, h3⟩
    · rw [if_neg hin]
      constructor
      · intro h; cases h
      · rintro ⟨x, h1, h2, -⟩; omega

theorem camSearch_iff (c : CAM) (val : Nat) (hs : camSorted c) :
    camSearch c val = true ↔ val ∈ camContents c := by
  unfold camSearch
  rw [camSearchLoop_iff c val hs c.n 0 (by omega), mem_camContents]
  constructor
  · rintro ⟨x, -, h2, h3⟩; exact ⟨x, h2, h3⟩
  · rintro ⟨x, h2, h3⟩; exact ⟨x, Nat.zero_le _, h2, h3⟩

theorem setPassenger_get (sh : SHARED_DATA) (k i : Nat) (v : STAT_PASSENGER) :
    (setPassenger sh k i v).fSt.st.passStat k i = v := by
  unfold setPassenger
  simp only [store_apply, if_true]

/-- The shared region after `goCollectABag` has found a bag of the passenger on the belt. -/
theorem goCollectABag_found (sh : SHARED_DATA) (k id : Nat)
    (hce : camEmpty sh.fSt.convBelt = false) (hcs : camSearch sh.fSt.convBelt id = true) :
    (goCollectABag sh k id).sh
      = { incBagsAct
            { sh with fSt := { sh.fSt with convBelt := camOut sh.fSt.convBelt id } } k id with
          nCalls := store sh.nCalls id (udec (sh.nCalls id)) } ∧
    (goCollectABag sh k id).ret
      = if uinc (sh.fSt.st.passStat k id).nBagsAct < (sh.fSt.st.passStat k id).nBagsReal
        then NO else YES := by
  constructor
  · unfold goCollectABag
    simp only [hce, hcs, Bool.false_eq_true, if_false, if_true]
    split_ifs <;> rfl
  · unfold goCollectABag
    simp only [hce, hcs, Bool.false_eq_true, if_false, if_true, incBagsAct, setPassenger_get]
    split_ifs <;> rfl

/-- The shared region after `goCollectABag` has found no bag of the passenger on the belt. -/
theorem goCollectABag_absent (sh : SHARED_DATA) (k id : Nat)
    (hcs : camSearch sh.fSt.convBelt id = false) :
    (goCollectABag sh k id).sh
      = { sh with nCalls := store sh.nCalls id (udec (sh.nCalls id)) } ∧
    (goCollectABag sh k id).ret
      = if (sh.fSt.st.passStat k id).nBagsAct < (sh.fSt.st.passStat k id).nBagsReal
        then MB else YES := by
  constructor
  · unfold goCollectABag
    cases hce : camEmpty sh.fSt.convBelt
    · simp only [hcs, Bool.false_eq_true, if_false]
      split_ifs <;> rfl
    · simp only [if_true]
      split_ifs <;> rfl
  · unfold goCollectABag
    cases hce : camEmpty sh.fSt.convBelt
    · simp only [hcs, Bool.false_eq_true, if_false]
      split_ifs <;> rfl
    · simp only [if_true]
      split_ifs <;> rfl

/-- C13: `goCollectABag`, the second critical region, on a sorted belt and with
`nCalls[id] ≥ 1`.  If the belt holds a bag with the id of the passenger, exactly one such bag,
the lowest-index one, is removed and `nBagsAct` grows by one; the result is `NO` if `nBagsAct`
is then below `nBagsReal` and `YES` otherwise.  If the belt holds no such bag (it may be empty),
the belt and `nBagsAct` are left as they are and the result is `MB` if `nBagsAct` is below
`nBagsReal` and `YES` otherwise.  In every case `nCalls[id]` decreases by exactly one. -/
theorem goCollectABag_picks_one (sh : SHARED_DATA) (k id : Nat)
    (hs : camSorted sh.fSt.convBelt) (hcalls : 1 ≤ sh.nCalls id)
    (hact : (sh.fSt.st.passStat k id).nBagsAct < 4294967295) :
    (id ∈ camContents sh.fSt.convBelt →
      camContents (goCollectABag sh k id).sh.fSt.convBelt
        = (camContents sh.fSt.convBelt).erase id ∧
      (camContents (goCollectABag sh k id).sh.fSt.convBelt).count id + 1
        = (camContents sh.fSt.convBelt).count id ∧
      (goCollectABag sh k id).sh.fSt.convBelt.n + 1 = sh.fSt.convBelt.n ∧
      ((goCollectABag sh k id).sh.fSt.st.passStat k id).nBagsAct
        = (sh.fSt.st.passStat k id).nBagsAct + 1 ∧
      (goCollectABag sh k id).ret
        = if (sh.fSt.st.passStat k id).nBagsAct + 1 < (sh.fSt.st.passStat k id).nBagsReal
          then NO else YES) ∧
    (id ∉ camContents sh.fSt.convBelt →
      (goCollectABag sh k id).sh.fSt.convBelt = sh.fSt.convBelt ∧
      ((goCollectABag sh k id).sh.fSt.st.passStat k id).nBagsAct
        = (sh.fSt.st.passStat k id).nBagsAct ∧
      (goCollectABag sh k id).ret
        = if (sh.fSt.st.passStat k id).nBagsAct < (sh.fSt.st.passStat k id).nBagsReal
          then MB else YES) ∧
    (goCollectABag sh k id).sh.nCalls id + 1 = sh.nCalls id ∧
    ((goCollectABag sh k id).sh.fSt.st.passStat k id).nBagsReal
      = (sh.fSt.st.passStat k id).nBagsReal := by
  have hdec : store sh.nCalls id (udec (sh.nCalls id)) id + 1 = sh.nCalls id := by
    rw [store_apply, if_pos rfl, udec_of_pos (by omega)]
    omega
  by_cases hmem : id ∈ camContents sh.fSt.convBelt
  · have hcs : camSearch sh.fSt.convBelt id = true := (camSearch_iff _ id hs).mpr hmem
    have hce : camEmpty sh.fSt.convBelt = false := by
      obtain ⟨x, hx, -⟩ := (mem_camContents _ id).mp hmem
      unfold camEmpty
      simp only [beq_eq_false_iff_ne, ne_eq]
      omega
    obtain ⟨hsh, hret⟩ := goCollectABag_found sh k id hce hcs
    obtain ⟨p, hp, -, -, hn, -, herase⟩ := (camOut_contents sh.fSt.convBelt id).2 hmem
    rw [hsh, hret, uinc_of_lt hact]
    refine ⟨fun _ => ⟨herase, ?_, ?_, ?_, rfl⟩, fun h => absurd hmem h, hdec, ?_⟩
    · show (camContents (camOut sh.fSt.convBelt id)).count id + 1 = _
      rw [herase, List.count_erase_self]
      have := List.count_pos_iff.mpr hmem
      omega
    · show (camOut sh.fSt.convBelt id).n + 1 = _
      rw [hn]
      omega
    · show ((incBagsAct _ k id).fSt.st.passStat k id).nBagsAct = _
      unfold incBagsAct
      rw [setPassenger_get]
      exact uinc_of_lt hact
    · show ((incBagsAct _ k id).fSt.st.passStat k id).nBagsReal = _
      unfold incBagsAct
      rw [setPassenger_get]
  · have hcs : camSearch sh.fSt.convBelt id = false := by
      cases h : camSearch sh.fSt.convBelt id
      · rfl
      · exact absurd ((camSearch_iff _ id hs).mp h) hmem
    obtain ⟨hsh, hret⟩ := goCollectABag_absent sh k id hcs
    rw [hsh, hret]
    exact ⟨fun h => absurd h hmem, fun _ => ⟨rfl, rfl, rfl⟩, hdec, rfl⟩

/-! ## The porter finds the hold empty -/

/-- With the semaphores of the passengers numbered as the generator numbers them, a semaphore
is raised as often in a list of calls as its passenger is listed. -/
theorem count_pass_map (pass : Nat → Nat) (hpass : ∀ p, p < N → pass p = B_PASS + p)
    (l : List Nat) (hl : ∀ x, x ∈ l → x < N) (i : Nat) (hi : i < N) :
    (l.map pass).count (pass i) = l.count i := by
  have hmap : l.map pass = l.map (fun p => B_PASS + p) :=
    List.map_congr_left (fun x hx => hpass x (hl x hx))
  rw [hmap, hpass i hi]
  exact List.count_map_of_injective l (fun p => B_PASS + p)
    (fun a b h => Nat.add_left_cancel h) i

theorem count_filter_range (f : Nat → Bool) (n i : Nat) (hi : i < n) :
    ((List.range n).filter f).count i = if f i = true then 1 else 0 := by
  by_cases h : f i = true
  · rw [if_pos h, List.count_filter h]
    exact List.count_eq_one_of_mem (List.nodup_range n) (List.mem_range.mpr hi)
  · rw [if_neg h]
    apply List.count_eq_zero_of_not_mem
    intro hm
    exact h (List.mem_filter.mp hm).2

/-- The loop of `tryToCollectABag` on an empty hold after `n` passes: the passengers below `n`
who pass the test have been called, each once, and nothing else has changed. -/
theorem informLoop_spec (k : Nat) (sh : SHARED_DATA) :
    ∀ (n : Nat),
      (forUpTo (fun i (s : SHARED_DATA × List Nat) =>
        if (s.1.fSt.st.passStat k i).sit = FD ∧
            uadd (s.1.fSt.st.passStat k i).nBagsAct (s.1.nCalls i)
              < (s.1.fSt.st.passStat k i).nBagsReal then
          ({ s.1 with nCalls := store s.1.nCalls i (uinc (s.1.nCalls i)) }, s.2 ++ [s.1.pass i])
        else s) n (sh, [])).1.fSt = sh.fSt ∧
      (forUpTo (fun i (s : SHARED_DATA × List Nat) =>
        if (s.1.fSt.st.passStat k i).sit = FD ∧
            uadd (s.1.fSt.st.passStat k i).nBagsAct (s.1.nCalls i)
              < (s.1.fSt.st.passStat k i).nBagsReal then
          ({ s.1 with nCalls := store s.1.nCalls i (uinc (s.1.nCalls i)) }, s.2 ++ [s.1.pass i])
        else s) n (sh, [])).1.pass = sh.pass ∧
      (∀ j, (forUpTo (fun i (s : SHARED_DATA × List Nat) =>
        if (s.1.fSt.st.passStat k i).sit = FD ∧
            uadd (s.1.fSt.st.passStat k i).nBagsAct (s.1.nCalls i)
              < (s.1.fSt.st.passStat k i).nBagsReal then
          ({ s.1 with nCalls := store s.1.nCalls i (uinc (s.1.nCalls i)) }, s.2 ++ [s.1.pass i])
        else s) n (sh, [])).1.nCalls j
          = if j < n ∧ awaitsBags sh k j = true then uinc (sh.nCalls j) else sh.nCalls j) ∧
      (forUpTo (fun i (s : SHARED_DATA × List Nat) =>
        if (s.1.fSt.st.passStat k i).sit = FD ∧
            uadd (s.1.fSt.st.passStat k i).nBagsAct (s.1.nCalls i)
              < (s.1.fSt.st.passStat k i).nBagsReal then
          ({ s.1 with nCalls := store s.1.nCalls i (uinc (s.1.nCalls i)) }, s.2 ++ [s.1.pass i])
        else s) n (sh, [])).2 = ((List.range n).filter (awaitsBags sh k)).map sh.pass := by
  intro n
  induction n with
  | zero =>
    refine ⟨rfl, rfl, ?_, rfl⟩
    intro j
    rw [if_neg (by omega)]
    rfl
  | succ n ih =>
    simp only [forUpTo]
    generalize forUpTo _ n (sh, []) = r at ih ⊢
    obtain ⟨h1, h2, h3, h4⟩ := ih
    have hn : r.1.nCalls n = sh.nCalls n := by
      rw [h3 n, if_neg (by omega)]
    have hcond : ((r.1.fSt.st.passStat k n).sit = FD ∧
        uadd (r.1.fSt.st.passStat k n).nBagsAct (r.1.nCalls n)
          < (r.1.fSt.st.passStat k n).nBagsReal) ↔ awaitsBags sh k n = true := by
      unfold awaitsBags
      rw [h1, hn, decide_eq_true_eq]
    by_cases hc : awaitsBags sh k n = true
    · rw [if_pos (hcond.mpr hc)]
      refine ⟨h1, h2, ?_, ?_⟩
      · intro j
        show store r.1.nCalls n (uinc (r.1.nCalls n)) j = _
        rw [store_apply]
        by_cases hj : j = n
        · subst hj
          rw [if_pos rfl, if_pos ⟨by omega, hc⟩, hn]
        · rw [if_neg hj, h3 j]
          by_cases hjn : j < n ∧ awaitsBags sh k j = true
          · rw [if_pos hjn, if_pos ⟨by omega, hjn.2⟩]
          · rw [if_neg hjn, if_neg (fun h => hjn ⟨by omega, h.2⟩)]
      · show r.2 ++ [r.1.pass n] = _
        rw [h4, h2, List.range_succ, List.filter_append, List.map_append]
        simp [hc]
    · rw [if_neg (fun h => hc (hcond.mp h))]
      refine ⟨h1, h2, ?_, ?_⟩
      · intro j
        rw [h3 j]
        by_cases hjn : j < n ∧ awaitsBags sh k j = true
        · rw [if_pos hjn, if_pos ⟨by omega, hjn.2⟩]
        · rw [if_neg hjn, if_neg]
          rintro ⟨hj1, hj2⟩
          by_cases hj : j = n
          · subst hj; exact hc hj2
          · exact hjn ⟨by omega, hj2⟩
      · rw [h4, List.range_succ, List.filter_append, List.map_append]
        simp [hc]

/-- The loop of `tryToCollectABag` on an empty hold, all `N` passes done. -/
theorem informPassengers_spec (k : Nat) (sh : SHARED_DATA) :
    (informPassengers k sh).1.fSt = sh.fSt ∧
    (informPassengers k sh).1.pass = sh.pass ∧
    (∀ j, (informPassengers k sh).1.nCalls j
      = if j < N ∧ awaitsBags sh k j = true then uinc (sh.nCalls j) else sh.nCalls j) ∧
    (informPassengers k sh).2 = ((List.range N).filter (awaitsBags sh k)).map sh.pass := by
  unfold informPassengers
  exact informLoop_spec k sh N

set_option maxRecDepth 8000 in
/-- C14 as it is stated fails: the hold of landing 0 is empty and the transit passenger 1 still
expects more bags than have been promised to her (`0 + 0 < 1`), yet `tryToCollectABag` raises no
semaphore and leaves `nCalls[1]` at zero. -/
theorem transit_passenger_not_called :
    holdEmptied.map (fun s =>
        ((s.fSt.plHold 0).nBags, (s.fSt.st.passStat 0 1).sit, (s.fSt.st.passStat 0 1).nBagsAct,
          s.nCalls 1, (s.fSt.st.passStat 0 1).nBagsReal))
      = some (0, TRT, 0, 0, 1) ∧
    holdEmptied.map (fun s =>
        ((tryToCollectABag s 0 { id := 0 }).ups, (tryToCollectABag s 0 { id := 0 }).sh.nCalls 1,
          (tryToCollectABag s 0 { id := 0 }).ret.1))
      = some ([], 0, false) := by
  constructor <;> decide

/-- C14, amended: `tryToCollectABag` on an empty manifest of landing `k`: for every passenger
`i` of the landing who has this airport as her final destination and still expects more bags
than have been promised to her (`nBagsAct[i] + nCalls[i] < nBagsReal[i]`), `pass[i]` is raised
exactly once and `nCalls[i]` is incremented by one; neither happens for any other passenger,
the passengers in transit included; the call returns false and leaves the manifests as they
are. -/
theorem tryToCollectABag_empty_hold (sh : SHARED_DATA) (k : Nat) (bag : BAG)
    (hempty : (sh.fSt.plHold k).nBags = 0) (hpass : ∀ p, p < N → sh.pass p = B_PASS + p)
    (hsum : ∀ i, i < N → (sh.fSt.st.passStat k i).nBagsAct + sh.nCalls i < 4294967296)
    (hcalls : ∀ i, i < N → sh.nCalls i < 4294967295) :
    (tryToCollectABag sh k bag).ret = (false, bag) ∧
    (tryToCollectABag sh k bag).sh.fSt.plHold = sh.fSt.plHold ∧
    ∀ i, i < N →
      (((sh.fSt.st.passStat k i).sit = FD ∧
          (sh.fSt.st.passStat k i).nBagsAct + sh.nCalls i < (sh.fSt.st.passStat k i).nBagsReal) →
        (tryToCollectABag sh k bag).ups.count (sh.pass i) = 1 ∧
        (tryToCollectABag sh k bag).sh.nCalls i = sh.nCalls i + 1) ∧
      (¬ ((sh.fSt.st.passStat k i).sit = FD ∧
          (sh.fSt.st.passStat k i).nBagsAct + sh.nCalls i < (sh.fSt.st.passStat k i).nBagsReal) →
        (tryToCollectABag sh k bag).ups.count (sh.pass i) = 0 ∧
        (tryToCollectABag sh k bag).sh.nCalls i = sh.nCalls i) := by
  have hnot : ¬ (sh.fSt.plHold k).nBags ≠ 0 := fun h => h hempty
  have hall : (tryToCollectABag sh k bag).ret = (false, bag) ∧
      (tryToCollectABag sh k bag).ups
        = ((List.range N).filter (awaitsBags sh k)).map sh.pass ∧
      (∀ j, (tryToCollectABag sh k bag).sh.nCalls j
        = if j < N ∧ awaitsBags sh k j = true then uinc (sh.nCalls j) else sh.nCalls j) ∧
      (tryToCollectABag sh k bag).sh.fSt.plHold = sh.fSt.plHold := by
    obtain ⟨h1, -, h3, h4⟩ := informPassengers_spec k sh
    unfold tryToCollectABag
    generalize informPassengers k sh = r at h1 h3 h4 ⊢
    simp only [if_neg hnot]
    exact ⟨trivial, h4, h3, congrArg FULL_STAT.plHold h1⟩
  obtain ⟨hret, hups, hnc, hhold⟩ := hall
  refine ⟨hret, hhold, ?_⟩
  intro i hi
  have hawait : awaitsBags sh k i = true ↔
      ((sh.fSt.st.passStat k i).sit = FD ∧
        (sh.fSt.st.passStat k i).nBagsAct + sh.nCalls i < (sh.fSt.st.passStat k i).nBagsReal) := by
    unfold awaitsBags
    rw [decide_eq_true_eq, uadd_of_lt (hsum i hi)]
  have hcount : (tryToCollectABag sh k bag).ups.count (sh.pass i)
      = if awaitsBags sh k i = true then 1 else 0 := by
    rw [hups, count_pass_map sh.pass hpass _ (fun x hx =>
      List.mem_range.mp (List.mem_filter.mp hx).1) i hi]
    exact count_filter_range (awaitsBags sh k) N i hi
  constructor
  · intro hc
    have ha := hawait.mpr hc
    rw [hcount, if_pos ha, hnc i, if_pos ⟨hi, ha⟩, uinc_of_lt (hcalls i hi)]
    exact ⟨rfl, rfl⟩
  · intro hc
    have ha : ¬ awaitsBags sh k i = true := fun h => hc (hawait.mp h)
    rw [hcount, if_neg ha, hnc i, if_neg (fun h => ha h.2)]
    exact ⟨rfl, rfl⟩

/-- The porter finds the hold of landing 0 empty, passenger 0 having lost her only bag: he
raises her semaphore once, records the call and reports that no bag is left. -/
theorem tryToCollectABag_empty_hold_witness :
    (tryToCollectABag (porterStart oneLost) 0 { id := 9 }).ret = (false, { id := 9 }) ∧
    (tryToCollectABag (porterStart oneLost) 0 { id := 9 }).ups.count
      ((porterStart oneLost).pass 0) = 1 ∧
    (tryToCollectABag (porterStart oneLost) 0 { id := 9 }).sh.nCalls 0
      = (porterStart oneLost).nCalls 0 + 1 :=
  ⟨(tryToCollectABag_empty_hold (porterStart oneLost) 0 { id := 9 } (by decide) (by decide)
      (by decide) (by decide)).1,
    ((tryToCollectABag_empty_hold (porterStart oneLost) 0 { id := 9 } (by decide) (by decide)
      (by decide) (by decide)).2.2 0 (by decide)).1 (by decide)⟩

/-- A passenger who expects two bags and holds none picks one of her two bags from the belt
`[1,2,2,5]`. -/
theorem goCollectABag_picks_one_witness :
    camContents (goCollectABag collectExample 0 2).sh.fSt.convBelt
      = (camContents collectExample.fSt.convBelt).erase 2 ∧
    (camContents (goCollectABag collectExample 0 2).sh.fSt.convBelt).count 2 + 1
      = (camContents collectExample.fSt.convBelt).count 2 ∧
    (goCollectABag collectExample 0 2).sh.fSt.convBelt.n + 1 = collectExample.fSt.convBelt.n ∧
    ((goCollectABag collectExample 0 2).sh.fSt.st.passStat 0 2).nBagsAct
      = (collectExample.fSt.st.passStat 0 2).nBagsAct + 1 ∧
    (goCollectABag collectExample 0 2).ret
      = if (collectExample.fSt.st.passStat 0 2).nBagsAct + 1
            < (collectExample.fSt.st.passStat 0 2).nBagsReal
        then NO else YES :=
  (goCollectABag_picks_one collectExample 0 2
    (camInAll_inv [1, 2, 2, 5] (camInit { mem := fun _ => { id := 0 }, n := 0 })
      (fun _ _ _ hj => absurd hj (Nat.not_lt_zero _)) (by decide)).1
    (by decide) (by decide)).1 (by decide)

/-! ## The driver -/

/-- C17 as it is stated fails: with the day not ended and one passenger in the queue the driver
does not check again but executes `semDown` on `waitingDrive`; with the day not ended and the
queue empty he does not wait on `waitingDrive` but checks again at once. -/
theorem driver_checks_again_on_empty_queue :
    (takeABus (checkedIn allTransit) 0 0).sh.fSt.dayEnded = false ∧
    queueEmpty (takeABus (checkedIn allTransit) 0 0).sh.fSt.busQueue = false ∧
    (hasDaysWorkEnded (takeABus (checkedIn allTransit) 0 0).sh).ret = DaysWork.sleep ∧
    (hasDaysWorkEnded (takeABus (checkedIn allTransit) 0 0).sh).down = some WAITINGDRIVE ∧
    (checkedIn allTransit).fSt.dayEnded = false ∧
    queueEmpty (checkedIn allTransit).fSt.busQueue = true ∧
    (hasDaysWorkEnded (checkedIn allTransit)).ret = DaysWork.again ∧
    (hasDaysWorkEnded (checkedIn allTransit)).down = none := by
  decide

/-- C17, amended: `hasDaysWorkEnded` only reads the shared region and raises no semaphore.  When
`dayEnded` is true it returns true without waiting on any semaphore; when `dayEnded` is false
and the boarding queue is empty the driver makes the check again at once; when `dayEnded` is
false and the queue is not empty the driver waits on `waitingDrive` and then returns false. -/
theorem hasDaysWorkEnded_cases (sh : SHARED_DATA) :
    (hasDaysWorkEnded sh).sh = sh ∧ (hasDaysWorkEnded sh).ups = [] ∧
    (sh.fSt.dayEnded = true →
      (hasDaysWorkEnded sh).ret = DaysWork.ended ∧ (hasDaysWorkEnded sh).down = none) ∧
    (sh.fSt.dayEnded = false → queueEmpty sh.fSt.busQueue = true →
      (hasDaysWorkEnded sh).ret = DaysWork.again ∧ (hasDaysWorkEnded sh).down = none) ∧
    (sh.fSt.dayEnded = false → queueEmpty sh.fSt.busQueue = false →
      (hasDaysWorkEnded sh).ret = DaysWork.sleep ∧
      (hasDaysWorkEnded sh).down = some sh.waitingDrive) := by
  unfold hasDaysWorkEnded
  cases hd : sh.fSt.dayEnded <;> cases hq : queueEmpty sh.fSt.busQueue <;> simp

/-- With one passenger in the queue and the day not ended, the driver waits on
`waitingDrive`. -/
theorem hasDaysWorkEnded_cases_witness :
    (hasDaysWorkEnded (takeABus (checkedIn allTransit) 0 0).sh).ret = DaysWork.sleep ∧
    (hasDaysWorkEnded (takeABus (checkedIn allTransit) 0 0).sh).down
      = some (takeABus (checkedIn allTransit) 0 0).sh.waitingDrive :=
  (hasDaysWorkEnded_cases (takeABus (checkedIn allTransit) 0 0).sh).2.2.2.2 (by decide)
    (by decide)

theorem take_drop_step {α : Type} (a : α) (t : List α) :
    ∀ (n : Nat) (l : List α), l.drop n = a :: t →
      l.take (n + 1) = l.take n ++ [a] ∧ l.drop (n + 1) = t ∧ n < l.length := by
  intro n
  induction n with
  | zero =>
    intro l h
    rw [List.drop_zero] at h
    subst h
    exact ⟨rfl, rfl, Nat.zero_lt_succ _⟩
  | succ n ih =>
    intro l h
    cases l with
    | nil => cases h
    | cons b l =>
      rw [List.drop_succ_cons] at h
      obtain ⟨h1, h2, h3⟩ := ih l h
      refine ⟨?_, ?_, ?_⟩
      · rw [List.take_succ_cons, h1]
        rfl
      · rw [List.drop_succ_cons, h2]
      · rw [List.length_cons]
        omega

/-- The loop of `announcingBusBoarding` after `n` passes over a queue that holds `l`, ids of
passengers: the first `n` ids of `l` (all of them when `l` is shorter) have left the queue in
their order, the semaphore of each has been raised, `nPassD` has counted them. -/
theorem summonLoop_spec (sh : SHARED_DATA) (l : List Nat) (hwf : queueWF sh.fSt.busQueue)
    (hl : queueContents sh.fSt.busQueue = l) (hids : ∀ x, x ∈ l → x < N) :
    ∀ (n : Nat), sh.nPassD + n < 4294967296 →
      ∃ s id ups,
        forUpTo (fun _ (st : Option (SHARED_DATA × Nat × List Nat)) =>
          match st with
          | none => none
          | some (s, id, ups) =>
            if !queueEmpty s.fSt.busQueue then
              let r := queueOut s.fSt.busQueue id
              let s1 : SHARED_DATA :=
                { s with fSt := { s.fSt with busQueue := r.1 }, nPassD := uinc s.nPassD }
              if r.2 < N then some (s1, r.2, ups ++ [s1.pass r.2]) else none
            else some (s, id, ups)) n (some (sh, 0, [])) = some (s, id, ups) ∧
        queueWF s.fSt.busQueue ∧ queueContents s.fSt.busQueue = l.drop n ∧
        ups = (l.take n).map sh.pass ∧ s.nPassD = sh.nPassD + min n l.length ∧
        s.pass = sh.pass ∧ s.waitingPass = sh.waitingPass := by
  intro n
  induction n with
  | zero =>
    intro _
    exact ⟨sh, 0, [], rfl, hwf, by rw [List.drop_zero]; exact hl, rfl, by simp, rfl, rfl⟩
  | succ n ih =>
    intro hD
    obtain ⟨s, id, ups, hloop, hwfs, hcs, hups, hnp, hp, hw⟩ := ih (by omega)
    simp only [forUpTo]
    rw [hloop]
    by_cases he : queueEmpty s.fSt.busQueue = true
    · have hnil : l.drop n = [] := by
        rw [← hcs]
        apply List.eq_nil_of_length_eq_zero
        rw [queueContents_length]
        exact (queueEmpty_iff_count _ hwfs).mp he
      have hlen : l.length ≤ n := List.drop_eq_nil_iff.mp hnil
      refine ⟨s, id, ups, by simp [he], hwfs, ?_, ?_, ?_, hp, hw⟩
      · rw [hcs, hnil, List.drop_of_length_le (by omega)]
      · rw [hups, List.take_of_length_le hlen, List.take_of_length_le (by omega)]
      · rw [hnp, Nat.min_eq_right hlen, Nat.min_eq_right (by omega)]
    · have he' : queueEmpty s.fSt.busQueue = false := by
        cases h : queueEmpty s.fSt.busQueue
        · rfl
        · exact absurd h he
      obtain ⟨hwf1, hc1⟩ := queueOut_contents s.fSt.busQueue id hwfs he'
      rw [hcs] at hc1
      obtain ⟨t1, t2, t3⟩ := take_drop_step _ _ n l hc1
      have hmem : (queueOut s.fSt.busQueue id).2 ∈ l := by
        have : (queueOut s.fSt.busQueue id).2 ∈ l.drop n := by
          rw [hc1]; exact List.mem_cons_self _ _
        exact List.mem_of_mem_drop this
      have hlt := hids _ hmem
      refine ⟨{ s with fSt := { s.fSt with busQueue := (queueOut s.fSt.busQueue id).1 },
                       nPassD := uinc s.nPassD },
        (queueOut s.fSt.busQueue id).2, ups ++ [s.pass (queueOut s.fSt.busQueue id).2],
        by simp [he', hlt], hwf1, t2.symm, ?_, ?_, hp, hw⟩
      · rw [t1, List.map_append, hups, hp]
        rfl
      · show uinc s.nPassD = _
        rw [hnp, uinc_of_lt (by omega), Nat.min_eq_left (Nat.le_of_lt t3),
          Nat.min_eq_left (by omega)]
        omega

/-- C15: `announcingBusBoarding` aborts if the boarding queue is empty; otherwise, the queue
holding the ids `l` of `s ≥ 1` passengers, it retrieves the first `min (T, s)` ids in their
order, raises the semaphore of each passenger retrieved exactly once -- a semaphore is raised as
often as its passenger is among the ids retrieved, so nobody else's is --, increases `nPassD` by
`min (T, s)` and leaves the other `s - min (T, s)` ids queued in their order; the driver then
waits on `waitingPass`. -/
theorem announcing_summons_the_head (sh : SHARED_DATA) (l : List Nat)
    (hwf : queueWF sh.fSt.busQueue) (hl : queueContents sh.fSt.busQueue = l)
    (hids : ∀ x, x ∈ l → x < N) (hpass : ∀ p, p < N → sh.pass p = B_PASS + p)
    (hD : sh.nPassD + T < 4294967296) :
    (queueEmpty sh.fSt.busQueue = true → announcingBusBoarding sh = none) ∧
    (l = [] → announcingBusBoarding sh = none) ∧
    (l ≠ [] → ∃ o, announcingBusBoarding sh = some o ∧
      o.ups = (l.take T).map sh.pass ∧
      (l.take T).length = min T l.length ∧
      (∀ i, i < N → o.ups.count (sh.pass i) = (l.take T).count i) ∧
      queueContents o.sh.fSt.busQueue = l.drop T ∧
      o.sh.nPassD = sh.nPassD + min T l.length ∧
      o.down = some sh.waitingPass) := by
  have habort : queueEmpty sh.fSt.busQueue = true → announcingBusBoarding sh = none := by
    intro he
    unfold announcingBusBoarding
    rw [if_pos he]
  refine ⟨habort, ?_, ?_⟩
  · intro hnil
    apply habort
    apply (queueEmpty_iff_count _ hwf).mpr
    rw [← queueContents_length, hl, hnil]
    rfl
  · intro hne
    have he : ¬ queueEmpty sh.fSt.busQueue = true := by
      intro h
      have := (queueEmpty_iff_count _ hwf).mp h
      rw [← queueContents_length, hl] at this
      exact hne (List.eq_nil_of_length_eq_zero this)
    obtain ⟨s, id, ups, hloop, -, hcs, hups, hnp, -, hw⟩ := summonLoop_spec sh l hwf hl hids T hD
    have hsp : summonPassengers sh = some (s, id, ups) := by
      unfold summonPassengers
      exact hloop
    unfold announcingBusBoarding
    rw [if_neg he, hsp]
    refine ⟨_, rfl, hups, List.length_take _ _, ?_, hcs, hnp, congrArg some hw⟩
    intro i hi
    show ups.count (sh.pass i) = _
    rw [hups]
    exact count_pass_map sh.pass hpass _ (fun x hx => hids x (List.mem_of_mem_take hx)) i hi

/-- Four passengers queue; the driver summons the first three and leaves the fourth in the
queue. -/
theorem announcing_summons_the_head_witness :
    ∃ o, announcingBusBoarding fourQueued = some o ∧
      o.ups = (([0, 1, 2, 3] : List Nat).take T).map fourQueued.pass ∧
      (([0, 1, 2, 3] : List Nat).take T).length = min T ([0, 1, 2, 3] : List Nat).length ∧
      (∀ i, i < N → o.ups.count (fourQueued.pass i) = (([0, 1, 2, 3] : List Nat).take T).count i) ∧
      queueContents o.sh.fSt.busQueue = ([0, 1, 2, 3] : List Nat).drop T ∧
      o.sh.nPassD = fourQueued.nPassD + min T ([0, 1, 2, 3] : List Nat).length ∧
      o.down = some fourQueued.waitingPass :=
  (announcing_summons_the_head fourQueued [0, 1, 2, 3] ⟨by decide, by decide, by decide⟩
    (by decide) (by decide) (by decide) (by decide)).2.2 (by decide)

theorem some_getD_of_isSome {α : Type} (o : Option α) (d : α) (h : o.isSome = true) :
    o = some (o.getD d) := by
  cases o with
  | none => cases h
  | some a => rfl

/-- Boarding a bus whose first seats carry `ids` and that is not packed full: the next seat
receives the id. -/
theorem seatsFilled_enter (b : TRANSF_INFO) (ids : List Nat) (id : Nat) (hid : id < N)
    (hf : seatsFilled b ids) (hne : b.nOccup ≠ T) :
    seatsFilled (enterTheBusLoop id T 0 b) (ids ++ [id]) := by
  obtain ⟨hn, hle, hmap, hemp, hall⟩ := hf
  have hT := T_eq
  rw [N_eq] at hid
  have hlt : b.nOccup < T := by omega
  have hfull : ∀ i, i < b.nOccup → b.seat i ≠ EMPTYST := by
    intro i hi
    have hm : b.seat i ∈ (List.range b.nOccup).map b.seat :=
      List.mem_map_of_mem _ (List.mem_range.mpr hi)
    rw [hmap] at hm
    obtain ⟨x, -, hxe⟩ := List.mem_map.mp hm
    rw [← hxe]
    unfold EMPTYST
    omega
  rcases enterTheBusLoop_cases id T 0 b with ⟨-, hallf⟩ | ⟨p, -, -, he, hfirst, hloop⟩
  · exact absurd (hemp b.nOccup (le_refl _) hlt) (hallf b.nOccup (Nat.zero_le _) (by omega))
  · have hpn : p = b.nOccup := by
      rcases Nat.lt_trichotomy p b.nOccup with h | h | h
      · exact absurd he (hfull p h)
      · exact h
      · exact absurd (hemp b.nOccup (le_refl _) hlt) (hfirst b.nOccup (Nat.zero_le _) h)
    rw [hpn] at hloop
    rw [hloop, toInt_of_lt (by omega), uinc_of_lt (by omega)]
    refine ⟨?_, ?_, ?_, ?_, ?_⟩
    · show b.nOccup + 1 = (ids ++ [id]).length
      rw [List.length_append, ← hn]
      rfl
    · rw [List.length_append, ← hn]
      show b.nOccup + 1 ≤ T
      omega
    · show (List.range (b.nOccup + 1)).map (store b.seat b.nOccup (id : Int))
        = (ids ++ [id]).map (fun x : Nat => (x : Int))
      rw [List.range_succ, List.map_append, List.map_append, ← hmap]
      congr 1
      · apply List.map_congr_left
        intro i hi
        have hi2 := List.mem_range.mp hi
        rw [store_apply, if_neg (by omega)]
      · simp [store_apply]
    · intro i h1 h2
      have h3 : b.nOccup + 1 ≤ i := h1
      show store b.seat b.nOccup (id : Int) i = EMPTYST
      rw [store_apply, if_neg (by omega)]
      exact hemp i (by omega) h2
    · intro x hx
      rcases List.mem_append.mp hx with h | h
      · exact hall x h
      · rw [List.mem_singleton.mp h, N_eq]
        exact hid

/-- The bus after a list of boardings that all succeed carries the passengers it carried before,
followed by the ids of the boardings in their order. -/
theorem boardAll_fills :
    ∀ (calls : List (Nat × Nat)) (sh0 sh1 : SHARED_DATA) (pre : List Nat),
      seatsFilled sh0.fSt.bus pre → (∀ c, c ∈ calls → c.2 < N) → boardAll sh0 calls = some sh1 →
      seatsFilled sh1.fSt.bus (pre ++ calls.map Prod.snd) := by
  intro calls
  induction calls with
  | nil =>
    intro sh0 sh1 pre hf _ hb
    simp only [boardAll, Option.some.injEq] at hb
    subst hb
    simpa using hf
  | cons c rest ih =>
    intro sh0 sh1 pre hf hids hb
    simp only [boardAll] at hb
    by_cases hT : sh0.fSt.bus.nOccup = T
    · rw [show enterTheBus sh0 c.1 c.2 = none from if_pos hT] at hb
      simp at hb
    · rw [show enterTheBus sh0 c.1 c.2 = _ from if_neg hT] at hb
      have hstep := seatsFilled_enter sh0.fSt.bus pre c.2 (hids c (List.mem_cons_self _ _)) hf hT
      have := ih _ sh1 (pre ++ [c.2]) hstep (fun d hd => hids d (List.mem_cons_of_mem _ hd)) hb
      simpa using this

/-- The loop of `parkTheBusAndLetPassOff` over the first `n` seats, all of them holding ids of
passengers: the semaphore of each seat's passenger has been raised, in the order of the seats,
`nPassD` has counted them and the bus is as it was. -/
theorem summonSeatsLoop_spec (sh : SHARED_DATA)
    (hseat : ∀ i, i < sh.fSt.bus.nOccup → sh.fSt.bus.seat i < (N : Int)) :
    ∀ (n : Nat), n ≤ sh.fSt.bus.nOccup → sh.nPassD + n < 4294967296 →
      ∃ s ups,
        forUpTo (fun i (st : Option (SHARED_DATA × List Nat)) =>
          match st with
          | none => none
          | some (s, ups) =>
            if s.fSt.bus.seat i < (N : Int) then
              some ({ s with nPassD := uinc s.nPassD }, ups ++ [s.pass (s.fSt.bus.seat i).toNat])
            else none) n (some (sh, [])) = some (s, ups) ∧
        s.fSt = sh.fSt ∧ s.pass = sh.pass ∧ s.waitingPass = sh.waitingPass ∧
        s.nPassD = sh.nPassD + n ∧
        ups = (List.range n).map (fun i => sh.pass (sh.fSt.bus.seat i).toNat) := by
  intro n
  induction n with
  | zero =>
    intro _ _
    exact ⟨sh, [], rfl, rfl, rfl, rfl, rfl, rfl⟩
  | succ n ih =>
    intro hn hD
    obtain ⟨s, ups, hloop, hfs, hp, hw, hnp, hups⟩ := ih (by omega) (by omega)
    simp only [forUpTo]
    rw [hloop]
    have hlt : s.fSt.bus.seat n < (N : Int) := by
      rw [hfs]
      exact hseat n (by omega)
    simp only [if_pos hlt]
    refine ⟨_, _, rfl, hfs, hp, hw, ?_, ?_⟩
    · show uinc s.nPassD = sh.nPassD + (n + 1)
      rw [uinc_of_lt (by omega), hnp]
      omega
    · rw [List.range_succ, List.map_append, ← hups, hfs, hp]
      rfl

/-- C16: `parkTheBusAndLetPassOff` aborts if the occupancy count is `0` or exceeds `T`.  On a bus
filled, from an empty one, by calls of `enterTheBus` that all succeed -- the seats `0`, `1`, ...
then carry the passengers of the calls, in their order --, it raises the semaphore of every
seated passenger exactly once and no other one (a semaphore is raised as often as its passenger
has boarded), increases `nPassD` by the occupancy count, records the driver state
`PARKING_AT_THE_DEPARTURE_TERMINAL` and leaves the bus, its seats and its occupancy count, as
they were; the driver then waits on `waitingPass`. -/
theorem park_summons_the_seated (sh0 sh : SHARED_DATA) (calls : List (Nat × Nat))
    (h0 : sh0.fSt.bus.nOccup = 0) (h0s : ∀ i, i < T → sh0.fSt.bus.seat i = EMPTYST)
    (hids : ∀ c, c ∈ calls → c.2 < N) (hne : calls ≠ [])
    (hboard : ∃ sh1, boardAll sh0 calls = some sh1 ∧ sh.fSt.bus = sh1.fSt.bus)
    (hpass : ∀ p, p < N → sh.pass p = B_PASS + p) (hD : sh.nPassD + T < 4294967296) :
    (∀ s : SHARED_DATA, s.fSt.bus.nOccup = 0 ∨ s.fSt.bus.nOccup > T →
      parkTheBusAndLetPassOff s = none) ∧
    sh.fSt.bus.nOccup = calls.length ∧
    (List.range sh.fSt.bus.nOccup).map sh.fSt.bus.seat
      = (calls.map Prod.snd).map (fun x : Nat => (x : Int)) ∧
    ∃ o, parkTheBusAndLetPassOff sh = some o ∧
      o.ups = (calls.map Prod.snd).map sh.pass ∧
      (∀ i, i < N → o.ups.count (sh.pass i) = (calls.map Prod.snd).count i) ∧
      o.sh.nPassD = sh.nPassD + sh.fSt.bus.nOccup ∧
      o.sh.fSt.st.driverStat = PARKING_AT_THE_DEPARTURE_TERMINAL ∧
      o.sh.fSt.bus = sh.fSt.bus ∧
      o.down = some sh.waitingPass := by
  obtain ⟨sh1, hb, hbus⟩ := hboard
  have hstart : seatsFilled sh0.fSt.bus [] := by
    refine ⟨h0, Nat.zero_le _, ?_, fun i _ hi => h0s i hi, ?_⟩
    · rw [h0]
      rfl
    · intro x hx
      cases hx
  have hfill := boardAll_fills calls sh0 sh1 [] hstart hids hb
  rw [List.nil_append, ← hbus] at hfill
  obtain ⟨hn, hle, hmap, -, hall⟩ := hfill
  rw [List.length_map] at hn hle
  refine ⟨?_, hn, hmap, ?_⟩
  · intro s hs
    unfold parkTheBusAndLetPassOff
    apply if_pos
    show s.fSt.bus.nOccup > T ∨ s.fSt.bus.nOccup = 0
    exact hs.symm
  · have hpos : 0 < calls.length := List.length_pos.mpr hne
    have hseat : ∀ i, i < sh.fSt.bus.nOccup → sh.fSt.bus.seat i < (N : Int) := by
      intro i hi
      have hm : sh.fSt.bus.seat i ∈ (List.range sh.fSt.bus.nOccup).map sh.fSt.bus.seat :=
        List.mem_map_of_mem _ (List.mem_range.mpr hi)
      rw [hmap] at hm
      obtain ⟨x, hx, hxe⟩ := List.mem_map.mp hm
      rw [← hxe]
      exact_mod_cast hall x hx
    obtain ⟨s, ups, hloop, hfs, hp, hw, hnp, hups⟩ :=
      summonSeatsLoop_spec (setDriverStat sh PARKING_AT_THE_DEPARTURE_TERMINAL) hseat
        sh.fSt.bus.nOccup (le_refl _) (by show sh.nPassD + sh.fSt.bus.nOccup < _; omega)
    have hsp : summonSeats (setDriverStat sh PARKING_AT_THE_DEPARTURE_TERMINAL) = some (s, ups) := by
      unfold summonSeats
      exact hloop
    have hcond : ¬ ((setDriverStat sh PARKING_AT_THE_DEPARTURE_TERMINAL).fSt.bus.nOccup > T ∨
        (setDriverStat sh PARKING_AT_THE_DEPARTURE_TERMINAL).fSt.bus.nOccup = 0) := by
      show ¬ (sh.fSt.bus.nOccup > T ∨ sh.fSt.bus.nOccup = 0)
      omega
    have hups2 : ups = (calls.map Prod.snd).map sh.pass := by
      rw [hups]
      show (List.range sh.fSt.bus.nOccup).map (fun i => sh.pass (sh.fSt.bus.seat i).toNat) = _
      have h1 : (List.range sh.fSt.bus.nOccup).map (fun i => sh.pass (sh.fSt.bus.seat i).toNat)
          = ((List.range sh.fSt.bus.nOccup).map sh.fSt.bus.seat).map
              (fun z : Int => sh.pass z.toNat) := by
        rw [List.map_map]
        rfl
      rw [h1, hmap, List.map_map]
      apply List.map_congr_left
      intro x _
      simp
    unfold parkTheBusAndLetPassOff
    simp only [if_neg hcond, hsp]
    refine ⟨_, rfl, hups2, ?_, hnp, ?_, ?_, congrArg some hw⟩
    · intro i hi
      show ups.count (sh.pass i) = _
      rw [hups2]
      exact count_pass_map sh.pass hpass _ hall i hi
    · show s.fSt.st.driverStat = PARKING_AT_THE_DEPARTURE_TERMINAL
      rw [hfs]
      rfl
    · show s.fSt.bus = sh.fSt.bus
      rw [hfs]
      rfl

/-- The passengers 0 and 1 queue, are summoned and board the empty bus; at the departure
terminal the driver raises the semaphores of both, once each. -/
theorem park_summons_the_seated_witness :
    boardedExample.fSt.bus.nOccup = ([(0, 0), (0, 1)] : List (Nat × Nat)).length ∧
    ∃ o, parkTheBusAndLetPassOff boardedExample = some o ∧
      o.ups = (([(0, 0), (0, 1)] : List (Nat × Nat)).map Prod.snd).map boardedExample.pass ∧
      (∀ i, i < N → o.ups.count (boardedExample.pass i)
        = (([(0, 0), (0, 1)] : List (Nat × Nat)).map Prod.snd).count i) ∧
      o.sh.nPassD = boardedExample.nPassD + boardedExample.fSt.bus.nOccup ∧
      o.sh.fSt.st.driverStat = PARKING_AT_THE_DEPARTURE_TERMINAL ∧
      o.sh.fSt.bus = boardedExample.fSt.bus ∧
      o.down = some boardedExample.waitingPass :=
  have h := park_summons_the_seated announcedExample boardedExample [(0, 0), (0, 1)]
    (by decide) (by decide) (by decide) (by decide)
    ⟨boardedExample, some_getD_of_isSome _ _ (by decide), rfl⟩
    (by decide) (by decide)
  ⟨h.2.1, h.2.2.2⟩

/-! ## Peeking at the queue -/

/-- What `queuePeek` returns, for every position. -/
theorem queuePeek_every (q : QUEUE) (hwf : queueWF q) (pos : Nat) :
    queuePeek q pos
      = if pos < queueCount q then toInt (q.mem ((q.ri + pos) % N)) else EMPTYPOS := by
  by_cases hp : pos < N
  · exact queuePeek_spec q hwf pos (by rw [N_eq] at hp ⊢; omega)
  · have hc := queueCount_le q
    rw [if_neg (by omega)]
    unfold queuePeek
    rw [if_pos]
    simp only [Bool.or_eq_true, decide_eq_true_eq]
    left
    omega

theorem queueContents_get (q : QUEUE) (pos : Nat) :
    (queueContents q)[pos]?
      = if pos < queueCount q then some (q.mem ((q.ri + pos) % N)) else none := by
  unfold queueContents
  rw [List.getElem?_map]
  by_cases h : pos < queueCount q
  · rw [if_pos h, List.getElem?_range h]
    rfl
  · rw [if_neg h, List.getElem?_eq_none (by rw [List.length_range]; omega)]
    rfl

/-- C21: in every queue state reachable from `queueInit` by `queueIn` and `queueOut` calls whose
stored ids are below `2^31`, and for every position `pos`, `queuePeek` returns the id stored
`pos` places after the head when `pos` is smaller than the number of stored ids and `EMPTYPOS`
when it is not; in particular it returns `EMPTYPOS` for `pos >= N` and on an empty queue.  The
function only reads the queue. -/
theorem queuePeek_reads_the_line (q0 : QUEUE) (ops : List QueueOp) (pos : Nat)
    (hids : ∀ v, v ∈ queueContents (queueRun (queueInit q0) ops) → v < 2147483648) :
    queuePeek (queueRun (queueInit q0) ops) pos
      = (((queueContents (queueRun (queueInit q0) ops))[pos]?).map
          (fun v : Nat => (v : Int))).getD EMPTYPOS ∧
    (pos < (queueContents (queueRun (queueInit q0) ops)).length →
      ∃ v, (queueContents (queueRun (queueInit q0) ops))[pos]? = some v ∧
        queuePeek (queueRun (queueInit q0) ops) pos = (v : Int) ∧
        queuePeek (queueRun (queueInit q0) ops) pos ≠ EMPTYPOS) ∧
    ((queueContents (queueRun (queueInit q0) ops)).length ≤ pos →
      queuePeek (queueRun (queueInit q0) ops) pos = EMPTYPOS) ∧
    (N ≤ pos → queuePeek (queueRun (queueInit q0) ops) pos = EMPTYPOS) ∧
    (queueEmpty (queueRun (queueInit q0) ops) = true →
      queuePeek (queueRun (queueInit q0) ops) pos = EMPTYPOS) := by
  obtain ⟨hwf, -⟩ := queueRun_refines ops (queueInit q0) (queueInit_wf q0)
  generalize queueRun (queueInit q0) ops = q at hwf hids ⊢
  have hpeek := queuePeek_every q hwf pos
  have hget := queueContents_get q pos
  have hlen := queueContents_length q
  have hle := queueCount_le q
  have hin : pos < queueCount q →
      queuePeek q pos = ((q.mem ((q.ri + pos) % N) : Nat) : Int) := by
    intro h
    rw [hpeek, if_pos h]
    apply toInt_of_lt
    apply hids
    have := hget
    rw [if_pos h] at this
    exact List.mem_iff_getElem?.mpr ⟨pos, this⟩
  have hout : queueCount q ≤ pos → queuePeek q pos = EMPTYPOS := by
    intro h
    rw [hpeek, if_neg (by omega)]
  refine ⟨?_, ?_, ?_, ?_, ?_⟩
  · rw [hget]
    by_cases h : pos < queueCount q
    · rw [if_pos h]
      exact hin h
    · rw [if_neg h]
      exact hout (by omega)
  · intro h
    rw [hlen] at h
    refine ⟨q.mem ((q.ri + pos) % N), by rw [hget, if_pos h], hin h, ?_⟩
    rw [hin h]
    unfold EMPTYPOS
    omega
  · intro h
    rw [hlen] at h
    exact hout h
  · intro h
    exact hout (by omega)
  · intro h
    have := (queueEmpty_iff_count q hwf).mp h
    exact hout (by omega)

/-- The ids 4 and 2 are inserted, one id is retrieved and 1 is inserted: the position 1 holds
the id 1. -/
theorem queuePeek_reads_the_line_witness :
    queuePeek (queueRun (queueInit { mem := fun _ => 0, ii := 3, ri := 5, full := true })
      [QueueOp.queueIn 4, QueueOp.queueIn 2, QueueOp.queueOut, QueueOp.queueIn 1]) 1
      = (((queueContents (queueRun
            (queueInit { mem := fun _ => 0, ii := 3, ri := 5, full := true })
            [QueueOp.queueIn 4, QueueOp.queueIn 2, QueueOp.queueOut, QueueOp.queueIn 1]))[1]?).map
          (fun v : Nat => (v : Int))).getD EMPTYPOS :=
  (queuePeek_reads_the_line { mem := fun _ => 0, ii := 3, ri := 5, full := true }
    [QueueOp.queueIn 4, QueueOp.queueIn 2, QueueOp.queueOut, QueueOp.queueIn 1] 1
    (by decide)).1


/-! ## The boarding threshold, from an empty queue -/

/-- What `takeABus` leaves in the shared region: the id of the caller has been inserted into
the queue. -/
theorem takeABus_queue (sh : SHARED_DATA) (k id : Nat) :
    (takeABus sh k id).sh.fSt.busQueue = queueIn sh.fSt.busQueue id ∧
    (takeABus sh k id).sh.waitingDrive = sh.waitingDrive := ⟨rfl, rfl⟩

/-- What `takeABus` does on a queue whose stored ids are below `2^31`: it raises `waitingDrive`
exactly when the queue holds at least `T` ids once the id of the caller has been inserted. -/
theorem takeABus_wakes_of_contents (sh : SHARED_DATA) (k id : Nat)
    (hwf : queueWF sh.fSt.busQueue)
    (hmem : ∀ v, v ∈ queueContents (queueIn sh.fSt.busQueue id) → v < 2147483648) :
    (takeABus sh k id).ups
      = if T ≤ queueCount (queueIn sh.fSt.busQueue id) then [sh.waitingDrive] else [] := by
  have hwf' := queueIn_wf sh.fSt.busQueue id hwf
  have hpeek : ∀ i, i < T →
      (queuePeek (queueIn sh.fSt.busQueue id) i ≠ EMPTYPOS
        ↔ i < queueCount (queueIn sh.fSt.busQueue id)) := by
    intro i hi
    rw [queuePeek_every _ hwf' i]
    constructor
    · intro h
      by_contra hlt
      rw [if_neg hlt] at h
      exact h rfl
    · intro h
      have hg := queueContents_get (queueIn sh.fSt.busQueue id) i
      rw [if_pos h] at hg
      rw [if_pos h, toInt_of_lt (hmem _ (List.mem_iff_getElem?.mpr ⟨i, hg⟩))]
      unfold EMPTYPOS
      omega
  have hcount := (forUpTo_count
    (fun i => queuePeek (queueIn sh.fSt.busQueue id) i ≠ EMPTYPOS) T).2
  have hiff : forUpTo (fun i (counter : Nat) =>
        if queuePeek (queueIn sh.fSt.busQueue id) i ≠ EMPTYPOS then counter + 1 else counter) T 0
        = T ↔ T ≤ queueCount (queueIn sh.fSt.busQueue id) := by
    rw [hcount]
    constructor
    · intro h
      have := (hpeek (T - 1) (by rw [T_eq]; omega)).mp (h (T - 1) (by rw [T_eq]; omega))
      rw [T_eq] at this ⊢
      omega
    · intro h i hi
      exact (hpeek i hi).mpr (by omega)
  show (if forUpTo (fun i (counter : Nat) =>
        if queuePeek (queueIn sh.fSt.busQueue id) i ≠ EMPTYPOS then counter + 1 else counter) T 0
        = T then [sh.waitingDrive] else []) = _
  by_cases h : T ≤ queueCount (queueIn sh.fSt.busQueue id)
  · rw [if_pos (hiff.mpr h), if_pos h]
  · rw [if_neg (fun hc => h (hiff.mp hc)), if_neg h]

/-- Passengers queue one after the other with no retrieval in between, the queue having room
for all of them: each call raises `waitingDrive` exactly when it brings the number of queued ids
to `T` or more. -/
theorem takeABusRun_spec (calls : List (Nat × Nat)) :
    ∀ (sh : SHARED_DATA), queueWF sh.fSt.busQueue →
      (∀ v, v ∈ queueContents sh.fSt.busQueue → v < 2147483648) →
      (∀ c, c ∈ calls → c.2 < 2147483648) →
      queueCount sh.fSt.busQueue + calls.length ≤ N →
      queueWF (takeABusRun sh calls).1.fSt.busQueue ∧
      queueContents (takeABusRun sh calls).1.fSt.busQueue
        = queueContents sh.fSt.busQueue ++ calls.map Prod.snd ∧
      (takeABusRun sh calls).2
        = (List.range calls.length).map (fun j =>
            if T ≤ queueCount sh.fSt.busQueue + j + 1 then [sh.waitingDrive] else []) := by
  induction calls with
  | nil =>
    intro sh hwf _ _ _
    exact ⟨hwf, by simp [takeABusRun], rfl⟩
  | cons c calls ih =>
    intro sh hwf hmem hids hroom
    rw [List.length_cons] at hroom
    have hnf : sh.fSt.busQueue.full = false := by
      cases hf : sh.fSt.busQueue.full
      · rfl
      · have := (queueFull_iff_count sh.fSt.busQueue).mp hf
        omega
    obtain ⟨hwf1, hc1⟩ := queueIn_contents sh.fSt.busQueue c.2 hwf hnf
    have hcnt1 : queueCount (queueIn sh.fSt.busQueue c.2) = queueCount sh.fSt.busQueue + 1 := by
      rw [← queueContents_length, hc1, List.length_append, queueContents_length]
      rfl
    have hmem1 : ∀ v, v ∈ queueContents (queueIn sh.fSt.busQueue c.2) → v < 2147483648 := by
      intro v hv
      rw [hc1] at hv
      rcases List.mem_append.mp hv with h | h
      · exact hmem v h
      · rw [List.mem_singleton.mp h]
        exact hids c (List.mem_cons_self _ _)
    have hups := takeABus_wakes_of_contents sh c.1 c.2 hwf hmem1
    rw [hcnt1] at hups
    obtain ⟨hq, hw⟩ := takeABus_queue sh c.1 c.2
    obtain ⟨i1, i2, i3⟩ := ih (takeABus sh c.1 c.2).sh (by rw [hq]; exact hwf1)
      (by rw [hq]; exact hmem1) (fun d hd => hids d (List.mem_cons_of_mem _ hd))
      (by rw [hq, hcnt1]; omega)
    rw [hq] at i2
    rw [hq, hw, hcnt1] at i3
    simp only [takeABusRun]
    refine ⟨i1, ?_, ?_⟩
    · rw [i2, hc1]
      simp
    · rw [i3, hups, List.length_cons, List.range_succ_eq_map, List.map_cons, List.map_map]
      congr 1
      apply List.map_congr_left
      intro j _
      show (if T ≤ queueCount sh.fSt.busQueue + 1 + j + 1 then _ else _)
        = if T ≤ queueCount sh.fSt.busQueue + (j + 1) + 1 then _ else _
      rw [show queueCount sh.fSt.busQueue + 1 + j + 1 = queueCount sh.fSt.busQueue + (j + 1) + 1
        by omega]

/-- C22: starting from an empty boarding queue, when `T` passengers execute `takeABus` one
after the other with no retrieval in between, the semaphore `waitingDrive` is raised exactly
once in total: by the `T`-th call and by none of the first `T - 1`. -/
theorem boarding_threshold (sh : SHARED_DATA) (calls : List (Nat × Nat))
    (hwf : queueWF sh.fSt.busQueue) (he : queueEmpty sh.fSt.busQueue = true)
    (hlen : calls.length = T) (hids : ∀ c, c ∈ calls → c.2 < N) :
    (takeABusRun sh calls).2 = List.replicate (T - 1) [] ++ [[sh.waitingDrive]] ∧
    ((takeABusRun sh calls).2.map (fun ups => ups.length)).sum = 1 ∧
    queueContents (takeABusRun sh calls).1.fSt.busQueue = calls.map Prod.snd := by
  have h0 := (queueEmpty_iff_count _ hwf).mp he
  have hc0 : queueContents sh.fSt.busQueue = [] :=
    List.eq_nil_of_length_eq_zero (by rw [queueContents_length, h0])
  obtain ⟨-, h2, h3⟩ := takeABusRun_spec calls sh hwf
    (by intro v hv; rw [hc0] at hv; cases hv)
    (fun c hc => by have := hids c hc; rw [N_eq] at this; omega)
    (by rw [h0, hlen, T_eq, N_eq]; omega)
  rw [hc0, List.nil_append] at h2
  rw [h0, hlen] at h3
  have h4 : (takeABusRun sh calls).2 = List.replicate (T - 1) [] ++ [[sh.waitingDrive]] := by
    rw [h3, T_eq]
    rfl
  refine ⟨h4, ?_, h2⟩
  rw [h4, T_eq]
  rfl

/-- The passengers 4, 0 and 2 queue for the bus after the check-in of landing 0. -/
theorem boarding_threshold_witness :
    (takeABusRun (checkedIn allTransit) [(0, 4), (0, 0), (0, 2)]).2
      = List.replicate (T - 1) [] ++ [[(checkedIn allTransit).waitingDrive]] ∧
    ((takeABusRun (checkedIn allTransit) [(0, 4), (0, 0), (0, 2)]).2.map
      (fun ups => ups.length)).sum = 1 ∧
    queueContents (takeABusRun (checkedIn allTransit) [(0, 4), (0, 0), (0, 2)]).1.fSt.busQueue
      = ([(0, 4), (0, 0), (0, 2)] : List (Nat × Nat)).map Prod.snd :=
  boarding_threshold (checkedIn allTransit) [(0, 4), (0, 0), (0, 2)]
    ⟨by decide, by decide, by decide⟩ (by decide) (by decide) (by decide)


/-! ## The porter at the hold -/

/-- C24: `tryToCollectABag` on a landing whose manifest holds `n >= 1` bags returns true with
the bag stored at index `n - 1`, lowers the count to `n - 1`, leaves the bags of the manifest and
the manifest of every other landing as they were and raises no semaphore; on an empty manifest
it returns false (the location of the bag keeps its content) and leaves every manifest as it
was; in both cases the porter state becomes `AT_THE_PLANES_HOLD`. -/
theorem tryToCollectABag_takes_the_last (sh : SHARED_DATA) (k : Nat) (bag : BAG) :
    ((sh.fSt.plHold k).nBags ≠ 0 →
      (tryToCollectABag sh k bag).ret
        = (true, (sh.fSt.plHold k).bag ((sh.fSt.plHold k).nBags - 1)) ∧
      ((tryToCollectABag sh k bag).sh.fSt.plHold k).nBags = (sh.fSt.plHold k).nBags - 1 ∧
      ((tryToCollectABag sh k bag).sh.fSt.plHold k).bag = (sh.fSt.plHold k).bag ∧
      (∀ j, j ≠ k → (tryToCollectABag sh k bag).sh.fSt.plHold j = sh.fSt.plHold j) ∧
      (tryToCollectABag sh k bag).ups = []) ∧
    ((sh.fSt.plHold k).nBags = 0 →
      (tryToCollectABag sh k bag).ret = (false, bag) ∧
      (tryToCollectABag sh k bag).sh.fSt.plHold = sh.fSt.plHold) ∧
    (tryToCollectABag sh k bag).sh.fSt.st.porterStat = AT_THE_PLANES_HOLD ∧
    (tryToCollectABag sh k bag).down = none := by
  refine ⟨?_, ?_, rfl, rfl⟩
  · intro hn
    have hr : tryToCollectABag sh k bag
        = { sh := { sh with fSt := { sh.fSt with
                plHold := store sh.fSt.plHold k
                  { sh.fSt.plHold k with nBags := udec (sh.fSt.plHold k).nBags },
                st := { sh.fSt.st with porterStat := AT_THE_PLANES_HOLD } } },
            ups := [], down := none,
            ret := (true, (sh.fSt.plHold k).bag ((sh.fSt.plHold k).nBags - 1)) } := by
      unfold tryToCollectABag
      simp only [if_pos hn]
    rw [hr]
    refine ⟨rfl, ?_, ?_, ?_, rfl⟩
    · show (store sh.fSt.plHold k _ k).nBags = _
      rw [store_apply, if_pos rfl]
      exact udec_of_pos (Nat.pos_of_ne_zero hn)
    · show (store sh.fSt.plHold k _ k).bag = _
      rw [store_apply, if_pos rfl]
    · intro j hj
      show store sh.fSt.plHold k _ j = _
      rw [store_apply, if_neg hj]
  · intro hn
    have h1 := (informPassengers_spec k sh).1
    unfold tryToCollectABag
    generalize informPassengers k sh = r at h1 ⊢
    simp only [if_neg (not_not.mpr hn)]
    exact ⟨trivial, congrArg FULL_STAT.plHold h1⟩

/-- The porter starts on landing 0, whose manifest lists the bag of the transit passenger 1. -/
theorem tryToCollectABag_takes_the_last_witness :
    (tryToCollectABag (porterStart transitWithBag) 0 { id := 0 }).ret
      = (true, ((porterStart transitWithBag).fSt.plHold 0).bag
          (((porterStart transitWithBag).fSt.plHold 0).nBags - 1)) ∧
    ((tryToCollectABag (porterStart transitWithBag) 0 { id := 0 }).sh.fSt.plHold 0).nBags
      = ((porterStart transitWithBag).fSt.plHold 0).nBags - 1 ∧
    ((tryToCollectABag (porterStart transitWithBag) 0 { id := 0 }).sh.fSt.plHold 0).bag
      = ((porterStart transitWithBag).fSt.plHold 0).bag ∧
    (∀ j, j ≠ 0 → (tryToCollectABag (porterStart transitWithBag) 0 { id := 0 }).sh.fSt.plHold j
      = (porterStart transitWithBag).fSt.plHold j) ∧
    (tryToCollectABag (porterStart transitWithBag) 0 { id := 0 }).ups = [] :=
  (tryToCollectABag_takes_the_last (porterStart transitWithBag) 0 { id := 0 }).1 (by decide)

/-! ## The generator: the landing number and the counters -/

theorem genPassenger_nLand (d : Draws) (k p : Nat) (s : SHARED_DATA × Nat) :
    (genPassenger d k p s).1.fSt.nLand = s.1.fSt.nLand := rfl

theorem fillPassenger_nLand (k p : Nat) (s : SHARED_DATA × Nat) :
    (fillPassenger k p s).1.fSt.nLand = s.1.fSt.nLand := by
  unfold fillPassenger
  dsimp only
  show (forUpTo _ _ s).1.fSt.nLand = _
  refine forUpTo_inv (fun t : SHARED_DATA × Nat => t.1.fSt.nLand = s.1.fSt.nLand) _ ?_ _ s rfl
  intro _ t ht
  exact ht

theorem fillLoad_nLand (k nTot : Nat) :
    ∀ (r : Nat) (s : SHARED_DATA × Nat), (fillLoad k nTot r s).1.fSt.nLand = s.1.fSt.nLand := by
  intro r
  induction r with
  | zero => intro s; rfl
  | succ r ih =>
    intro s
    simp only [fillLoad]
    split
    · rw [ih]
      refine forUpTo_inv (fun t : SHARED_DATA × Nat => t.1.fSt.nLand = s.1.fSt.nLand)
        (fillPassenger k) ?_ N s rfl
      intro p t ht
      show (fillPassenger k p t).1.fSt.nLand = _
      rw [fillPassenger_nLand]
      exact ht
    · rfl

theorem genLanding_nLand (d : Draws) (k : Nat) (sh : SHARED_DATA) :
    (genLanding d k sh).fSt.nLand = sh.fSt.nLand := by
  unfold genLanding
  dsimp only
  rw [fillLoad_nLand]
  exact forUpTo_inv (fun t : SHARED_DATA × Nat => t.1.fSt.nLand = sh.fSt.nLand)
    (genPassenger d k) (fun p t ht => ht) N (sh, 0) rfl

theorem forUpTo_frame {σ α : Type} (f : σ → α) (body : Nat → σ → σ)
    (h : ∀ i s, f (body i s) = f s) (n : Nat) (s : σ) : f (forUpTo body n s) = f s :=
  forUpTo_inv (fun t => f t = f s) body (fun i t ht => (h i t).trans ht) n s rfl

/-- The landing number, the records of the passengers and the manifests as the generator leaves
them are those produced by its loop over the landings. -/
theorem mainInit_landings (d : Draws) (sh0 L : SHARED_DATA)
    (hL : forUpTo (genLanding d) K
          { sh0 with fSt := { sh0.fSt with
              nLand := 0,
              st := { sh0.fSt.st with porterStat := WAITING_FOR_A_PLANE_TO_LAND } } } = L) :
    (mainInit d sh0).fSt.nLand = L.fSt.nLand ∧
    (mainInit d sh0).fSt.st.passStat = L.fSt.st.passStat ∧
    (mainInit d sh0).fSt.plHold = L.fSt.plHold := by
  unfold mainInit
  lift_lets
  intro a5 a4 sh1 sh2 sh3 a3 sh4 a2 a1 sh5 sh6 a0 sh7 sh8 sh9
  have h2 : sh2 = L := hL
  clear_value sh2
  subst h2
  exact ⟨rfl, rfl, rfl⟩

theorem mainInit_nLand (d : Draws) (sh0 : SHARED_DATA) : (mainInit d sh0).fSt.nLand = 0 := by
  rw [(mainInit_landings d sh0 _ rfl).1]
  exact forUpTo_inv (fun s : SHARED_DATA => s.fSt.nLand = 0) (genLanding d)
    (fun k s hs => by show (genLanding d k s).fSt.nLand = 0; rw [genLanding_nLand]; exact hs) K _ rfl



/-! ## The disembarking zone -/

theorem uinc_ne (x : Nat) : uinc x ≠ x := by
  unfold uinc
  split <;> omega

/-- The branch of the very first passenger in `whatShouldIDo`: it is taken exactly when
`nPassP % N == 0`; it increments `nLand` and resets the state of the `N` passengers of the
landing; otherwise `nLand` is left as it is. -/
theorem whatShouldIDo_nLand (sh : SHARED_DATA) (k id : Nat) :
    (whatShouldIDo sh k id).sh.fSt.nLand
      = if sh.nPassP % N = 0 then uinc sh.fSt.nLand else sh.fSt.nLand := by
  have key : ∀ (s0 : SHARED_DATA) (n : Nat),
      (forUpTo (fun i s => setStat s k i AT_THE_DISEMBARKING_ZONE) n s0).fSt.nLand
        = s0.fSt.nLand := by
    intro s0 n
    exact forUpTo_inv (fun s : SHARED_DATA => s.fSt.nLand = s0.fSt.nLand)
      (fun i s => setStat s k i AT_THE_DISEMBARKING_ZONE) (fun i s hs => hs) n s0 rfl
  unfold whatShouldIDo
  by_cases h1 : (sh.fSt.st.passStat k id).sit = TRT <;> by_cases h2 : sh.nPassP % N = 0
  all_goals simp only [h1, h2, if_true, if_false, key]

theorem filter_range_succ (n : Nat) (f : Nat → Bool) :
    (List.range (n + 1)).filter f
      = if f n = true then (List.range n).filter f ++ [n] else (List.range n).filter f := by
  rw [List.range_succ, List.filter_append]
  by_cases h : f n = true
  · rw [if_pos h]
    simp [h]
  · rw [if_neg h]
    simp [h]

theorem arrivalStep_inv (l l1 : Arrivals) (e : Event) (hinv : arrivalInv l)
    (hlen : l.checkIns < 4294967295) (hstep : arrivalStep l e = some l1) :
    arrivalInv l1 ∧ l1.checkIns ≤ l.checkIns + 1 := by
  obtain ⟨hp, hpn, hmod, hle, hf, hland⟩ := hinv
  have hN := N_eq
  cases e with
  | checkIn k id =>
    simp only [arrivalStep, Option.some.injEq] at hstep
    subst hstep
    obtain ⟨w1, -, w3⟩ := whatShouldIDo_nPassP l.sh k id
    have wl := whatShouldIDo_nLand l.sh k id
    have hu : uinc l.sh.nPassP = l.sh.nPassP + 1 := uinc_of_lt (by omega)
    rw [hu] at w1 w3
    have hcount : (whatShouldIDo l.sh k id).ups.count l.sh.waitingFlight
        = if l.sh.nPassP + 1 = N then 1 else 0 := by
      rw [w3]
      split <;> simp
    refine ⟨⟨?_, ?_, ?_, ?_, ?_, ?_⟩, le_refl _⟩
    · show l.pending + _ ≤ 1
      rw [hcount]
      split
      · have : l.pending ≠ 1 := fun h => by have := hpn h; omega
        omega
      · omega
    · show l.pending + _ = 1 → N ≤ (whatShouldIDo l.sh k id).sh.nPassP
      rw [hcount, w1]
      split
      · intro _; omega
      · intro h
        have := hpn (by omega)
        omega
    · show (whatShouldIDo l.sh k id).sh.nPassP % N = (l.checkIns + 1) % N
      rw [w1, Nat.add_mod, hmod, ← Nat.add_mod]
    · show (whatShouldIDo l.sh k id).sh.nPassP ≤ l.checkIns + 1
      rw [w1]
      omega
    · show (if (whatShouldIDo l.sh k id).sh.fSt.nLand = l.sh.fSt.nLand then l.firsts
            else l.firsts ++ [l.checkIns])
          = (List.range (l.checkIns + 1)).filter (fun j => decide (j % N = 0))
      rw [filter_range_succ, wl, ← hf]
      by_cases h0 : l.sh.nPassP % N = 0
      · rw [if_pos h0, if_neg (uinc_ne _), if_pos]
        rw [decide_eq_true_eq, ← hmod]
        exact h0
      · rw [if_neg h0, if_pos rfl, if_neg]
        rw [decide_eq_true_eq, ← hmod]
        exact h0
    · show (whatShouldIDo l.sh k id).sh.fSt.nLand = (l.checkIns + 1 + N - 1) / N
      rw [wl, hland]
      by_cases h0 : l.sh.nPassP % N = 0
      · rw [if_pos h0]
        rw [hmod] at h0
        have hnl : (l.checkIns + N - 1) / N ≤ l.checkIns := by
          rw [hN]; omega
        rw [uinc_of_lt (by omega), hN]
        rw [hN] at h0
        omega
      · rw [if_neg h0]
        rw [hmod] at h0
        rw [hN] at h0 ⊢
        omega
  | rest k =>
    by_cases h0 : l.pending = 0
    · simp only [arrivalStep, if_pos h0] at hstep
      cases hstep
    · simp only [arrivalStep, if_neg h0, Option.some.injEq] at hstep
      subst hstep
      have h1 : l.pending = 1 := by omega
      have hge := hpn h1
      have hsub : (takeARest l.sh k).sh.nPassP = l.sh.nPassP - N := by
        show usub l.sh.nPassP N = _
        unfold usub
        rw [if_pos hge]
      refine ⟨⟨?_, ?_, ?_, ?_, hf, hland⟩, by show l.checkIns ≤ _; omega⟩
      · show l.pending - 1 ≤ 1
        omega
      · show l.pending - 1 = 1 → _
        intro h
        omega
      · show (takeARest l.sh k).sh.nPassP % N = l.checkIns % N
        rw [hsub, ← hmod]
        rw [hN] at hge ⊢
        omega
      · show (takeARest l.sh k).sh.nPassP ≤ l.checkIns
        rw [hsub]
        omega

theorem arrivalRun_inv (evs : List Event) :
    ∀ (l l1 : Arrivals), arrivalInv l → l.checkIns + evs.length < 4294967296 →
      arrivalRun l evs = some l1 → arrivalInv l1 := by
  induction evs with
  | nil =>
    intro l l1 hinv _ hrun
    simp only [arrivalRun, Option.some.injEq] at hrun
    subst hrun
    exact hinv
  | cons e es ih =>
    intro l l1 hinv hlen hrun
    rw [List.length_cons] at hlen
    simp only [arrivalRun] at hrun
    cases hs : arrivalStep l e with
    | none => rw [hs] at hrun; cases hrun
    | some l2 =>
      rw [hs] at hrun
      obtain ⟨hinv2, hc2⟩ := arrivalStep_inv l l2 e hinv (by omega) hs
      exact ih l2 l1 hinv2 (by omega) hrun

theorem resetLoop_stat (k : Nat) (s0 : SHARED_DATA) :
    ∀ (n i : Nat),
      ((forUpTo (fun i s => setStat s k i AT_THE_DISEMBARKING_ZONE) n s0).fSt.st.passStat k i).stat
        = if i < n then AT_THE_DISEMBARKING_ZONE else (s0.fSt.st.passStat k i).stat := by
  intro n
  induction n with
  | zero => intro i; rfl
  | succ n ih =>
    intro i
    show ((setStat (forUpTo (fun i s => setStat s k i AT_THE_DISEMBARKING_ZONE) n s0) k n
      AT_THE_DISEMBARKING_ZONE).fSt.st.passStat k i).stat = _
    rw [setStat_stat, ih]
    by_cases h : i = n
    · rw [if_pos h, if_pos (by omega)]
    · rw [if_neg h]
      by_cases h2 : i < n
      · rw [if_pos h2, if_pos (by omega)]
      · rw [if_neg h2, if_neg (by omega)]

/-- The very first passenger resets the state of the `N` passengers of her landing. -/
theorem whatShouldIDo_first (sh : SHARED_DATA) (k id : Nat) (h : sh.nPassP % N = 0) :
    ∀ i, i < N →
      ((whatShouldIDo sh k id).sh.fSt.st.passStat k i).stat = AT_THE_DISEMBARKING_ZONE := by
  intro i hi
  unfold whatShouldIDo
  by_cases h1 : (sh.fSt.st.passStat k id).sit = TRT
  all_goals simp only [h1, h, if_true, if_false]
  all_goals
    refine (resetLoop_stat k _ N i).trans ?_
    rw [if_pos hi]

/-- A passenger who is not the very first leaves the states of the entities as they are. -/
theorem whatShouldIDo_later (sh : SHARED_DATA) (k id : Nat) (h : sh.nPassP % N ≠ 0) :
    (whatShouldIDo sh k id).sh.fSt.st = sh.fSt.st := by
  unfold whatShouldIDo
  by_cases h1 : (sh.fSt.st.passStat k id).sit = TRT
  all_goals simp only [h1, h, if_true, if_false]

theorem arrivalStart_inv (d : Draws) (sh0 : SHARED_DATA) :
    arrivalInv (arrivalStart (mainInit d sh0)) := by
  have h1 : (mainInit d sh0).nPassP = 0 := rfl
  refine ⟨Nat.zero_le _, ?_, ?_, ?_, rfl, ?_⟩
  · intro h
    cases h
  · show (mainInit d sh0).nPassP % N = 0 % N
    rw [h1]
  · show (mainInit d sh0).nPassP ≤ 0
    rw [h1]
  · show (mainInit d sh0).fSt.nLand = _
    rw [mainInit_nLand]
    show 0 = (0 + N - 1) / N
    decide

/-- C27: in every interleaving of check-ins with the porter's `takeARest` (possible only while
the semaphore `waitingFlight` is above zero, that is, at any point after the `semUp` it
answers), from the state the generator leaves, the branch of the very first passenger of
`whatShouldIDo` is taken by the check-ins number `0`, `N`, `2N`, ... and by no other: with the
`N` check-ins of a landing preceding those of the next, by exactly one check-in of each landing,
the first.  Accordingly `nLand` counts the landings begun, the next check-in takes the branch
(it increments `nLand` and resets the state of the `N` passengers of its landing) exactly when
the number of check-ins so far is a multiple of `N`, and otherwise leaves `nLand` and every
state as they are. -/
theorem first_passenger_branch_once (d : Draws) (sh0 : SHARED_DATA) (evs : List Event)
    (l : Arrivals) (hlen : evs.length < 4294967295)
    (hrun : arrivalRun (arrivalStart (mainInit d sh0)) evs = some l) :
    l.firsts = (List.range l.checkIns).filter (fun j => decide (j % N = 0)) ∧
    l.sh.fSt.nLand = (l.checkIns + N - 1) / N ∧
    (∀ k id, l.checkIns % N = 0 →
      (whatShouldIDo l.sh k id).sh.fSt.nLand = l.sh.fSt.nLand + 1 ∧
      ∀ i, i < N →
        ((whatShouldIDo l.sh k id).sh.fSt.st.passStat k i).stat = AT_THE_DISEMBARKING_ZONE) ∧
    (∀ k id, l.checkIns % N ≠ 0 →
      (whatShouldIDo l.sh k id).sh.fSt.nLand = l.sh.fSt.nLand ∧
      (whatShouldIDo l.sh k id).sh.fSt.st = l.sh.fSt.st) := by
  have hinv := arrivalRun_inv evs _ l (arrivalStart_inv d sh0)
    (by show 0 + evs.length < 4294967296; omega) hrun
  have hcnt : ∀ (es : List Event) (a b : Arrivals), arrivalRun a es = some b →
      b.checkIns ≤ a.checkIns + es.length := by
    intro es
    induction es with
    | nil =>
      intro a b h
      simp only [arrivalRun, Option.some.injEq] at h
      subst h
      exact Nat.le_add_right _ _
    | cons e es ih =>
      intro a b h
      simp only [arrivalRun] at h
      cases hs : arrivalStep a e with
      | none => rw [hs] at h; cases h
      | some a2 =>
        rw [hs] at h
        have h2 := ih a2 b h
        have h3 : a2.checkIns ≤ a.checkIns + 1 := by
          cases e with
          | checkIn k id =>
            simp only [arrivalStep, Option.some.injEq] at hs
            subst hs
            exact le_refl _
          | rest k =>
            by_cases h0 : a.pending = 0
            · simp only [arrivalStep, if_pos h0] at hs
              cases hs
            · simp only [arrivalStep, if_neg h0, Option.some.injEq] at hs
              subst hs
              exact Nat.le_add_right _ _
        rw [List.length_cons]
        omega
  have hc := hcnt evs _ l hrun
  have hc2 : l.checkIns < 4294967295 := by
    have : (arrivalStart (mainInit d sh0)).checkIns = 0 := rfl
    omega
  obtain ⟨-, -, hmod, -, hf, hland⟩ := hinv
  have hN := N_eq
  refine ⟨hf, hland, ?_, ?_⟩
  · intro k id h0
    have hg : l.sh.nPassP % N = 0 := by rw [hmod]; exact h0
    refine ⟨?_, whatShouldIDo_first l.sh k id hg⟩
    rw [whatShouldIDo_nLand, if_pos hg, uinc_of_lt]
    rw [hland, hN]
    omega
  · intro k id h0
    have hg : l.sh.nPassP % N ≠ 0 := by rw [hmod]; exact h0
    refine ⟨?_, whatShouldIDo_later l.sh k id hg⟩
    rw [whatShouldIDo_nLand, if_neg hg]

/-- Landing 0 checks in, the porter rests, two passengers of landing 1 check in: the check-ins
number 0 and 6 have taken the branch, and the next one does not. -/
theorem first_passenger_branch_once_witness :
    ((arrivalRun (arrivalStart (mainInit allTransit zeroShared))
        (landingCheckIns 0 ++ [Event.rest 0, Event.checkIn 1 3, Event.checkIn 1 0])).getD
      (arrivalStart zeroShared)).firsts
      = (List.range ((arrivalRun (arrivalStart (mainInit allTransit zeroShared))
          (landingCheckIns 0 ++ [Event.rest 0, Event.checkIn 1 3, Event.checkIn 1 0])).getD
        (arrivalStart zeroShared)).checkIns).filter (fun j => decide (j % N = 0)) :=
  (first_passenger_branch_once allTransit zeroShared
    (landingCheckIns 0 ++ [Event.rest 0, Event.checkIn 1 3, Event.checkIn 1 0]) _ (by decide)
    (some_getD_of_isSome _ _ (by decide))).1

/-- C26, at the failing input: the passengers of landing 0, who need neither the porter nor the
driver, check in and leave; those of landing 1 check in before the porter has run `takeARest`.
`nPassP` goes from `N` to `2N` without being equal to `N` after any of these check-ins, so
`waitingFlight` has been raised once for the two landings.  The porter then passes `takeARest`
once (`nPassP` is `N` again) and cannot pass it a second time, and the check-ins of landing 2
raise nothing either. -/
theorem second_landing_not_announced :
    (arrivalRun (arrivalStart (mainInit allHome zeroShared))
        (landingCheckIns 0 ++ landingCheckIns 1)).map
      (fun l => (l.checkIns, l.released, l.pending, l.sh.nPassP)) = some (12, 1, 1, 12) ∧
    (arrivalRun (arrivalStart (mainInit allHome zeroShared))
        (landingCheckIns 0 ++ landingCheckIns 1 ++ [Event.rest 0])).map
      (fun l => (l.checkIns, l.released, l.pending, l.sh.nPassP)) = some (12, 1, 0, 6) ∧
    (arrivalRun (arrivalStart (mainInit allHome zeroShared))
        (landingCheckIns 0 ++ landingCheckIns 1 ++ [Event.rest 0, Event.rest 1])).isSome
      = false ∧
    (arrivalRun (arrivalStart (mainInit allHome zeroShared))
        (landingCheckIns 0 ++ landingCheckIns 1 ++ [Event.rest 0] ++ landingCheckIns 2)).map
      (fun l => (l.checkIns, l.released, l.pending, l.sh.nPassP)) = some (18, 1, 0, 12) := by
  decide

/-- C25, at the failing input: the generator sets `nLand` to 0 and the very first passenger of
every landing increments it, so that it is 1, not 0, once the first passenger of landing 0 has
checked in, and `K`, which is no landing index, once the first passenger of landing `K - 1`
has (the landings in order, the porter resting after each). -/
theorem landing_number_runs_ahead :
    (mainInit allHome zeroShared).fSt.nLand = 0 ∧
    (whatShouldIDo (mainInit allHome zeroShared) 0 0).sh.fSt.nLand = 1 ∧
    (arrivalRun (arrivalStart (mainInit allHome zeroShared))
        (landingCheckIns 0 ++ [Event.rest 0] ++ landingCheckIns 1 ++ [Event.rest 1]
          ++ landingCheckIns 2 ++ [Event.rest 2] ++ landingCheckIns 3 ++ [Event.rest 3]
          ++ [Event.checkIn 4 0])).map (fun l => l.sh.fSt.nLand) = some K := by
  decide

/-! ## The three programs run together: what the operations leave as it is -/

theorem sameLuggage_refl (s : SHARED_DATA) : sameLuggage s s := fun _ _ => ⟨rfl, rfl, rfl⟩

theorem sameLuggage_trans {s t u : SHARED_DATA} (h1 : sameLuggage s t) (h2 : sameLuggage t u) :
    sameLuggage s u := by
  intro k i
  obtain ⟨a1, a2, a3⟩ := h1 k i
  obtain ⟨b1, b2, b3⟩ := h2 k i
  exact ⟨b1.trans a1, b2.trans a2, b3.trans a3⟩

theorem sameLuggage_of_st {s t : SHARED_DATA} (h : t.fSt.st.passStat = s.fSt.st.passStat) :
    sameLuggage s t := by
  intro k i
  rw [h]
  exact ⟨rfl, rfl, rfl⟩

theorem setPassenger_apply (sh : SHARED_DATA) (k i : Nat) (v : STAT_PASSENGER) (k1 i1 : Nat) :
    (setPassenger sh k i v).fSt.st.passStat k1 i1
      = if k1 = k ∧ i1 = i then v else sh.fSt.st.passStat k1 i1 := by
  show store sh.fSt.st.passStat k (store (sh.fSt.st.passStat k) i v) k1 i1 = _
  rw [store_apply]
  by_cases hk : k1 = k
  · rw [if_pos hk, store_apply]
    by_cases hi : i1 = i
    · rw [if_pos hi, if_pos ⟨hk, hi⟩]
    · rw [if_neg hi, if_neg (fun h => hi h.2), hk]
  · rw [if_neg hk, if_neg (fun h => hk h.1)]

theorem setStat_luggage (sh : SHARED_DATA) (k i v : Nat) : sameLuggage sh (setStat sh k i v) := by
  intro k1 i1
  unfold setStat
  rw [setPassenger_apply]
  by_cases h : k1 = k ∧ i1 = i
  · rw [if_pos h, h.1, h.2]
    exact ⟨rfl, rfl, rfl⟩
  · rw [if_neg h]
    exact ⟨rfl, rfl, rfl⟩

theorem untouched_refl (s : SHARED_DATA) : untouched s s :=
  ⟨rfl, ⟨rfl, rfl, rfl, rfl, rfl, rfl⟩, sameLuggage_refl s⟩

theorem setStat_untouched (sh : SHARED_DATA) (k i v : Nat) : untouched sh (setStat sh k i v) :=
  ⟨rfl, ⟨rfl, rfl, rfl, rfl, rfl, rfl⟩, setStat_luggage sh k i v⟩

theorem untouched_trans {s t u : SHARED_DATA} (h1 : untouched s t) (h2 : untouched t u) :
    untouched s u := by
  obtain ⟨a, ⟨a1, a2, a3, a4, a5, a6⟩, al⟩ := h1
  obtain ⟨b, ⟨b1, b2, b3, b4, b5, b6⟩, bl⟩ := h2
  exact ⟨b.trans a, ⟨b1.trans a1, b2.trans a2, b3.trans a3, b4.trans a4, b5.trans a5,
    b6.trans a6⟩, sameLuggage_trans al bl⟩

/-- A shared region that differs only outside the full state of the problem, or in the states
of the entities other than the records of the passengers, in the belt, in the bus or in the
flag `dayEnded`. -/
theorem untouched_of_eq {s t : SHARED_DATA} (hq : t.fSt.busQueue = s.fSt.busQueue)
    (hh : t.fSt.plHold = s.fSt.plHold) (h1 : t.fSt.nToTBagsPCB = s.fSt.nToTBagsPCB)
    (h2 : t.fSt.nToTBagsPSR = s.fSt.nToTBagsPSR) (h3 : t.fSt.nToTMBags = s.fSt.nToTMBags)
    (h4 : t.fSt.nToTPassFD = s.fSt.nToTPassFD) (h5 : t.fSt.nToTPassTST = s.fSt.nToTPassTST)
    (hp : t.fSt.st.passStat = s.fSt.st.passStat) : untouched s t :=
  ⟨hq, ⟨hh, h1, h2, h3, h4, h5⟩, sameLuggage_of_st hp⟩

theorem resetLoop_untouched (k : Nat) (s0 : SHARED_DATA) (n : Nat) :
    untouched s0 (forUpTo (fun i s => setStat s k i AT_THE_DISEMBARKING_ZONE) n s0) :=
  forUpTo_inv (fun s : SHARED_DATA => untouched s0 s)
    (fun i s => setStat s k i AT_THE_DISEMBARKING_ZONE)
    (fun i s hs => untouched_trans hs (setStat_untouched s k i AT_THE_DISEMBARKING_ZONE)) n s0
    (untouched_refl s0)

/-- What `whatShouldIDo` leaves as it is. -/
theorem whatShouldIDo_frame (sh : SHARED_DATA) (k id : Nat) :
    (whatShouldIDo sh k id).sh.fSt.busQueue = sh.fSt.busQueue ∧
    (whatShouldIDo sh k id).sh.fSt.plHold = sh.fSt.plHold ∧
    (whatShouldIDo sh k id).sh.fSt.nToTBagsPCB = sh.fSt.nToTBagsPCB ∧
    (whatShouldIDo sh k id).sh.fSt.nToTBagsPSR = sh.fSt.nToTBagsPSR ∧
    (whatShouldIDo sh k id).sh.fSt.nToTMBags = sh.fSt.nToTMBags := by
  have k1 : ∀ (s0 : SHARED_DATA) (n : Nat),
      (forUpTo (fun i s => setStat s k i AT_THE_DISEMBARKING_ZONE) n s0).fSt.busQueue
        = s0.fSt.busQueue := fun s0 n => (resetLoop_untouched k s0 n).1
  have k2 : ∀ (s0 : SHARED_DATA) (n : Nat),
      (forUpTo (fun i s => setStat s k i AT_THE_DISEMBARKING_ZONE) n s0).fSt.plHold
        = s0.fSt.plHold := fun s0 n => (resetLoop_untouched k s0 n).2.1.1
  have k3 : ∀ (s0 : SHARED_DATA) (n : Nat),
      (forUpTo (fun i s => setStat s k i AT_THE_DISEMBARKING_ZONE) n s0).fSt.nToTBagsPCB
        = s0.fSt.nToTBagsPCB := fun s0 n => (resetLoop_untouched k s0 n).2.1.2.1
  have k4 : ∀ (s0 : SHARED_DATA) (n : Nat),
      (forUpTo (fun i s => setStat s k i AT_THE_DISEMBARKING_ZONE) n s0).fSt.nToTBagsPSR
        = s0.fSt.nToTBagsPSR := fun s0 n => (resetLoop_untouched k s0 n).2.1.2.2.1
  have k5 : ∀ (s0 : SHARED_DATA) (n : Nat),
      (forUpTo (fun i s => setStat s k i AT_THE_DISEMBARKING_ZONE) n s0).fSt.nToTMBags
        = s0.fSt.nToTMBags := fun s0 n => (resetLoop_untouched k s0 n).2.1.2.2.2.1
  unfold whatShouldIDo
  by_cases h1 : (sh.fSt.st.passStat k id).sit = TRT <;> by_cases h2 : sh.nPassP % N = 0
  all_goals simp only [h1, h2, if_true, if_false, k1, k2, k3, k4, k5, and_self]

/-- The totals of the passengers after `whatShouldIDo`, and the value returned. -/
theorem whatShouldIDo_totals (sh : SHARED_DATA) (k id : Nat) :
    (whatShouldIDo sh k id).sh.fSt.nToTPassTST
      = (if (sh.fSt.st.passStat k id).sit = TRT then uinc sh.fSt.nToTPassTST
         else sh.fSt.nToTPassTST) ∧
    (whatShouldIDo sh k id).sh.fSt.nToTPassFD
      = (if (sh.fSt.st.passStat k id).sit = TRT then sh.fSt.nToTPassFD
         else uinc sh.fSt.nToTPassFD) ∧
    (whatShouldIDo sh k id).ret
      = (if (sh.fSt.st.passStat k id).sit = TRT then INTRAN
         else if (sh.fSt.st.passStat k id).nBagsReal = 0 then FDNBTC else FDBTC) := by
  have k1 : ∀ (s0 : SHARED_DATA) (n : Nat),
      (forUpTo (fun i s => setStat s k i AT_THE_DISEMBARKING_ZONE) n s0).fSt.nToTPassFD
        = s0.fSt.nToTPassFD := fun s0 n => (resetLoop_untouched k s0 n).2.1.2.2.2.2.1
  have k2 : ∀ (s0 : SHARED_DATA) (n : Nat),
      (forUpTo (fun i s => setStat s k i AT_THE_DISEMBARKING_ZONE) n s0).fSt.nToTPassTST
        = s0.fSt.nToTPassTST := fun s0 n => (resetLoop_untouched k s0 n).2.1.2.2.2.2.2
  unfold whatShouldIDo
  by_cases h1 : (sh.fSt.st.passStat k id).sit = TRT <;> by_cases h2 : sh.nPassP % N = 0
  all_goals simp only [h1, h2, if_true, if_false, k1, k2, and_self]

theorem whatShouldIDo_luggage (sh : SHARED_DATA) (k id : Nat) :
    sameLuggage sh (whatShouldIDo sh k id).sh := by
  have key := resetLoop_untouched k
  unfold whatShouldIDo
  by_cases h1 : (sh.fSt.st.passStat k id).sit = TRT <;> by_cases h2 : sh.nPassP % N = 0
  all_goals simp only [h1, h2, if_true, if_false]
  · exact (key { sh with fSt := { sh.fSt with
      nToTPassTST := uinc sh.fSt.nToTPassTST, nLand := uinc sh.fSt.nLand } } N).2.2
  · exact sameLuggage_refl sh
  · exact (key { sh with fSt := { sh.fSt with
      nToTPassFD := uinc sh.fSt.nToTPassFD, nLand := uinc sh.fSt.nLand } } N).2.2
  · exact sameLuggage_refl sh

theorem goCollectABagArrive_untouched (sh : SHARED_DATA) (k id : Nat) :
    untouched sh (goCollectABagArrive sh k id).sh := by
  unfold goCollectABagArrive
  by_cases h : (sh.fSt.st.passStat k id).stat = AT_THE_DISEMBARKING_ZONE
  · simp only [if_pos h]
    exact setStat_untouched sh k id AT_THE_LUGGAGE_COLLECTION_POINT
  · simp only [if_neg h]
    exact untouched_refl sh

theorem reportMissingBags_untouched (sh : SHARED_DATA) (k id : Nat) :
    untouched sh (reportMissingBags sh k id).sh :=
  setStat_untouched sh k id AT_THE_BAGGAGE_RECLAIM_OFFICE

theorem goHome_untouched (sh : SHARED_DATA) (k id : Nat) :
    untouched sh (goHome sh k id).sh := by
  have h0 := setStat_untouched sh k id EXITING_THE_ARRIVAL_TERMINAL
  unfold goHome
  dsimp only
  generalize readyCount (setStat sh k id EXITING_THE_ARRIVAL_TERMINAL) k = c
  split
  · dsimp only
    split
    · exact untouched_trans h0 (untouched_of_eq rfl rfl rfl rfl rfl rfl rfl rfl)
    · exact h0
  · exact h0

theorem prepareNextLeg_untouched (sh : SHARED_DATA) (k id : Nat) :
    untouched sh (prepareNextLeg sh k id).sh := by
  have h0 := setStat_untouched sh k id ENTERING_THE_DEPARTURE_TERMINAL
  unfold prepareNextLeg
  dsimp only
  generalize readyCount (setStat sh k id ENTERING_THE_DEPARTURE_TERMINAL) k = c
  split
  · dsimp only
    split
    · exact untouched_trans h0 (untouched_of_eq rfl rfl rfl rfl rfl rfl rfl rfl)
    · exact h0
  · exact h0

/-- `takeABus` inserts the id into the queue and leaves the rest as it is. -/
theorem takeABus_frame (sh : SHARED_DATA) (k id : Nat) :
    (takeABus sh k id).sh.fSt.busQueue = queueIn sh.fSt.busQueue id ∧
    sameCounts sh (takeABus sh k id).sh ∧ sameLuggage sh (takeABus sh k id).sh := by
  refine ⟨rfl, ⟨rfl, rfl, rfl, rfl, rfl, rfl⟩, ?_⟩
  exact sameLuggage_trans
    (sameLuggage_of_st (s := sh)
      (t := { sh with fSt := { sh.fSt with busQueue := queueIn sh.fSt.busQueue id } }) rfl)
    (setStat_luggage _ k id AT_THE_ARRIVAL_TRANSFER_TERMINAL)

theorem enterTheBus_untouched (sh : SHARED_DATA) (k id : Nat) (o : Outcome Unit)
    (h : enterTheBus sh k id = some o) : untouched sh o.sh := by
  unfold enterTheBus at h
  split at h
  · cases h
  · cases h
    exact untouched_trans
      (untouched_of_eq (s := sh)
        (t := { sh with fSt := { sh.fSt with bus := enterTheBusLoop id T 0 sh.fSt.bus },
                        nPassD := udec sh.nPassD }) rfl rfl rfl rfl rfl rfl rfl rfl)
      (setStat_untouched _ k id TERMINAL_TRANSFER)

theorem leaveTheBus_untouched (sh : SHARED_DATA) (k id : Nat) (o : Outcome Unit)
    (h : leaveTheBus sh k id = some o) : untouched sh o.sh := by
  unfold leaveTheBus at h
  split at h
  · cases h
  · cases h
    exact untouched_trans
      (untouched_of_eq (s := sh)
        (t := { sh with fSt := { sh.fSt with bus := leaveTheBusLoop id T 0 sh.fSt.bus },
                        nPassD := uinc sh.nPassD }) rfl rfl rfl rfl rfl rfl rfl rfl)
      (setStat_untouched _ k id AT_THE_DEPARTURE_TRANSFER_TERMINAL)

theorem takeARest_untouched (sh : SHARED_DATA) (k : Nat) : untouched sh (takeARest sh k).sh :=
  untouched_of_eq rfl rfl rfl rfl rfl rfl rfl rfl

theorem noMoreBagsToCollect_untouched (sh : SHARED_DATA) (k : Nat) :
    untouched sh (noMoreBagsToCollect sh k).sh :=
  untouched_of_eq rfl rfl rfl rfl rfl rfl rfl rfl

theorem setDriverStat_untouched (sh : SHARED_DATA) (v : Nat) :
    untouched sh (setDriverStat sh v) :=
  untouched_of_eq rfl rfl rfl rfl rfl rfl rfl rfl

/-- What `tryToCollectABag` leaves as it is, and what it does to the manifest. -/
theorem tryToCollectABag_frame (sh : SHARED_DATA) (k : Nat) (bag : BAG) :
    (tryToCollectABag sh k bag).sh.fSt.busQueue = sh.fSt.busQueue ∧
    (tryToCollectABag sh k bag).sh.fSt.nToTBagsPCB = sh.fSt.nToTBagsPCB ∧
    (tryToCollectABag sh k bag).sh.fSt.nToTBagsPSR = sh.fSt.nToTBagsPSR ∧
    (tryToCollectABag sh k bag).sh.fSt.nToTMBags = sh.fSt.nToTMBags ∧
    (tryToCollectABag sh k bag).sh.fSt.nToTPassFD = sh.fSt.nToTPassFD ∧
    (tryToCollectABag sh k bag).sh.fSt.nToTPassTST = sh.fSt.nToTPassTST ∧
    sameLuggage sh (tryToCollectABag sh k bag).sh ∧
    ((sh.fSt.plHold k).nBags ≠ 0 →
      (tryToCollectABag sh k bag).ret.1 = true ∧
      (tryToCollectABag sh k bag).sh.fSt.plHold
        = store sh.fSt.plHold k
            { sh.fSt.plHold k with nBags := (sh.fSt.plHold k).nBags - 1 }) ∧
    ((sh.fSt.plHold k).nBags = 0 →
      (tryToCollectABag sh k bag).ret.1 = false ∧
      (tryToCollectABag sh k bag).sh.fSt.plHold = sh.fSt.plHold) := by
  by_cases hn : (sh.fSt.plHold k).nBags ≠ 0
  · have hd : udec (sh.fSt.plHold k).nBags = (sh.fSt.plHold k).nBags - 1 :=
      udec_of_pos (Nat.pos_of_ne_zero hn)
    unfold tryToCollectABag
    simp only [if_pos hn, hd]
    exact ⟨trivial, trivial, trivial, trivial, trivial, trivial, sameLuggage_of_st rfl,
      fun _ => ⟨trivial, trivial⟩, fun h => absurd h hn⟩
  · obtain ⟨h1, -, -, -⟩ := informPassengers_spec k sh
    unfold tryToCollectABag
    generalize informPassengers k sh = r at h1 ⊢
    simp only [if_neg hn]
    refine ⟨congrArg FULL_STAT.busQueue h1, congrArg FULL_STAT.nToTBagsPCB h1,
      congrArg FULL_STAT.nToTBagsPSR h1, congrArg FULL_STAT.nToTMBags h1,
      congrArg FULL_STAT.nToTPassFD h1, congrArg FULL_STAT.nToTPassTST h1,
      sameLuggage_of_st (show r.1.fSt.st.passStat = sh.fSt.st.passStat by rw [h1]),
      fun h => absurd h hn, fun _ => ⟨trivial, congrArg FULL_STAT.plHold h1⟩⟩

/-- What `carryItToAppropriateStore` leaves as it is, and what it does to the two totals of
bags. -/
theorem carryItToAppropriateStore_frame (sh : SHARED_DATA) (k : Nat) (bag : BAG)
    (o : Outcome Unit) (h : carryItToAppropriateStore sh k bag = some o) :
    o.sh.fSt.busQueue = sh.fSt.busQueue ∧ o.sh.fSt.plHold = sh.fSt.plHold ∧
    o.sh.fSt.nToTMBags = sh.fSt.nToTMBags ∧ o.sh.fSt.nToTPassFD = sh.fSt.nToTPassFD ∧
    o.sh.fSt.nToTPassTST = sh.fSt.nToTPassTST ∧ sameLuggage sh o.sh ∧
    o.sh.fSt.nToTBagsPCB + o.sh.fSt.nToTBagsPSR
      ≤ sh.fSt.nToTBagsPCB + sh.fSt.nToTBagsPSR + 1 := by
  have hu : ∀ x, uinc x ≤ x + 1 := by
    intro x
    unfold uinc
    split <;> omega
  unfold carryItToAppropriateStore at h
  split at h
  · cases h
  · split at h
    · cases h
      refine ⟨rfl, rfl, rfl, rfl, rfl, sameLuggage_of_st rfl, ?_⟩
      show uinc sh.fSt.nToTBagsPCB + sh.fSt.nToTBagsPSR ≤ _
      have := hu sh.fSt.nToTBagsPCB
      omega
    · split at h
      · cases h
        refine ⟨rfl, rfl, rfl, rfl, rfl, sameLuggage_of_st rfl, ?_⟩
        show sh.fSt.nToTBagsPCB + uinc sh.fSt.nToTBagsPSR ≤ _
        have := hu sh.fSt.nToTBagsPSR
        omega
      · cases h
        exact ⟨rfl, rfl, rfl, rfl, rfl, sameLuggage_refl sh, Nat.le_add_right _ _⟩

theorem summonPassengers_frame (sh : SHARED_DATA) (s : SHARED_DATA) (id : Nat)
    (ups : List Nat) (h : summonPassengers sh = some (s, id, ups)) :
    sameCounts sh s ∧ sameLuggage sh s := by
  have key : ∀ st, summonPassengers sh = st →
      ∀ s id ups, st = some (s, id, ups) → sameCounts sh s ∧ sameLuggage sh s := by
    intro st hst
    rw [← hst]
    unfold summonPassengers
    apply forUpTo_inv (fun st : Option (SHARED_DATA × Nat × List Nat) =>
      ∀ s id ups, st = some (s, id, ups) → sameCounts sh s ∧ sameLuggage sh s)
    · intro i st hst s id ups hs
      match st, hst with
      | none, _ => cases hs
      | some (s0, id0, ups0), hst =>
        have h0 := hst s0 id0 ups0 rfl
        dsimp only at hs
        split at hs
        · split at hs
          · cases hs
            exact ⟨h0.1, sameLuggage_trans h0.2 (sameLuggage_of_st rfl)⟩
          · cases hs
        · cases hs; exact h0
    · intro s id ups hs
      cases hs
      exact ⟨⟨rfl, rfl, rfl, rfl, rfl, rfl⟩, sameLuggage_refl sh⟩
  exact key _ rfl s id ups h

/-- `announcingBusBoarding` leaves the manifests, the statistics and the luggage as they
are. -/
theorem announcingBusBoarding_frame (sh : SHARED_DATA) (o : Outcome Unit)
    (h : announcingBusBoarding sh = some o) : sameCounts sh o.sh ∧ sameLuggage sh o.sh := by
  unfold announcingBusBoarding at h
  split at h
  · cases h
  · split at h
    · cases h
    · rename_i s id ups hs
      cases h
      exact summonPassengers_frame sh s id ups hs

theorem summonSeats_untouched (sh : SHARED_DATA) (s : SHARED_DATA) (ups : List Nat)
    (h : summonSeats sh = some (s, ups)) : untouched sh s := by
  have key : ∀ st, summonSeats sh = st →
      ∀ s ups, st = some (s, ups) → untouched sh s := by
    intro st hst
    rw [← hst]
    unfold summonSeats
    apply forUpTo_inv (fun st : Option (SHARED_DATA × List Nat) =>
      ∀ s ups, st = some (s, ups) → untouched sh s)
    · intro i st hst s ups hs
      match st, hst with
      | none, _ => cases hs
      | some (s0, ups0), hst =>
        have h0 := hst s0 ups0 rfl
        dsimp only at hs
        split at hs
        · cases hs
          exact untouched_trans h0 (untouched_of_eq rfl rfl rfl rfl rfl rfl rfl rfl)
        · cases hs
    · intro s ups hs
      cases hs
      exact untouched_refl sh
  exact key _ rfl s ups h

theorem parkTheBusAndLetPassOff_untouched (sh : SHARED_DATA) (o : Outcome Unit)
    (h : parkTheBusAndLetPassOff sh = some o) : untouched sh o.sh := by
  unfold parkTheBusAndLetPassOff at h
  dsimp only at h
  split at h
  · cases h
  · split at h
    · cases h
    · rename_i s ups hs
      cases h
      exact untouched_trans (setDriverStat_untouched sh PARKING_AT_THE_DEPARTURE_TERMINAL)
        (summonSeats_untouched _ s ups hs)

theorem camSearch_nonempty (c : CAM) (val : Nat) (h : camSearch c val = true) :
    camEmpty c = false := by
  cases he : camEmpty c
  · rfl
  · have hn : c.n = 0 := by
      unfold camEmpty at he
      exact beq_iff_eq.mp he
    unfold camSearch at h
    rw [hn] at h
    cases h

/-- What the second critical region of `goCollectABag` leaves as it is, and what it does to the
number of bags the caller holds. -/
theorem goCollectABag_frame (sh : SHARED_DATA) (k id : Nat) :
    (goCollectABag sh k id).sh.fSt.busQueue = sh.fSt.busQueue ∧
    sameCounts sh (goCollectABag sh k id).sh ∧
    (∀ k1 i1,
      ((goCollectABag sh k id).sh.fSt.st.passStat k1 i1).sit = (sh.fSt.st.passStat k1 i1).sit ∧
      ((goCollectABag sh k id).sh.fSt.st.passStat k1 i1).nBagsReal
        = (sh.fSt.st.passStat k1 i1).nBagsReal ∧
      (¬ (k1 = k ∧ i1 = id) →
        ((goCollectABag sh k id).sh.fSt.st.passStat k1 i1).nBagsAct
          = (sh.fSt.st.passStat k1 i1).nBagsAct)) ∧
    (((goCollectABag sh k id).sh.fSt.st.passStat k id).nBagsAct
        = (sh.fSt.st.passStat k id).nBagsAct ∨
      ((goCollectABag sh k id).sh.fSt.st.passStat k id).nBagsAct
        = uinc (sh.fSt.st.passStat k id).nBagsAct) ∧
    ((goCollectABag sh k id).ret = NO →
      ((goCollectABag sh k id).sh.fSt.st.passStat k id).nBagsAct
        < (sh.fSt.st.passStat k id).nBagsReal) := by
  cases hcs : camSearch sh.fSt.convBelt id
  · obtain ⟨h1, h2⟩ := goCollectABag_absent sh k id hcs
    rw [h1, h2]
    refine ⟨rfl, ⟨rfl, rfl, rfl, rfl, rfl, rfl⟩, fun _ _ => ⟨rfl, rfl, fun _ => rfl⟩,
      Or.inl rfl, ?_⟩
    intro h
    split at h
    · exact absurd h (by decide)
    · exact absurd h (by decide)
  · obtain ⟨h1, h2⟩ := goCollectABag_found sh k id (camSearch_nonempty _ _ hcs) hcs
    have hp : ∀ k1 i1, (goCollectABag sh k id).sh.fSt.st.passStat k1 i1
        = if k1 = k ∧ i1 = id then
            { sh.fSt.st.passStat k id with
              nBagsAct := uinc (sh.fSt.st.passStat k id).nBagsAct }
          else sh.fSt.st.passStat k1 i1 := by
      intro k1 i1
      rw [h1]
      exact setPassenger_apply _ k id _ k1 i1
    refine ⟨by rw [h1]; rfl, by rw [h1]; exact ⟨rfl, rfl, rfl, rfl, rfl, rfl⟩, ?_, ?_, ?_⟩
    · intro k1 i1
      rw [hp]
      by_cases hc : k1 = k ∧ i1 = id
      · rw [if_pos hc, hc.1, hc.2]
        exact ⟨rfl, rfl, fun h => absurd ⟨rfl, rfl⟩ h⟩
      · rw [if_neg hc]
        exact ⟨rfl, rfl, fun _ => rfl⟩
    · right
      rw [hp, if_pos ⟨rfl, rfl⟩]
    · intro h
      rw [h2] at h
      rw [hp, if_pos ⟨rfl, rfl⟩]
      split at h
      · assumption
      · exact absurd h (by decide)

/-! ## The three programs run together: the steps -/

theorem passengerStep_cases (sh sh1 : SHARED_DATA) (p : Nat) (pc pc1 : PassengerAt)
    (h : passengerStep sh p pc = some (sh1, pc1)) :
    (∃ k, pc = PassengerAt.arriving k ∧ k < K ∧ sh1 = (whatShouldIDo sh k p).sh ∧
      pc1.begun = k + 1 ∧
      (pc1.collecting = true → pc1 = PassengerAt.atBelt k ∧ (whatShouldIDo sh k p).ret = FDBTC)) ∨
    (∃ k, pc = PassengerAt.atBelt k ∧ sh1 = (goCollectABagArrive sh k p).sh ∧
      pc1 = PassengerAt.called k) ∨
    (∃ k, pc = PassengerAt.called k ∧ sh1 = (goCollectABag sh k p).sh ∧
      pc1.begun = k + 1 ∧
      (pc1.collecting = true → pc1 = PassengerAt.atBelt k ∧ (goCollectABag sh k p).ret = NO)) ∨
    (∃ k, pc = PassengerAt.atTransfer k ∧ sh1 = (takeABus sh k p).sh ∧
      pc1 = PassengerAt.boarding k) ∨
    (untouched sh sh1 ∧ pc.collecting = false ∧ pc1.collecting = false ∧
      pc1.begun = pc.begun) := by
  cases pc with
  | arriving k =>
    left
    simp only [passengerStep] at h
    split at h
    · rename_i hk
      simp only [Option.some.injEq, Prod.mk.injEq] at h
      obtain ⟨h1, h2⟩ := h
      refine ⟨k, rfl, hk, h1.symm, ?_, ?_⟩
      · rw [← h2]
        split
        · rfl
        · split
          · rfl
          · split <;> rfl
      · intro hc
        rw [← h2] at hc ⊢
        split at hc
        · rename_i hr
          rw [if_pos hr]
          exact ⟨rfl, hr⟩
        · split at hc
          · cases hc
          · split at hc <;> cases hc
    · cases h
  | atBelt k =>
    right; left
    simp only [passengerStep, Option.some.injEq, Prod.mk.injEq] at h
    exact ⟨k, rfl, h.1.symm, h.2.symm⟩
  | called k =>
    right; right; left
    simp only [passengerStep, Option.some.injEq, Prod.mk.injEq] at h
    obtain ⟨h1, h2⟩ := h
    refine ⟨k, rfl, h1.symm, ?_, ?_⟩
    · rw [← h2]
      split
      · rfl
      · split <;> rfl
    · intro hc
      rw [← h2] at hc ⊢
      split at hc
      · rename_i hr
        rw [if_pos hr]
        exact ⟨rfl, hr⟩
      · split at hc <;> cases hc
  | atOffice k =>
    right; right; right; right
    simp only [passengerStep, Option.some.injEq, Prod.mk.injEq] at h
    obtain ⟨h1, h2⟩ := h
    rw [← h1, ← h2]
    exact ⟨reportMissingBags_untouched sh k p, rfl, rfl, rfl⟩
  | exiting k =>
    right; right; right; right
    simp only [passengerStep, Option.some.injEq, Prod.mk.injEq] at h
    obtain ⟨h1, h2⟩ := h
    rw [← h1, ← h2]
    exact ⟨goHome_untouched sh k p, rfl, rfl, rfl⟩
  | atTransfer k =>
    right; right; right; left
    simp only [passengerStep, Option.some.injEq, Prod.mk.injEq] at h
    exact ⟨k, rfl, h.1.symm, h.2.symm⟩
  | boarding k =>
    right; right; right; right
    simp only [passengerStep] at h
    cases ho : enterTheBus sh k p with
    | none => rw [ho] at h; cases h
    | some o =>
      rw [ho] at h
      simp only [Option.map_some', Option.some.injEq, Prod.mk.injEq] at h
      obtain ⟨h1, h2⟩ := h
      rw [← h1, ← h2]
      exact ⟨enterTheBus_untouched sh k p o ho, rfl, rfl, rfl⟩
  | riding k =>
    right; right; right; right
    simp only [passengerStep] at h
    cases ho : leaveTheBus sh k p with
    | none => rw [ho] at h; cases h
    | some o =>
      rw [ho] at h
      simp only [Option.map_some', Option.some.injEq, Prod.mk.injEq] at h
      obtain ⟨h1, h2⟩ := h
      rw [← h1, ← h2]
      exact ⟨leaveTheBus_untouched sh k p o ho, rfl, rfl, rfl⟩
  | departing k =>
    right; right; right; right
    simp only [passengerStep, Option.some.injEq, Prod.mk.injEq] at h
    obtain ⟨h1, h2⟩ := h
    rw [← h1, ← h2]
    exact ⟨prepareNextLeg_untouched sh k p, rfl, rfl, rfl⟩

theorem porterStep_cases (sh sh1 : SHARED_DATA) (bag bag1 : BAG) (pc pc1 : PorterAt)
    (h : porterStep sh bag pc = some (sh1, bag1, pc1)) :
    (∃ k, pc = PorterAt.atHold k ∧ sh1 = (tryToCollectABag sh k bag).sh ∧
      pc1.loaded = (if (tryToCollectABag sh k bag).ret.1 = true then 1 else 0) ∧
      pc1.landing = k) ∨
    (∃ k o, pc = PorterAt.carrying k ∧ carryItToAppropriateStore sh k bag = some o ∧
      sh1 = o.sh ∧ pc1 = PorterAt.atHold k) ∨
    (untouched sh sh1 ∧ pc.loaded = 0 ∧ pc1.loaded = 0 ∧
      ((∃ k, pc = PorterAt.resting k ∧ k < K ∧ pc1 = PorterAt.atHold k) ∨
        ∃ k, pc = PorterAt.leavingHold k ∧ pc1 = PorterAt.resting (k + 1))) := by
  cases pc with
  | resting k =>
    right; right
    simp only [porterStep] at h
    split at h
    · rename_i hk
      simp only [Option.some.injEq, Prod.mk.injEq] at h
      obtain ⟨h1, -, h3⟩ := h
      rw [← h1, ← h3]
      exact ⟨takeARest_untouched sh k, rfl, rfl, Or.inl ⟨k, rfl, hk, rfl⟩⟩
    · cases h
  | atHold k =>
    left
    simp only [porterStep, Option.some.injEq, Prod.mk.injEq] at h
    obtain ⟨h1, -, h3⟩ := h
    refine ⟨k, rfl, h1.symm, ?_, ?_⟩
    · rw [← h3]
      split <;> rfl
    · rw [← h3]
      split <;> rfl
  | carrying k =>
    right; left
    simp only [porterStep] at h
    cases ho : carryItToAppropriateStore sh k bag with
    | none => rw [ho] at h; cases h
    | some o =>
      rw [ho] at h
      simp only [Option.map_some', Option.some.injEq, Prod.mk.injEq] at h
      obtain ⟨h1, -, h3⟩ := h
      exact ⟨k, o, rfl, ho, h1.symm, h3.symm⟩
  | leavingHold k =>
    right; right
    simp only [porterStep, Option.some.injEq, Prod.mk.injEq] at h
    obtain ⟨h1, -, h3⟩ := h
    rw [← h1, ← h3]
    exact ⟨noMoreBagsToCollect_untouched sh k, rfl, rfl, Or.inr ⟨k, rfl, rfl⟩⟩

theorem driverStep_cases (sh sh1 : SHARED_DATA) (pc pc1 : DriverAt)
    (h : driverStep sh pc = some (sh1, pc1)) :
    (pc ≠ DriverAt.announcing ∧ untouched sh sh1 ∧
      (pc1 = DriverAt.announcing → queueEmpty sh.fSt.busQueue = false)) ∨
    (pc = DriverAt.announcing ∧ pc1 = DriverAt.forward ∧
      sameCounts sh sh1 ∧ sameLuggage sh sh1) := by
  cases pc with
  | checking =>
    left
    simp only [driverStep, Option.some.injEq, Prod.mk.injEq] at h
    obtain ⟨h1, h2⟩ := h
    rw [← h1]
    refine ⟨by simp, untouched_refl sh, ?_⟩
    intro hp
    rw [hp] at h2
    split at h2 <;> cases h2
  | looking =>
    left
    simp only [driverStep, Option.some.injEq, Prod.mk.injEq] at h
    obtain ⟨h1, h2⟩ := h
    rw [← h1]
    refine ⟨by simp, untouched_refl sh, ?_⟩
    intro hp
    rw [hp] at h2
    split at h2
    · cases h2
    · rename_i hq
      simpa using hq
  | announcing =>
    right
    simp only [driverStep] at h
    cases ho : announcingBusBoarding sh with
    | none => rw [ho] at h; cases h
    | some o =>
      rw [ho] at h
      simp only [Option.map_some', Option.some.injEq, Prod.mk.injEq] at h
      obtain ⟨h1, h2⟩ := h
      rw [← h1]
      exact ⟨rfl, h2.symm, announcingBusBoarding_frame sh o ho⟩
  | forward =>
    left
    simp only [driverStep, Option.some.injEq, Prod.mk.injEq] at h
    obtain ⟨h1, h2⟩ := h
    rw [← h1, ← h2]
    exact ⟨by simp, setDriverStat_untouched sh DRIVING_FORWARD, fun hp => by cases hp⟩
  | unloading =>
    left
    simp only [driverStep] at h
    cases ho : parkTheBusAndLetPassOff sh with
    | none => rw [ho] at h; cases h
    | some o =>
      rw [ho] at h
      simp only [Option.map_some', Option.some.injEq, Prod.mk.injEq] at h
      obtain ⟨h1, h2⟩ := h
      rw [← h1, ← h2]
      exact ⟨by simp, parkTheBusAndLetPassOff_untouched sh o ho, fun hp => by cases hp⟩
  | backward =>
    left
    simp only [driverStep, Option.some.injEq, Prod.mk.injEq] at h
    obtain ⟨h1, h2⟩ := h
    rw [← h1, ← h2]
    exact ⟨by simp, setDriverStat_untouched sh DRIVING_BACKWARD, fun hp => by cases hp⟩
  | parking =>
    left
    simp only [driverStep, Option.some.injEq, Prod.mk.injEq] at h
    obtain ⟨h1, h2⟩ := h
    rw [← h1, ← h2]
    exact ⟨by simp, setDriverStat_untouched sh PARKING_AT_THE_ARRIVAL_TERMINAL,
      fun hp => by cases hp⟩
  | off =>
    simp only [driverStep] at h
    cases h

theorem airportStep_cases (s s1 : Airport) (a : Actor) (h : airportStep s a = some s1) :
    (∃ p, p < N ∧ passengerStep s.sh p (s.passenger p) = some (s1.sh, s1.passenger p) ∧
      (∀ q, q ≠ p → s1.passenger q = s.passenger q) ∧
      s1.porter = s.porter ∧ s1.bag = s.bag ∧ s1.driver = s.driver) ∨
    (porterStep s.sh s.bag s.porter = some (s1.sh, s1.bag, s1.porter) ∧
      s1.passenger = s.passenger ∧ s1.driver = s.driver) ∨
    (driverStep s.sh s.driver = some (s1.sh, s1.driver) ∧
      s1.passenger = s.passenger ∧ s1.porter = s.porter ∧ s1.bag = s.bag) := by
  cases a with
  | passenger p =>
    left
    simp only [airportStep] at h
    split at h
    · rename_i hp
      cases hr : passengerStep s.sh p (s.passenger p) with
      | none => rw [hr] at h; cases h
      | some r =>
        rw [hr] at h
        simp only [Option.map_some', Option.some.injEq] at h
        subst h
        refine ⟨p, hp, ?_, ?_, rfl, rfl, rfl⟩
        · rw [hr]
          show some r = some (r.1, store s.passenger p r.2 p)
          rw [store_apply, if_pos rfl]
        · intro q hq
          show store s.passenger p r.2 q = _
          rw [store_apply, if_neg hq]
    · cases h
  | porter =>
    right; left
    simp only [airportStep] at h
    cases hr : porterStep s.sh s.bag s.porter with
    | none => rw [hr] at h; cases h
    | some r =>
      rw [hr] at h
      simp only [Option.map_some', Option.some.injEq] at h
      subst h
      exact ⟨rfl, rfl, rfl⟩
  | driver =>
    right; right
    simp only [airportStep] at h
    cases hr : driverStep s.sh s.driver with
    | none => rw [hr] at h; cases h
    | some r =>
      rw [hr] at h
      simp only [Option.map_some', Option.some.injEq] at h
      subst h
      exact ⟨rfl, rfl, rfl, rfl⟩

/-- What every step keeps, once it holds, holds after every schedule. -/
theorem airportRun_inv (P : Airport → Prop)
    (hstep : ∀ s s1 a, P s → airportStep s a = some s1 → P s1) :
    ∀ (sched : List Actor) (s s1 : Airport), P s → airportRun s sched = some s1 → P s1 := by
  intro sched
  induction sched with
  | nil =>
    intro s s1 hp h
    simp only [airportRun, Option.some.injEq] at h
    subst h
    exact hp
  | cons a rest ih =>
    intro s s1 hp h
    simp only [airportRun] at h
    cases hs : airportStep s a with
    | none => rw [hs] at h; cases h
    | some s2 =>
      rw [hs] at h
      exact ih s2 s1 (hstep s s2 a hp hs) h

theorem sum_range_update (f g : Nat → Nat) (p : Nat) (hfg : ∀ q, q ≠ p → g q = f q) :
    ∀ n, p < n →
      ((List.range n).map g).sum + f p = ((List.range n).map f).sum + g p := by
  intro n
  induction n with
  | zero => intro h; omega
  | succ n ih =>
    intro h
    rw [List.range_succ, List.map_append, List.map_append, List.sum_append, List.sum_append]
    simp only [List.map_cons, List.map_nil, List.sum_cons, List.sum_nil, Nat.add_zero]
    by_cases hp : p = n
    · subst hp
      have : (List.range p).map g = (List.range p).map f := by
        apply List.map_congr_left
        intro q hq
        exact hfg q (by have := List.mem_range.mp hq; omega)
      rw [this]
      omega
    · have := ih (by omega)
      rw [hfg n (fun h => hp h.symm)]
      omega

theorem sum_range_le (f : Nat → Nat) (b : Nat) :
    ∀ n, (∀ q, q < n → f q ≤ b) → ((List.range n).map f).sum ≤ n * b := by
  intro n
  induction n with
  | zero => intro _; simp
  | succ n ih =>
    intro h
    rw [List.range_succ, List.map_append, List.sum_append]
    simp only [List.map_cons, List.map_nil, List.sum_cons, List.sum_nil, Nat.add_zero]
    have h1 := ih (fun q hq => h q (by omega))
    have h2 := h n (by omega)
    rw [Nat.succ_mul]
    omega

/-- The statistics as the generator leaves them. -/
theorem mainInit_counters (d : Draws) (sh0 : SHARED_DATA) :
    (mainInit d sh0).fSt.nToTPassFD = 0 ∧ (mainInit d sh0).fSt.nToTPassTST = 0 ∧
    (mainInit d sh0).fSt.nToTBagsPCB = 0 ∧ (mainInit d sh0).fSt.nToTBagsPSR = 0 ∧
    (mainInit d sh0).fSt.nToTMBags = 0 :=
  ⟨rfl, rfl, rfl, rfl, rfl⟩

/-! ## The generator: the luggage -/

theorem M_eq : M = 2 := rfl

/-- The loop of the generator over the passengers of landing `k`, after `n` passes: the records
of the other landings are as they were, and no passenger generated so far carries more bags
than `nTot` counts. -/
theorem genPassengers_spec (d : Draws) (k : Nat) (sh : SHARED_DATA)
    (hd : ∀ p, d.rReal k p ≤ M) :
    ∀ n, n ≤ N →
      (∀ k1 p, k1 ≠ k →
        (forUpTo (genPassenger d k) n (sh, 0)).1.fSt.st.passStat k1 p
          = sh.fSt.st.passStat k1 p) ∧
      (forUpTo (genPassenger d k) n (sh, 0)).2 ≤ M * n ∧
      ∀ p, p < n →
        ((forUpTo (genPassenger d k) n (sh, 0)).1.fSt.st.passStat k p).nBagsAct
          ≤ (forUpTo (genPassenger d k) n (sh, 0)).2 := by
  have hM := M_eq
  have hN := N_eq
  intro n
  induction n with
  | zero =>
    intro _
    exact ⟨fun _ _ _ => rfl, Nat.zero_le _, fun p hp => by omega⟩
  | succ n ih =>
    intro hn
    obtain ⟨i1, i2, i3⟩ := ih (by omega)
    show (∀ k1 p, k1 ≠ k →
        (genPassenger d k n (forUpTo (genPassenger d k) n (sh, 0))).1.fSt.st.passStat k1 p = _) ∧
      (genPassenger d k n (forUpTo (genPassenger d k) n (sh, 0))).2 ≤ M * (n + 1) ∧
      ∀ p, p < n + 1 →
        ((genPassenger d k n (forUpTo (genPassenger d k) n (sh, 0))).1.fSt.st.passStat k p).nBagsAct
          ≤ (genPassenger d k n (forUpTo (genPassenger d k) n (sh, 0))).2
    generalize forUpTo (genPassenger d k) n (sh, 0) = s at i1 i2 i3 ⊢
    have hreal := hd n
    have hact : (if (if d.rSit k n < 4 then TRT else FD) = TRT ∨ d.rReal k n = 0 then d.rReal k n
        else if d.rLost k n < 5 then usub (d.rReal k n) 1 else d.rReal k n) ≤ M := by
      by_cases h1 : ((if d.rSit k n < 4 then TRT else FD) = TRT ∨ d.rReal k n = 0)
      · rw [if_pos h1]
        exact hreal
      · rw [if_neg h1]
        by_cases h2 : d.rLost k n < 5
        · rw [if_pos h2]
          have h3 : d.rReal k n ≠ 0 := fun h => h1 (Or.inr h)
          unfold usub
          rw [if_pos (by omega)]
          omega
        · rw [if_neg h2]
          exact hreal
    generalize hA : (if (if d.rSit k n < 4 then TRT else FD) = TRT ∨ d.rReal k n = 0
        then d.rReal k n
        else if d.rLost k n < 5 then usub (d.rReal k n) 1 else d.rReal k n) = act at hact
    have hg : genPassenger d k n s
        = (setPassenger s.1 k n
            { stat := AT_THE_DISEMBARKING_ZONE, sit := if d.rSit k n < 4 then TRT else FD,
              nBagsReal := d.rReal k n, nBagsAct := act }, uadd s.2 act) := by
      unfold genPassenger
      simp only [hA]
    rw [hg]
    have hu : uadd s.2 act = s.2 + act := uadd_of_lt (by rw [hM] at i2 hact; omega)
    refine ⟨?_, ?_, ?_⟩
    · intro k1 p hk1
      show (setPassenger s.1 k n _).fSt.st.passStat k1 p = _
      rw [setPassenger_apply, if_neg (fun h => hk1 h.1)]
      exact i1 k1 p hk1
    · show uadd s.2 act ≤ _
      rw [hu, hM] at *
      omega
    · intro p hp
      show ((setPassenger s.1 k n _).fSt.st.passStat k p).nBagsAct ≤ uadd s.2 act
      rw [setPassenger_apply, hu]
      by_cases hpn : p = n
      · rw [if_pos ⟨rfl, hpn⟩]
        show act ≤ _
        omega
      · rw [if_neg (fun h => hpn h.2)]
        have := i3 p (by omega)
        omega

/-- The body of the loop that fills in the plane load leaves the records of the passengers as
they are, but for the number of bags of passenger `p`, which it resets. -/
theorem fillPassenger_records (k p : Nat) (s : SHARED_DATA × Nat) (k1 p1 : Nat) :
    (fillPassenger k p s).1.fSt.st.passStat k1 p1
      = if k1 = k ∧ p1 = p then { s.1.fSt.st.passStat k p with nBagsAct := 0 }
        else s.1.fSt.st.passStat k1 p1 := by
  have key : ∀ n, (forUpTo (fun _ (t : SHARED_DATA × Nat) =>
      (({ t.1 with fSt := { t.1.fSt with
          plHold := store t.1.fSt.plHold k
            { t.1.fSt.plHold k with
              bag := store (t.1.fSt.plHold k).bag t.2
                { (t.1.fSt.plHold k).bag t.2 with id := p } } } } : SHARED_DATA), uinc t.2))
      n s).1.fSt.st = s.1.fSt.st := by
    intro n
    refine forUpTo_frame (fun t : SHARED_DATA × Nat => t.1.fSt.st) _ ?_ n s
    intro _ _
    rfl
  unfold fillPassenger
  dsimp only
  rw [setPassenger_apply, key]

theorem fillPassengers_spec (k : Nat) (s : SHARED_DATA × Nat) :
    ∀ n,
      (∀ k1 p, k1 ≠ k →
        (forUpTo (fillPassenger k) n s).1.fSt.st.passStat k1 p = s.1.fSt.st.passStat k1 p) ∧
      (∀ p, p < n → ((forUpTo (fillPassenger k) n s).1.fSt.st.passStat k p).nBagsAct = 0) ∧
      (∀ p, ((forUpTo (fillPassenger k) n s).1.fSt.st.passStat k p).nBagsAct = 0 ∨
        (forUpTo (fillPassenger k) n s).1.fSt.st.passStat k p = s.1.fSt.st.passStat k p) := by
  intro n
  induction n with
  | zero => exact ⟨fun _ _ _ => rfl, fun p hp => by omega, fun _ => Or.inr rfl⟩
  | succ n ih =>
    obtain ⟨i1, i2, i3⟩ := ih
    show (∀ k1 p, k1 ≠ k →
        (fillPassenger k n (forUpTo (fillPassenger k) n s)).1.fSt.st.passStat k1 p = _) ∧
      (∀ p, p < n + 1 →
        ((fillPassenger k n (forUpTo (fillPassenger k) n s)).1.fSt.st.passStat k p).nBagsAct = 0) ∧
      (∀ p, ((fillPassenger k n (forUpTo (fillPassenger k) n s)).1.fSt.st.passStat k p).nBagsAct = 0
        ∨ (fillPassenger k n (forUpTo (fillPassenger k) n s)).1.fSt.st.passStat k p
          = s.1.fSt.st.passStat k p)
    refine ⟨?_, ?_, ?_⟩
    · intro k1 p hk1
      rw [fillPassenger_records, if_neg (fun h => hk1 h.1)]
      exact i1 k1 p hk1
    · intro p hp
      rw [fillPassenger_records]
      by_cases hpn : p = n
      · rw [if_pos ⟨rfl, hpn⟩]
      · rw [if_neg (fun h => hpn h.2)]
        exact i2 p (by omega)
    · intro p
      rw [fillPassenger_records]
      by_cases hpn : p = n
      · left
        rw [if_pos ⟨rfl, hpn⟩]
      · rw [if_neg (fun h => hpn h.2)]
        exact i3 p

theorem fillLoad_spec (k nTot : Nat) :
    ∀ (r : Nat) (s : SHARED_DATA × Nat),
      (∀ k1 p, k1 ≠ k →
        (fillLoad k nTot r s).1.fSt.st.passStat k1 p = s.1.fSt.st.passStat k1 p) ∧
      (0 < r → s.2 < nTot →
        ∀ p, p < N → ((fillLoad k nTot r s).1.fSt.st.passStat k p).nBagsAct = 0) ∧
      ((∀ p, p < N → (s.1.fSt.st.passStat k p).nBagsAct = 0) →
        ∀ p, p < N → ((fillLoad k nTot r s).1.fSt.st.passStat k p).nBagsAct = 0) := by
  intro r
  induction r with
  | zero =>
    intro s
    exact ⟨fun _ _ _ => rfl, fun h => by omega, fun h => h⟩
  | succ r ih =>
    intro s
    obtain ⟨f1, f2, f3⟩ := fillPassengers_spec k s N
    by_cases hlt : s.2 < nTot
    · have he : fillLoad k nTot (r + 1) s = fillLoad k nTot r (forUpTo (fillPassenger k) N s) := by
        simp only [fillLoad, if_pos hlt]
      rw [he]
      obtain ⟨i1, -, i3⟩ := ih (forUpTo (fillPassenger k) N s)
      refine ⟨?_, fun _ _ => i3 f2, fun _ => i3 f2⟩
      intro k1 p hk1
      rw [i1 k1 p hk1, f1 k1 p hk1]
    · have he : fillLoad k nTot (r + 1) s = s := by
        simp only [fillLoad, if_neg hlt]
      rw [he]
      exact ⟨fun _ _ _ => rfl, fun _ h => absurd h hlt, fun h => h⟩

/-- The generator, for landing `k`: no passenger of the landing holds a bag after it, and the
records of the other landings are as they were. -/
theorem genLanding_luggage (d : Draws) (k : Nat) (sh : SHARED_DATA)
    (hd : ∀ p, d.rReal k p ≤ M) :
    (∀ k1 p, k1 ≠ k →
      (genLanding d k sh).fSt.st.passStat k1 p = sh.fSt.st.passStat k1 p) ∧
    ∀ p, p < N → ((genLanding d k sh).fSt.st.passStat k p).nBagsAct = 0 := by
  obtain ⟨g1, g2, g3⟩ := genPassengers_spec d k sh hd N (le_refl _)
  unfold genLanding
  dsimp only
  generalize forUpTo (genPassenger d k) N (sh, 0) = s1 at g1 g2 g3 ⊢
  obtain ⟨l1, l2, l3⟩ := fillLoad_spec k s1.2 (s1.2 + 1)
    (({ s1.1 with fSt := { s1.1.fSt with
        plHold := store s1.1.fSt.plHold k { s1.1.fSt.plHold k with nBags := s1.2 } } } :
      SHARED_DATA), 0)
  refine ⟨?_, ?_⟩
  · intro k1 p hk1
    rw [l1 k1 p hk1]
    exact g1 k1 p hk1
  · by_cases h0 : s1.2 = 0
    · apply l3
      intro p hp
      have := g3 p hp
      show (s1.1.fSt.st.passStat k p).nBagsAct = 0
      omega
    · exact l2 (Nat.succ_pos _) (Nat.pos_of_ne_zero h0)

/-- The luggage as the generator leaves it, the draws for the number of bags being at most
`M`: no passenger of any landing holds a bag. -/
theorem mainInit_luggage (d : Draws) (sh0 : SHARED_DATA) (hd : ∀ k p, d.rReal k p ≤ M) :
    ∀ k p, k < K → p < N → ((mainInit d sh0).fSt.st.passStat k p).nBagsAct = 0 := by
  rw [(mainInit_landings d sh0 _ rfl).2.1]
  have key : ∀ (s0 : SHARED_DATA) (n : Nat), ∀ k p, k < n → p < N →
      ((forUpTo (genLanding d) n s0).fSt.st.passStat k p).nBagsAct = 0 := by
    intro s0 n
    induction n with
    | zero => intro k p hk; omega
    | succ n ih =>
      intro k p hk hp
      show ((genLanding d n (forUpTo (genLanding d) n s0)).fSt.st.passStat k p).nBagsAct = 0
      obtain ⟨g1, g2⟩ := genLanding_luggage d n (forUpTo (genLanding d) n s0) (hd n)
      by_cases hkn : k = n
      · rw [hkn]
        exact g2 p hp
      · rw [g1 k p hkn]
        exact ih k p (by omega) hp
  exact key _ K

/-! ## The totals of the passengers -/

theorem totalsInv_step (s s1 : Airport) (a : Actor) (hinv : totalsInv s)
    (h : airportStep s a = some s1) : totalsInv s1 := by
  obtain ⟨hwf, hsum⟩ := hinv
  have hK : K = 5 := rfl
  have hN := N_eq
  rcases airportStep_cases s s1 a h with ⟨p, hp, hstep, hothers, -, -, -⟩ | ⟨hstep, hpass, -⟩ |
    ⟨hstep, hpass, -, -⟩
  · have hupd : ((List.range N).map (fun q => (s1.passenger q).begun)).sum
          + (s.passenger p).begun
        = ((List.range N).map (fun q => (s.passenger q).begun)).sum
          + (s1.passenger p).begun :=
      sum_range_update (fun q => (s.passenger q).begun)
        (fun q => (s1.passenger q).begun) p
        (fun q hq => congrArg PassengerAt.begun (hothers q hq)) N hp
    have hbound : ((List.range N).map (fun q => (s.passenger q).begun)).sum ≤ 30 :=
      Nat.le_trans (sum_range_le (fun q => (s.passenger q).begun) K N hwf) (by decide)
    have hwf1 : (s1.passenger p).begun ≤ K → ∀ q, q < N → (s1.passenger q).begun ≤ K := by
      intro hb q hq
      by_cases hqp : q = p
      · rw [hqp]; exact hb
      · rw [hothers q hqp]; exact hwf q hq
    rcases passengerStep_cases _ _ _ _ _ hstep with
      ⟨k, hpc, hk, hsh, hb, -⟩ | ⟨k, hpc, hsh, hpc1⟩ | ⟨k, hpc, hsh, hb, -⟩ |
      ⟨k, hpc, hsh, hpc1⟩ | ⟨hun, -, -, hb⟩
    · obtain ⟨t1, t2, -⟩ := whatShouldIDo_totals s.sh k p
      have hpb : (s.passenger p).begun = k := by rw [hpc]; rfl
      refine ⟨hwf1 (by rw [hb]; omega), ?_⟩
      rw [hsh, t1, t2]
      have e1 : uinc s.sh.fSt.nToTPassTST = s.sh.fSt.nToTPassTST + 1 := uinc_of_lt (by omega)
      have e2 : uinc s.sh.fSt.nToTPassFD = s.sh.fSt.nToTPassFD + 1 := uinc_of_lt (by omega)
      split
      · rw [e1]; omega
      · rw [e2]; omega
    · obtain ⟨-, ⟨-, -, -, -, c5, c6⟩, -⟩ := goCollectABagArrive_untouched s.sh k p
      have hpb : (s1.passenger p).begun = (s.passenger p).begun := by rw [hpc, hpc1]; rfl
      refine ⟨hwf1 (by rw [hpb]; exact hwf p hp), ?_⟩
      rw [hsh, c5, c6]
      omega
    · obtain ⟨-, ⟨-, -, -, -, c5, c6⟩, -⟩ := goCollectABag_frame s.sh k p
      have hpb : (s1.passenger p).begun = (s.passenger p).begun := by rw [hpc, hb]; rfl
      refine ⟨hwf1 (by rw [hpb]; exact hwf p hp), ?_⟩
      rw [hsh, c5, c6]
      omega
    · obtain ⟨-, ⟨-, -, -, -, c5, c6⟩, -⟩ := takeABus_frame s.sh k p
      have hpb : (s1.passenger p).begun = (s.passenger p).begun := by rw [hpc, hpc1]; rfl
      refine ⟨hwf1 (by rw [hpb]; exact hwf p hp), ?_⟩
      rw [hsh, c5, c6]
      omega
    · obtain ⟨-, ⟨-, -, -, -, c5, c6⟩, -⟩ := hun
      refine ⟨hwf1 (by rw [hb]; exact hwf p hp), ?_⟩
      rw [c5, c6]
      omega
  · refine ⟨by rw [hpass]; exact hwf, ?_⟩
    rw [hpass, ← hsum]
    rcases porterStep_cases _ _ _ _ _ _ hstep with
      ⟨k, -, hsh, -, -⟩ | ⟨k, o, -, ho, hsh, -⟩ | ⟨hun, -, -, -⟩
    · obtain ⟨-, -, -, -, c5, c6, -⟩ := tryToCollectABag_frame s.sh k s.bag
      rw [hsh, c5, c6]
    · obtain ⟨-, -, -, c5, c6, -⟩ := carryItToAppropriateStore_frame s.sh k s.bag o ho
      rw [hsh, c5, c6]
    · obtain ⟨-, ⟨-, -, -, -, c5, c6⟩, -⟩ := hun
      rw [c5, c6]
  · refine ⟨by rw [hpass]; exact hwf, ?_⟩
    rw [hpass, ← hsum]
    rcases driverStep_cases _ _ _ _ hstep with ⟨-, hun, -⟩ | ⟨-, -, hc, -⟩
    · obtain ⟨-, ⟨-, -, -, -, c5, c6⟩, -⟩ := hun
      rw [c5, c6]
    · obtain ⟨-, -, -, -, c5, c6⟩ := hc
      rw [c5, c6]

/-! ## The driver and the queue -/

theorem queueIn_nonempty (q : QUEUE) (val : Nat) : queueEmpty (queueIn q val) = false := by
  unfold queueIn
  split
  · rename_i hf
    unfold queueEmpty
    rw [hf]
    rfl
  · unfold queueEmpty
    dsimp only
    cases decide (uinc q.ii % N = q.ri) <;> rfl

theorem boardingInv_step (s s1 : Airport) (a : Actor) (hinv : boardingInv s)
    (h : airportStep s a = some s1) : boardingInv s1 := by
  unfold boardingInv at hinv ⊢
  rcases airportStep_cases s s1 a h with ⟨p, hp, hstep, -, -, -, hdr⟩ | ⟨hstep, -, hdr⟩ |
    ⟨hstep, -, -, -⟩
  · rw [hdr]
    intro hd
    have h0 := hinv hd
    rcases passengerStep_cases _ _ _ _ _ hstep with
      ⟨k, -, -, hsh, -, -⟩ | ⟨k, -, hsh, -⟩ | ⟨k, -, hsh, -, -⟩ |
      ⟨k, -, hsh, -⟩ | ⟨hun, -, -, -⟩
    · rw [hsh, (whatShouldIDo_frame s.sh k p).1]; exact h0
    · rw [hsh, (goCollectABagArrive_untouched s.sh k p).1]; exact h0
    · rw [hsh, (goCollectABag_frame s.sh k p).1]; exact h0
    · rw [hsh, (takeABus_frame s.sh k p).1]; exact queueIn_nonempty _ _
    · rw [hun.1]; exact h0
  · rw [hdr]
    intro hd
    have h0 := hinv hd
    rcases porterStep_cases _ _ _ _ _ _ hstep with
      ⟨k, -, hsh, -, -⟩ | ⟨k, o, -, ho, hsh, -⟩ | ⟨hun, -, -, -⟩
    · rw [hsh, (tryToCollectABag_frame s.sh k s.bag).1]; exact h0
    · rw [hsh, (carryItToAppropriateStore_frame s.sh k s.bag o ho).1]; exact h0
    · rw [hun.1]; exact h0
  · intro hd
    rcases driverStep_cases _ _ _ _ hstep with ⟨-, hun, hq⟩ | ⟨-, hf, -, -⟩
    · rw [hun.1]; exact hq hd
    · rw [hf] at hd; cases hd

/-! ## The bags carried by the porter -/

theorem holdTotal_congr {s t : SHARED_DATA} (h : t.fSt.plHold = s.fSt.plHold) :
    holdTotal t = holdTotal s := by
  unfold holdTotal
  rw [h]

theorem bagsInv_of_eq (t0 : Nat) (s s1 : Airport) (c1 : s1.sh.fSt.plHold = s.sh.fSt.plHold)
    (c2 : s1.sh.fSt.nToTBagsPCB = s.sh.fSt.nToTBagsPCB)
    (c3 : s1.sh.fSt.nToTBagsPSR = s.sh.fSt.nToTBagsPSR)
    (c4 : s1.sh.fSt.nToTMBags = s.sh.fSt.nToTMBags)
    (hp : s1.porter = s.porter) (hinv : bagsInv t0 s) : bagsInv t0 s1 := by
  unfold bagsInv at hinv ⊢
  rw [hp, c2, c3, c4, holdTotal_congr c1]
  exact hinv

theorem bagsInv_of_counts (t0 : Nat) (s s1 : Airport) (hc : sameCounts s.sh s1.sh)
    (hp : s1.porter = s.porter) (hinv : bagsInv t0 s) : bagsInv t0 s1 :=
  bagsInv_of_eq t0 s s1 hc.1 hc.2.1 hc.2.2.1 hc.2.2.2.1 hp hinv

theorem bagsInv_step (t0 : Nat) (s s1 : Airport) (a : Actor) (hinv : bagsInv t0 s)
    (h : airportStep s a = some s1) : bagsInv t0 s1 := by
  rcases airportStep_cases s s1 a h with ⟨p, hp, hstep, -, hpo, -, -⟩ | ⟨hstep, -, -⟩ |
    ⟨hstep, -, hpo, -⟩
  · rcases passengerStep_cases _ _ _ _ _ hstep with
      ⟨k, -, -, hsh, -, -⟩ | ⟨k, -, hsh, -⟩ | ⟨k, -, hsh, -, -⟩ |
      ⟨k, -, hsh, -⟩ | ⟨hun, -, -, -⟩
    · obtain ⟨-, f2, f3, f4, f5⟩ := whatShouldIDo_frame s.sh k p
      rw [← hsh] at f2 f3 f4 f5
      exact bagsInv_of_eq t0 s s1 f2 f3 f4 f5 hpo hinv
    · apply bagsInv_of_counts t0 s s1 _ hpo hinv
      rw [hsh]; exact (goCollectABagArrive_untouched s.sh k p).2.1
    · apply bagsInv_of_counts t0 s s1 _ hpo hinv
      rw [hsh]; exact (goCollectABag_frame s.sh k p).2.1
    · apply bagsInv_of_counts t0 s s1 _ hpo hinv
      rw [hsh]; exact (takeABus_frame s.sh k p).2.1
    · exact bagsInv_of_counts t0 s s1 hun.2.1 hpo hinv
  · obtain ⟨hin, hle⟩ := hinv
    rcases porterStep_cases _ _ _ _ _ _ hstep with
      ⟨k, hpc, hsh, hload, hland⟩ | ⟨k, o, hpc, ho, hsh, hpc1⟩ | ⟨hun, hl0, hl1, hpcs⟩
    · have hk : k < K := by
        have := hin (by rw [hpc]; rfl)
        rw [hpc] at this
        exact this
      obtain ⟨-, f1, f2, f3, -, -, -, hne, he⟩ := tryToCollectABag_frame s.sh k s.bag
      refine ⟨fun _ => by rw [hland]; exact hk, ?_⟩
      rw [hload, hsh, f1, f2, f3]
      have hl : s.porter.loaded = 0 := by rw [hpc]; rfl
      rw [hl] at hle
      by_cases hn : (s.sh.fSt.plHold k).nBags = 0
      · obtain ⟨r1, r2⟩ := he hn
        rw [r1, holdTotal_congr r2]
        simpa using hle
      · obtain ⟨r1, r2⟩ := hne hn
        rw [r1, if_pos rfl]
        have hupd : holdTotal (tryToCollectABag s.sh k s.bag).sh + (s.sh.fSt.plHold k).nBags
            = holdTotal s.sh + ((s.sh.fSt.plHold k).nBags - 1) := by
          unfold holdTotal
          have := sum_range_update (fun q => (s.sh.fSt.plHold q).nBags)
            (fun q => ((tryToCollectABag s.sh k s.bag).sh.fSt.plHold q).nBags) k
            (fun q hq => by
              show ((tryToCollectABag s.sh k s.bag).sh.fSt.plHold q).nBags = _
              rw [r2, store_apply, if_neg hq]) K hk
          have e : ((tryToCollectABag s.sh k s.bag).sh.fSt.plHold k).nBags
              = (s.sh.fSt.plHold k).nBags - 1 := by
            rw [r2, store_apply, if_pos rfl]
          rw [← e]
          exact this
        omega
    · have hk : k < K := by
        have := hin (by rw [hpc]; rfl)
        rw [hpc] at this
        exact this
      obtain ⟨-, f1, f2, -, -, -, f6⟩ := carryItToAppropriateStore_frame s.sh k s.bag o ho
      refine ⟨fun _ => by rw [hpc1]; exact hk, ?_⟩
      have hl : s.porter.loaded = 1 := by rw [hpc]; rfl
      have hl1 : s1.porter.loaded = 0 := by rw [hpc1]; rfl
      rw [hl] at hle
      rw [hl1, hsh, f2, holdTotal_congr f1]
      omega
    · obtain ⟨-, ⟨c1, c2, c3, c4, -, -⟩, -⟩ := hun
      refine ⟨?_, ?_⟩
      · intro hi
        rcases hpcs with ⟨k, -, hk, hpc1⟩ | ⟨k, -, hpc1⟩
        · rw [hpc1]; exact hk
        · rw [hpc1] at hi; cases hi
      · rw [hl0] at hle
        rw [hl1, c2, c3, c4, holdTotal_congr c1]
        exact hle
  · apply bagsInv_of_counts t0 s s1 _ hpo hinv
    rcases driverStep_cases _ _ _ _ hstep with ⟨-, hun, -⟩ | ⟨-, -, hc, -⟩
    · exact hun.2.1
    · exact hc

/-! ## The bags held by the passengers -/

theorem luggageInv_of_same (s s1 : Airport) (hl : sameLuggage s.sh s1.sh)
    (hpc : ∀ p, p < N → (s.passenger p).begun ≤ (s1.passenger p).begun ∧
      ((s1.passenger p).collecting = true →
        (s.passenger p).collecting = true ∧
        (s1.passenger p).landing = (s.passenger p).landing))
    (hinv : luggageInv s) : luggageInv s1 := by
  obtain ⟨hA, hB⟩ := hinv
  refine ⟨?_, ?_⟩
  · intro k p hk hp
    obtain ⟨-, l2, l3⟩ := hl k p
    rw [l2, l3]
    exact hA k p hk hp
  · intro p hp
    obtain ⟨b1, b2⟩ := hB p hp
    obtain ⟨c1, c2⟩ := hpc p hp
    refine ⟨?_, ?_⟩
    · intro k hb hk
      rw [(hl k p).2.2]
      exact b1 k (by omega) hk
    · intro hc
      obtain ⟨d1, d2⟩ := c2 hc
      obtain ⟨e1, e2⟩ := b2 d1
      rw [d2, (hl _ p).2.2, (hl _ p).2.1]
      exact ⟨e1, e2⟩

theorem uinc_le (x : Nat) : uinc x ≤ x + 1 := by
  unfold uinc
  split <;> omega

theorem luggageInv_step (s s1 : Airport) (a : Actor) (hinv : luggageInv s)
    (h : airportStep s a = some s1) : luggageInv s1 := by
  rcases airportStep_cases s s1 a h with ⟨p, hp, hstep, hothers, -, -, -⟩ | ⟨hstep, hpass, -⟩ |
    ⟨hstep, hpass, -, -⟩
  · have hsame : ∀ q, q < N → q ≠ p → (s.passenger q).begun ≤ (s1.passenger q).begun ∧
        ((s1.passenger q).collecting = true →
          (s.passenger q).collecting = true ∧
          (s1.passenger q).landing = (s.passenger q).landing) := by
      intro q _ hq
      rw [hothers q hq]
      exact ⟨le_refl _, fun hc => ⟨hc, rfl⟩⟩
    rcases passengerStep_cases _ _ _ _ _ hstep with
      ⟨k, hpc, hk, hsh, hb, hcol⟩ | ⟨k, hpc, hsh, hpc1⟩ | ⟨k, hpc, hsh, hb, hcol⟩ |
      ⟨k, hpc, hsh, hpc1⟩ | ⟨hun, hc0, hc1, hb⟩
    · -- the check-in
      have hl : sameLuggage s.sh s1.sh := by rw [hsh]; exact whatShouldIDo_luggage s.sh k p
      obtain ⟨hA, hB⟩ := hinv
      refine ⟨?_, ?_⟩
      · intro k1 p1 hk1 hp1
        rw [(hl k1 p1).2.1, (hl k1 p1).2.2]
        exact hA k1 p1 hk1 hp1
      · intro q hq
        by_cases hqp : q = p
        · subst hqp
          obtain ⟨b1, -⟩ := hB q hq
          rw [hpc] at b1
          refine ⟨?_, ?_⟩
          · intro k1 hk1 hk1K
            rw [(hl k1 q).2.2]
            exact b1 k1 (by rw [hb] at hk1; show k ≤ k1; omega) hk1K
          · intro hc
            obtain ⟨e1, e2⟩ := hcol hc
            rw [e1]
            show k < K ∧ (s1.sh.fSt.st.passStat k q).nBagsAct < (s1.sh.fSt.st.passStat k q).nBagsReal
            rw [(hl k q).2.2, (hl k q).2.1, b1 k (le_refl _) hk]
            refine ⟨hk, ?_⟩
            have hr := (whatShouldIDo_totals s.sh k q).2.2
            rw [e2] at hr
            apply Nat.pos_of_ne_zero
            intro h0
            rw [h0] at hr
            split at hr
            · exact absurd hr (by decide)
            · exact absurd hr (by decide)
        · obtain ⟨c1, c2⟩ := hsame q hq hqp
          obtain ⟨b1, b2⟩ := hB q hq
          refine ⟨?_, ?_⟩
          · intro k1 hk1 hk1K
            rw [(hl k1 q).2.2]
            exact b1 k1 (by omega) hk1K
          · intro hc
            obtain ⟨d1, d2⟩ := c2 hc
            obtain ⟨e1, e2⟩ := b2 d1
            rw [d2, (hl _ q).2.2, (hl _ q).2.1]
            exact ⟨e1, e2⟩
    · apply luggageInv_of_same s s1 _ _ hinv
      · rw [hsh]; exact (goCollectABagArrive_untouched s.sh k p).2.2
      · intro q hq
        by_cases hqp : q = p
        · subst hqp
          rw [hpc, hpc1]
          exact ⟨le_refl _, fun _ => ⟨rfl, rfl⟩⟩
        · exact hsame q hq hqp
    · -- the second critical region of goCollectABag
      obtain ⟨-, -, hrec, hact, hno⟩ := goCollectABag_frame s.sh k p
      rw [← hsh] at hrec hact hno
      obtain ⟨hA, hB⟩ := hinv
      obtain ⟨bp1, bp2⟩ := hB p hp
      rw [hpc] at bp1 bp2
      obtain ⟨hkK, hlt⟩ := bp2 rfl
      have hkK1 : k < K := hkK
      have hlt1 : (s.sh.fSt.st.passStat k p).nBagsAct < (s.sh.fSt.st.passStat k p).nBagsReal := hlt
      refine ⟨?_, ?_⟩
      · intro k1 p1 hk1 hp1
        obtain ⟨-, r2, r3⟩ := hrec k1 p1
        rw [r2]
        by_cases hc : k1 = k ∧ p1 = p
        · rw [hc.1, hc.2]
          have hu := uinc_le (s.sh.fSt.st.passStat k p).nBagsAct
          rcases hact with e | e <;> rw [e] <;> omega
        · rw [r3 hc]
          exact hA k1 p1 hk1 hp1
      · intro q hq
        by_cases hqp : q = p
        · subst hqp
          refine ⟨?_, ?_⟩
          · intro k1 hk1 hk1K
            rw [hb] at hk1
            rw [(hrec k1 q).2.2 (fun hc => by omega)]
            exact bp1 k1 (by show k + 1 ≤ k1; omega) hk1K
          · intro hc
            obtain ⟨e1, e2⟩ := hcol hc
            rw [e1]
            show k < K ∧ (s1.sh.fSt.st.passStat k q).nBagsAct < (s1.sh.fSt.st.passStat k q).nBagsReal
            rw [(hrec k q).2.1]
            exact ⟨hkK1, hno e2⟩
        · obtain ⟨c1, c2⟩ := hsame q hq hqp
          obtain ⟨b1, b2⟩ := hB q hq
          refine ⟨?_, ?_⟩
          · intro k1 hk1 hk1K
            rw [(hrec k1 q).2.2 (fun hc => hqp hc.2)]
            exact b1 k1 (by omega) hk1K
          · intro hc
            obtain ⟨d1, d2⟩ := c2 hc
            obtain ⟨e1, e2⟩ := b2 d1
            rw [d2, (hrec _ q).2.2 (fun hc => hqp hc.2), (hrec _ q).2.1]
            exact ⟨e1, e2⟩
    · apply luggageInv_of_same s s1 _ _ hinv
      · rw [hsh]; exact (takeABus_frame s.sh k p).2.2
      · intro q hq
        by_cases hqp : q = p
        · subst hqp
          rw [hpc, hpc1]
          exact ⟨le_refl _, fun hc => by cases hc⟩
        · exact hsame q hq hqp
    · apply luggageInv_of_same s s1 hun.2.2 _ hinv
      intro q hq
      by_cases hqp : q = p
      · subst hqp
        refine ⟨by rw [hb], fun hc => ?_⟩
        rw [hc1] at hc
        cases hc
      · exact hsame q hq hqp
  · apply luggageInv_of_same s s1 _ _ hinv
    · rcases porterStep_cases _ _ _ _ _ _ hstep with
        ⟨k, -, hsh, -, -⟩ | ⟨k, o, -, ho, hsh, -⟩ | ⟨hun, -, -, -⟩
      · rw [hsh]; exact (tryToCollectABag_frame s.sh k s.bag).2.2.2.2.2.2.1
      · rw [hsh]; exact (carryItToAppropriateStore_frame s.sh k s.bag o ho).2.2.2.2.2.1
      · exact hun.2.2
    · intro q _
      rw [hpass]
      exact ⟨le_refl _, fun hc => ⟨hc, rfl⟩⟩
  · apply luggageInv_of_same s s1 _ _ hinv
    · rcases driverStep_cases _ _ _ _ hstep with ⟨-, hun, -⟩ | ⟨-, -, -, hl⟩
      · exact hun.2.2
      · exact hl
    · intro q _
      rw [hpass]
      exact ⟨le_refl _, fun hc => ⟨hc, rfl⟩⟩

theorem sum_range_const (f : Nat → Nat) (c : Nat) :
    ∀ n, (∀ q, q < n → f q = c) → ((List.range n).map f).sum = n * c := by
  intro n
  induction n with
  | zero => intro _; simp
  | succ n ih =>
    intro h
    rw [List.range_succ, List.map_append, List.sum_append]
    simp only [List.map_cons, List.map_nil, List.sum_cons, List.sum_nil, Nat.add_zero]
    rw [ih (fun q hq => h q (by omega)), h n (by omega), Nat.succ_mul]

theorem totalsInv_start (d : Draws) (sh0 : SHARED_DATA) : totalsInv (airportStart d sh0) := by
  obtain ⟨h3, h4, -, -, -⟩ := mainInit_counters d sh0
  refine ⟨fun _ _ => Nat.zero_le _, ?_⟩
  show (mainInit d sh0).fSt.nToTPassFD + (mainInit d sh0).fSt.nToTPassTST = _
  rw [h3, h4]
  rfl

/-- C23: at any point of a run from the state the generator leaves, a call of `whatShouldIDo`
increments exactly one of the two totals of passengers by one -- `nToTPassTST` when the caller
is in transit, `nToTPassFD` otherwise -- and leaves the other as it is; no other operation
changes them, so that the two totals add up to the number of calls of `whatShouldIDo` made so
far, and to `K * N` once every passenger has gone through her `K` landings. -/
theorem passenger_totals_add_up (d : Draws) (sh0 : SHARED_DATA) (sched : List Actor)
    (s : Airport) (hrun : airportRun (airportStart d sh0) sched = some s) :
    (∀ k id,
      ((s.sh.fSt.st.passStat k id).sit = TRT →
        (whatShouldIDo s.sh k id).sh.fSt.nToTPassTST = s.sh.fSt.nToTPassTST + 1 ∧
        (whatShouldIDo s.sh k id).sh.fSt.nToTPassFD = s.sh.fSt.nToTPassFD) ∧
      ((s.sh.fSt.st.passStat k id).sit ≠ TRT →
        (whatShouldIDo s.sh k id).sh.fSt.nToTPassFD = s.sh.fSt.nToTPassFD + 1 ∧
        (whatShouldIDo s.sh k id).sh.fSt.nToTPassTST = s.sh.fSt.nToTPassTST)) ∧
    s.sh.fSt.nToTPassFD + s.sh.fSt.nToTPassTST
      = ((List.range N).map (fun p => (s.passenger p).begun)).sum ∧
    ((∀ p, p < N → s.passenger p = PassengerAt.arriving K) →
      s.sh.fSt.nToTPassFD + s.sh.fSt.nToTPassTST = K * N) := by
  have hinv := airportRun_inv totalsInv totalsInv_step sched _ s (totalsInv_start d sh0) hrun
  obtain ⟨hwf, hsum⟩ := hinv
  have hbound : ((List.range N).map (fun q => (s.passenger q).begun)).sum ≤ 30 :=
    Nat.le_trans (sum_range_le (fun q => (s.passenger q).begun) K N hwf) (by decide)
  refine ⟨?_, hsum, ?_⟩
  · intro k id
    obtain ⟨t1, t2, -⟩ := whatShouldIDo_totals s.sh k id
    constructor
    · intro h
      rw [t1, t2, if_pos h, if_pos h, uinc_of_lt (by omega)]
      exact ⟨rfl, rfl⟩
    · intro h
      rw [t1, t2, if_neg h, if_neg h, uinc_of_lt (by omega)]
      exact ⟨rfl, rfl⟩
  · intro hall
    rw [hsum, sum_range_const _ K N (fun q hq => by rw [hall q hq]; rfl), Nat.mul_comm]

set_option maxRecDepth 20000 in
/-- Every passenger goes home at once in each of the five landings: the run is complete and
the two totals add up to thirty. -/
theorem passenger_totals_add_up_witness :
    ((airportRun (airportStart allHome zeroShared) allGoHome).getD
        (airportStart allHome zeroShared)).sh.fSt.nToTPassFD
      + ((airportRun (airportStart allHome zeroShared) allGoHome).getD
        (airportStart allHome zeroShared)).sh.fSt.nToTPassTST = K * N :=
  (passenger_totals_add_up allHome zeroShared allGoHome _
    (some_getD_of_isSome _ _ (by decide))).2.2 (by decide)

theorem boardingInv_start (d : Draws) (sh0 : SHARED_DATA) : boardingInv (airportStart d sh0) := by
  intro h
  cases h

/-- C28: the driver never announces the boarding on an empty queue.  In every run of the three
programs from the state the generator leaves, whenever the driver has left `hasDaysWorkEnded`
with the value false and is about to call `announcingBusBoarding`, the queue is not empty
(the passengers only insert into it and nobody but the driver retrieves from it): the call goes
past the `queue is empty` test into its loop. -/
theorem driver_announces_on_nonempty_queue (d : Draws) (sh0 : SHARED_DATA)
    (sched : List Actor) (s : Airport) (hrun : airportRun (airportStart d sh0) sched = some s)
    (hdr : s.driver = DriverAt.announcing) :
    queueEmpty s.sh.fSt.busQueue = false ∧
    announcingBusBoarding s.sh
      = (summonPassengers s.sh).map
          (fun r => { sh := r.1, ups := r.2.2, down := some r.1.waitingPass, ret := () }) := by
  have hinv := airportRun_inv boardingInv boardingInv_step sched _ s (boardingInv_start d sh0) hrun
  have hq := hinv hdr
  refine ⟨hq, ?_⟩
  unfold announcingBusBoarding
  rw [hq, if_neg (by simp)]
  cases summonPassengers s.sh with
  | none => rfl
  | some r => rfl

set_option maxRecDepth 20000 in
/-- The driver finds the day not ended; passenger 0, in transit, checks in and queues for the
bus; the driver finds the queue not empty. -/
theorem driver_announces_on_nonempty_queue_witness :
    queueEmpty ((airportRun (airportStart allTransit zeroShared)
        [Actor.driver, Actor.passenger 0, Actor.passenger 0, Actor.driver]).getD
      (airportStart allTransit zeroShared)).sh.fSt.busQueue = false :=
  (driver_announces_on_nonempty_queue allTransit zeroShared
    [Actor.driver, Actor.passenger 0, Actor.passenger 0, Actor.driver] _
    (some_getD_of_isSome _ _ (by decide)) (by decide)).1

theorem bagsInv_start (d : Draws) (sh0 : SHARED_DATA) :
    bagsInv (holdTotal (mainInit d sh0)) (airportStart d sh0) := by
  obtain ⟨-, -, h5, h6, h7⟩ := mainInit_counters d sh0
  constructor
  · intro h
    cases h
  · show (mainInit d sh0).fSt.nToTBagsPCB + (mainInit d sh0).fSt.nToTBagsPSR
      + (mainInit d sh0).fSt.nToTMBags + 0 + holdTotal (mainInit d sh0) ≤ _
    rw [h5, h6, h7]
    omega

/-- C29: in every state that a run of the three programs reaches from the state the generator
leaves, the bags put on the belt, the bags put in the storeroom and the bags counted as
missing are together at most the bags the generator listed in the `K` manifests; indeed they,
the bag the porter holds and the bags still listed are. -/
theorem bags_carried_at_most_listed (d : Draws) (sh0 : SHARED_DATA) (sched : List Actor)
    (s : Airport) (hrun : airportRun (airportStart d sh0) sched = some s) :
    s.sh.fSt.nToTBagsPCB + s.sh.fSt.nToTBagsPSR + s.sh.fSt.nToTMBags
      ≤ holdTotal (mainInit d sh0) ∧
    s.sh.fSt.nToTBagsPCB + s.sh.fSt.nToTBagsPSR + s.sh.fSt.nToTMBags + s.porter.loaded
      + holdTotal s.sh ≤ holdTotal (mainInit d sh0) := by
  have hinv := airportRun_inv (bagsInv (holdTotal (mainInit d sh0)))
    (bagsInv_step (holdTotal (mainInit d sh0))) sched _ s (bagsInv_start d sh0) hrun
  obtain ⟨-, hle⟩ := hinv
  exact ⟨by omega, hle⟩

set_option maxRecDepth 20000 in
/-- The six passengers check in; the porter rests, picks the bag of the transit passenger 1
and carries it to the storeroom. -/
theorem bags_carried_at_most_listed_witness :
    ((airportRun (airportStart transitWithBag zeroShared)
        (everyPassenger ++ [Actor.porter, Actor.porter, Actor.porter])).getD
      (airportStart transitWithBag zeroShared)).sh.fSt.nToTBagsPCB
    + ((airportRun (airportStart transitWithBag zeroShared)
        (everyPassenger ++ [Actor.porter, Actor.porter, Actor.porter])).getD
      (airportStart transitWithBag zeroShared)).sh.fSt.nToTBagsPSR
    + ((airportRun (airportStart transitWithBag zeroShared)
        (everyPassenger ++ [Actor.porter, Actor.porter, Actor.porter])).getD
      (airportStart transitWithBag zeroShared)).sh.fSt.nToTMBags
      ≤ holdTotal (mainInit transitWithBag zeroShared) :=
  (bags_carried_at_most_listed transitWithBag zeroShared
    (everyPassenger ++ [Actor.porter, Actor.porter, Actor.porter]) _
    (some_getD_of_isSome _ _ (by decide))).1

theorem luggageInv_start (d : Draws) (sh0 : SHARED_DATA) (hd : ∀ k p, d.rReal k p ≤ M) :
    luggageInv (airportStart d sh0) := by
  have h0 := mainInit_luggage d sh0 hd
  refine ⟨?_, ?_⟩
  · intro k p hk hp
    show ((mainInit d sh0).fSt.st.passStat k p).nBagsAct ≤ _
    rw [h0 k p hk hp]
    exact Nat.zero_le _
  · intro p hp
    constructor
    · intro k _ hk
      exact h0 k p hk hp
    · intro hc
      cases hc

/-- C30: in every state that a run of the three programs reaches from the state the generator
leaves (the draws for the number of bags being at most `M`, as the generator computes them),
every passenger record satisfies `nBagsAct <= nBagsReal`.  `goCollectABag` increments
`nBagsAct` without comparing it to `nBagsReal`, but a passenger calls it only while she holds
fewer bags than she expects: on entering the loop, when she holds none and expects some, and
after the value `NO`. -/
theorem bags_held_at_most_expected (d : Draws) (sh0 : SHARED_DATA) (sched : List Actor)
    (s : Airport) (hd : ∀ k p, d.rReal k p ≤ M)
    (hrun : airportRun (airportStart d sh0) sched = some s) :
    (∀ k p, k < K → p < N →
      (s.sh.fSt.st.passStat k p).nBagsAct ≤ (s.sh.fSt.st.passStat k p).nBagsReal) ∧
    (∀ p, p < N → (s.passenger p).collecting = true →
      (s.sh.fSt.st.passStat (s.passenger p).landing p).nBagsAct
        < (s.sh.fSt.st.passStat (s.passenger p).landing p).nBagsReal) := by
  have hinv := airportRun_inv luggageInv luggageInv_step sched _ s (luggageInv_start d sh0 hd) hrun
  exact ⟨hinv.1, fun p hp hc => ((hinv.2 p hp).2 hc).2⟩

set_option maxRecDepth 20000 in
/-- The six passengers check in; the porter rests, picks the bag of passenger 0 and puts it on
the belt; passenger 0 goes to the belt and collects it. -/
theorem bags_held_at_most_expected_witness :
    (((airportRun (airportStart oneBag zeroShared)
        (everyPassenger ++ [Actor.porter, Actor.porter, Actor.porter,
          Actor.passenger 0, Actor.passenger 0])).getD
      (airportStart oneBag zeroShared)).sh.fSt.st.passStat 0 0).nBagsAct
    ≤ (((airportRun (airportStart oneBag zeroShared)
        (everyPassenger ++ [Actor.porter, Actor.porter, Actor.porter,
          Actor.passenger 0, Actor.passenger 0])).getD
      (airportStart oneBag zeroShared)).sh.fSt.st.passStat 0 0).nBagsReal :=
  (bags_held_at_most_expected oneBag zeroShared
    (everyPassenger ++ [Actor.porter, Actor.porter, Actor.porter,
      Actor.passenger 0, Actor.passenger 0]) _
    (fun _ p => by by_cases h : p = 0 <;> simp [oneBag, h, M])
    (some_getD_of_isSome _ _ (by decide))).1 0 0 (by decide) (by decide)

end AirportRhapsody
